import Mathlib

/-!
# Mirrorbits: cluster membership and sharding

A shallow embedding of `src/daemon/cluster.go` (with `ElapsedSec` from
`src/utils/utils.go`) and the properties of the peer list, the mirror index and
the sharding predicate `IsHandled`.

Modelling conventions.

* A Go `string` is compared bytewise (`<`, `==`).  The code only ever compares
  and copies IDs, so the embedding is generic in a type `α` of identifiers with
  a linear order; concrete evaluations use `List Char` (the characters of an
  ASCII literal, ordered lexicographically).
* A Go slice is a `List`; `append(s[:i], s[i+1:]...)` is `s.take i ++ s.drop (i+1)`.
* `len`, `nodeIndex`, `nodeTotal` and slice indices are never negative: `Nat`.
* Unix timestamps (`int64`) are `Int`; they stay far from the 64-bit bounds.
* `time.Now().UTC().Unix()` is an explicit argument `now`.
-/

namespace Mirrorbits

/-! ## Go's `sort.Search` and `sort.SearchStrings` -/

/-- The loop of Go's `sort.Search`: `for i < j { h := int(uint(i+j) >> 1);
if !f(h) { i = h + 1 } else { j = h } }; return i`.  The first argument bounds
the number of iterations; `j - i` at least halves in each one. -/
def searchLoop (f : Nat → Bool) : Nat → Nat → Nat → Nat
  | 0, i, _ => i
  | fuel + 1, i, j =>
    if i < j then
      let h := (i + j) / 2
      if !f h then searchLoop f fuel (h + 1) j else searchLoop f fuel i h
    else i

/-- Go's `sort.Search(n, f)`: binary search on `[0, n)`. -/
def Search (n : Nat) (f : Nat → Bool) : Nat :=
  searchLoop f n 0 n

/-- Go's `sort.SearchStrings(a, x) = Search(len(a), func(i) { return a[i] >= x })`.
`Search` calls the predicate only inside `[0, len(a))`. -/
def SearchStrings {α : Type} [LinearOrder α] (a : List α) (x : α) : Nat :=
  Search a.length (fun i =>
    match a[i]? with
    | some y => decide (x ≤ y)
    | none => true)

/-! ## The cluster state -/

/-- A peer: `type Node struct { ID string; LastAnnounce int64 }`. -/
structure Node (α : Type) where
  ID : α
  LastAnnounce : Int
  deriving DecidableEq, Repr

/-- The fields of `type cluster struct` that the membership and sharding code
reads and writes. -/
structure Cluster (α : Type) where
  nodes : List (Node α)
  nodeIndex : Nat
  nodeTotal : Nat
  mirrorsIndex : List α

/-- The state built by `NewCluster`: no nodes, zero counters, nil index. -/
def NewCluster {α : Type} : Cluster α :=
  { nodes := [], nodeIndex := 0, nodeTotal := 0, mirrorsIndex := [] }

/-! ## Mirror index maintenance -/

/-- Go: `removeMirrorIDFromSlice`. -/
def removeMirrorIDFromSlice {α : Type} [LinearOrder α] (slice : List α) (mirrorID : α) :
    List α :=
  let idx := SearchStrings slice mirrorID
  if idx < slice.length ∧ slice[idx]? = some mirrorID then
    slice.take idx ++ slice.drop (idx + 1)
  else slice

/-- Go: `addMirrorIDToSlice`. -/
def addMirrorIDToSlice {α : Type} [LinearOrder α] (slice : List α) (mirrorID : α) :
    List α :=
  let idx := SearchStrings slice mirrorID
  if idx ≥ slice.length ∨ slice[idx]? ≠ some mirrorID then
    slice.take idx ++ (mirrorID :: slice.drop idx)
  else slice

/-- Go: `cluster.AddMirror` (the mirror record is used only through its ID). -/
def Cluster.AddMirror {α : Type} [LinearOrder α] (c : Cluster α) (mirrorID : α) :
    Cluster α :=
  { c with mirrorsIndex := addMirrorIDToSlice c.mirrorsIndex mirrorID }

/-- Go: `cluster.RemoveMirror`. -/
def Cluster.RemoveMirror {α : Type} [LinearOrder α] (c : Cluster α) (mirrorID : α) :
    Cluster α :=
  { c with mirrorsIndex := removeMirrorIDFromSlice c.mirrorsIndex mirrorID }

/-! ## Sharding -/

/-- The value of `int(float32(M)/float32(N) + 0.5)`: `M/N` rounded to the
nearest integer, halves upwards, written in integer arithmetic as
`(2M + N) / 2N`.  The two agree for `N ≥ 1` and `M + N ≤ 2^22`: the exact
quotient is at least `1 / 2N` away from the next half-integer, more than the
`float32` quotient and sum can be off by.  For `N = 0` Go leaves the conversion
unspecified. -/
def mRange (M N : Nat) : Nat :=
  (2 * M + N) / (2 * N)

/-- Go: `cluster.IsHandled`.  `c.nodeIndex == c.nodeTotal-1` on non-negative
ints is `nodeIndex + 1 = nodeTotal`. -/
def Cluster.IsHandled {α : Type} [LinearOrder α] (c : Cluster α) (mirrorID : α) : Bool :=
  let index := SearchStrings c.mirrorsIndex mirrorID
  let mRange := mRange c.mirrorsIndex.length c.nodeTotal
  let start := mRange * c.nodeIndex
  decide (index ≥ start ∧ (index < start + mRange ∨ c.nodeIndex + 1 = c.nodeTotal))

/-- The mirrors of the index that the peer with local index `k` among `N`
handles. -/
def owned {α : Type} [LinearOrder α] (mirrorsIndex : List α) (N k : Nat) : List α :=
  mirrorsIndex.filter
    (fun m => Cluster.IsHandled
      { nodes := [], nodeIndex := k, nodeTotal := N, mirrorsIndex := mirrorsIndex } m)

/-- The index of the examples: `["m1", ..., "m5"]`. -/
def fiveMirrors : List (List Char) :=
  ["m1".toList, "m2".toList, "m3".toList, "m4".toList, "m5".toList]

/-- An index of seven mirrors: `["m1", ..., "m7"]`. -/
def sevenMirrors : List (List Char) :=
  fiveMirrors ++ ["m6".toList, "m7".toList]

/-! ## Peer membership -/

/-- Go: `utils.ElapsedSec`, with the clock reading `time.Now().UTC().Unix()` as
the argument `now`. -/
def ElapsedSec (lastTimestamp elapsedTime now : Int) : Bool :=
  decide (lastTimestamp + elapsedTime < now)

/-- The loop "Expire unreachable nodes" of `refreshNodeList`, on the loop state
`(i, c.nodes, found)`.  An iteration either removes `nodes[i]` and keeps `i`
(`i--` then `i++`) or advances `i`, so `len(nodes) - i` drops by one each time;
the first argument bounds the number of iterations. -/
def expireLoop {α : Type} [LinearOrder α] (nodeID self : α) (now : Int) :
    Nat → Nat → List (Node α) → Bool → List (Node α) × Bool
  | 0, _, nodes, found => (nodes, found)
  | fuel + 1, i, nodes, found =>
    match nodes[i]? with
    | none => (nodes, found)
    | some n =>
      if ElapsedSec n.LastAnnounce 5 now = true ∧ n.ID ≠ nodeID ∧ n.ID ≠ self then
        expireLoop nodeID self now fuel i (nodes.take i ++ nodes.drop (i + 1)) found
      else if n.ID = nodeID then
        expireLoop nodeID self now fuel (i + 1)
          (nodes.set i { n with LastAnnounce := now }) true
      else
        expireLoop nodeID self now fuel (i + 1) nodes found

/-- Go: `sort.Sort(ByNodeID(c.nodes))`, ascending in `ID` (`Less(i, j)` is
`n[i].ID < n[j].ID`).  The library sort is modelled by insertion sort: every
sorting algorithm returns this list when the IDs are pairwise distinct, and the
same elements in an ascending order otherwise. -/
def sortByNodeID {α : Type} [LinearOrder α] (nodes : List (Node α)) : List (Node α) :=
  nodes.insertionSort (fun a b => a.ID ≤ b.ID)

/-- The loop `for i, n := range c.nodes { if n.ID == self { c.nodeIndex = i; break } }`
from position `i` on: the index it assigns, if it assigns one. -/
def findSelf {α : Type} [LinearOrder α] (self : α) : List (Node α) → Nat → Option Nat
  | [], _ => none
  | n :: rest, i => if n.ID = self then some i else findSelf self rest (i + 1)

/-- Go: `cluster.refreshNodeList(nodeID, self)` at clock reading `now`. -/
def Cluster.refreshNodeList {α : Type} [LinearOrder α] (c : Cluster α) (nodeID self : α)
    (now : Int) : Cluster α :=
  let r := expireLoop nodeID self now c.nodes.length 0 c.nodes false
  let nodes :=
    if r.2 = false then sortByNodeID (r.1 ++ [{ ID := nodeID, LastAnnounce := now }])
    else r.1
  { c with
    nodes := nodes
    nodeTotal := nodes.length
    nodeIndex :=
      match findSelf self nodes 0 with
      | some i => i
      | none => c.nodeIndex }

/-- A sequence of `refreshNodeList(a, self)` calls, each with its announcing ID
and its clock reading, applied in order. -/
def refreshAll {α : Type} [LinearOrder α] (self : α) (c : Cluster α)
    (hellos : List (α × Int)) : Cluster α :=
  hellos.foldl (fun st h => st.refreshNodeList h.1 self h.2) c

/-- Go: `clusterLoop` as far as the peer list goes: the initial
`refreshNodeList(nodeID, nodeID)` on the new cluster at time `t0`, then one
`refreshNodeList(a, nodeID)` for every announcement `HELLO a` received. -/
def clusterRun {α : Type} [LinearOrder α] (self : α) (t0 : Int)
    (hellos : List (α × Int)) : Cluster α :=
  refreshAll self (NewCluster.refreshNodeList self self t0) hellos

/-- The peer list of the example: `hostA` and `hostB` heard at 99, `hostC` at 94. -/
def threeHosts : Cluster (List Char) :=
  { nodes := [⟨"hostA".toList, 99⟩, ⟨"hostB".toList, 99⟩, ⟨"hostC".toList, 94⟩]
    nodeIndex := 1
    nodeTotal := 3
    mirrorsIndex := [] }

/-- One pass over the peer list: what the expiry loop leaves of it. -/
def expirePass {α : Type} [LinearOrder α] (nodeID self : α) (now : Int) :
    List (Node α) → List (Node α)
  | [] => []
  | n :: rest =>
    if ElapsedSec n.LastAnnounce 5 now = true ∧ n.ID ≠ nodeID ∧ n.ID ≠ self then
      expirePass nodeID self now rest
    else if n.ID = nodeID then
      { n with LastAnnounce := now } :: expirePass nodeID self now rest
    else
      n :: expirePass nodeID self now rest

/-! ## Recursive descriptions of the index operations

Two list recursions used to reason about `addMirrorIDToSlice` and
`removeMirrorIDFromSlice`; they are shown equal to the code on sorted slices. -/

/-- Insert `x` before the first element that is not below it, unless that
element is `x` itself. -/
def insertSorted {α : Type} [LinearOrder α] (x : α) : List α → List α
  | [] => [x]
  | b :: t =>
    if b < x then b :: insertSorted x t
    else if b = x then b :: t
    else x :: b :: t

/-- Drop the first element that is not below `x` when it is `x` itself. -/
def eraseSorted {α : Type} [LinearOrder α] (x : α) : List α → List α
  | [] => []
  | b :: t =>
    if b < x then b :: eraseSorted x t
    else if b = x then t
    else b :: t

/-! ## Strings, integers and times of the statistics code

A Go `string` is a byte sequence; here it is a `List Char`, one `Char` per byte
of an ASCII text.  The separators `'|'` and `'_'` are single bytes that never
occur inside a multi-byte UTF-8 sequence, so searching and slicing at these
positions agree with the bytewise operations. -/

/-- A Go `string`. -/
abbrev GoString := List Char

/-- The value of an `int64` computation whose exact result is `x`
(two's complement wrap-around). -/
def wrapInt64 (x : Int) : Int :=
  (x + 2 ^ 63) % 2 ^ 64 - 2 ^ 63

/-- Go: `strings.Index(s, sep)` for a one-byte `sep`: the first position of
`c`, or `-1`. -/
def Index (s : GoString) (c : Char) : Int :=
  if c ∈ s then (s.indexOf c : Int) else -1

/-- Go: `strings.LastIndex(s, sep)` for a one-byte `sep`: the last position of
`c`, or `-1`. -/
def LastIndex (s : GoString) (c : Char) : Int :=
  if c ∈ s then ((s.length - 1 - s.reverse.indexOf c : Nat) : Int) else -1

/-- Go: the slice expression `s[:n]`; `none` stands for the run-time panic
"slice bounds out of range". -/
def sliceTo (s : GoString) (n : Int) : Option GoString :=
  if 0 ≤ n ∧ n ≤ (s.length : Int) then some (s.take n.toNat) else none

/-- A Go `time.Time` in one fixed location: the calendar date and the time of
day in nanoseconds since midnight.  Years are taken from 0 to 9999. -/
structure Time where
  year : Nat
  month : Nat
  day : Nat
  nsec : Nat
  deriving DecidableEq, Repr

/-- The decimal digit of the units of `n`. -/
def digitChar (n : Nat) : Char :=
  match n % 10 with
  | 0 => '0'
  | 1 => '1'
  | 2 => '2'
  | 3 => '3'
  | 4 => '4'
  | 5 => '5'
  | 6 => '6'
  | 7 => '7'
  | 8 => '8'
  | _ => '9'

/-- A number on two digits, as the layouts `01` and `02` print month and day. -/
def pad2 (n : Nat) : GoString :=
  [digitChar (n / 10), digitChar n]

/-- A number on four digits, as the layout `2006` prints a year below 10000. -/
def pad4 (n : Nat) : GoString :=
  [digitChar (n / 1000), digitChar (n / 100), digitChar (n / 10), digitChar n]

/-- Go: `t.Format("2006")`. -/
def Time.formatYear (t : Time) : GoString :=
  pad4 t.year

/-- Go: `t.Format("2006_01")`. -/
def Time.formatMonth (t : Time) : GoString :=
  pad4 t.year ++ '_' :: pad2 t.month

/-- Go: `t.Format("2006_01_02")`. -/
def Time.formatDay (t : Time) : GoString :=
  pad4 t.year ++ '_' :: (pad2 t.month ++ '_' :: pad2 t.day)

/-! ## Download statistics -/

/-- Go: `Stats.mapStats`, a `map[string]int64`, as an association list with
pairwise distinct keys.  `range` visits the entries in the order of the list;
Go leaves that order open, and so does the order of the list. -/
abbrev StatsMap := List (GoString × Int)

/-- Go: `s.mapStats[k] += d` (a missing key reads as 0). -/
def StatsMap.add (m : StatsMap) (k : GoString) (d : Int) : StatsMap :=
  if m.any (fun e => decide (e.1 = k)) then
    m.map (fun e => if e.1 = k then (e.1, wrapInt64 (e.2 + d)) else e)
  else m ++ [(k, wrapInt64 (0 + d))]

/-- Go: `type countItem struct`. -/
structure countItem where
  mirrorID : GoString
  filepath : GoString
  size : Int
  time : Time
  deriving DecidableEq

/-- What the select loop of `processCountDownload` receives from `countChan`
and from `uaChan`; the user-agent case carries its reading of `time.Now()`. -/
inductive StatsEvent where
  | count (c : countItem)
  | ua (now : Time) (Platform OS Browser : GoString)
  deriving DecidableEq

/-- Go: the two receiving cases of `processCountDownload`. -/
def processEvent (m : StatsMap) : StatsEvent → StatsMap
  | .count c =>
    let date := c.time.formatDay ++ ['|']
    ((m.add ('f' :: (date ++ c.filepath)) 1).add ('m' :: (date ++ c.mirrorID)) 1).add
      ('s' :: (date ++ c.mirrorID)) c.size
  | .ua now Platform OS Browser =>
    let date := now.formatDay ++ ['|']
    ((m.add ('p' :: (date ++ Platform)) 1).add ('o' :: (date ++ OS)) 1).add
      ('b' :: (date ++ Browser)) 1

/-- The stats map after a sequence of events, from the empty map. -/
def processAll (events : List StatsEvent) : StatsMap :=
  events.foldl processEvent []

/-- A command sent to the store connection. -/
inductive Command where
  | MULTI
  | EXEC
  | HINCRBY (key field : GoString) (v : Int)
  | INCRBY (key : GoString) (v : Int)
  | ZINCRBY (key : GoString) (v : Int) (member : GoString)
  deriving DecidableEq

/-- Go: `for i := 0; i < 4; i++ { rconn.Send(...key...); key = key[:strings.LastIndex(key, "_")] }`
with `n` iterations left; `none` when a slice expression panics. -/
def rollingSend (send : GoString → Command) : Nat → GoString → Option (List Command)
  | 0, _ => some []
  | n + 1, key =>
    match sliceTo key (LastIndex key '_') with
    | none => none
    | some key2 =>
      match rollingSend send n key2 with
      | none => none
      | some rest => some (send key :: rest)

/-- Go: the body of `for k, v := range s.mapStats` in `pushStats`: the commands
sent for one entry. -/
def pushEntry (k : GoString) (v : Int) : Option (List Command) :=
  if v = 0 then some []
  else
    let separator := Index k '|'
    if separator ≤ 0 then some []
    else
      let typ := k.take 1
      let date := (k.take separator.toNat).drop 1
      let object := k.drop (separator.toNat + 1)
      if object = [] then some []
      else if typ = ['f'] then
        match rollingSend (fun key => Command.HINCRBY key object v) 4
            ("STATS_FILE_".toList ++ date) with
        | none => none
        | some cmds => some (cmds ++ [Command.INCRBY "STATS_TOTAL".toList v])
      else if typ = ['m'] then
        rollingSend (fun key => Command.HINCRBY key object v) 4 ("STATS_MIRROR_".toList ++ date)
      else if typ = ['s'] then
        rollingSend (fun key => Command.HINCRBY key object v) 4
          ("STATS_MIRROR_BYTES_".toList ++ date)
      else if typ = ['p'] then
        rollingSend (fun key => Command.ZINCRBY key v object) 4
          ("STATS_USERAGENT_platform_".toList ++ date)
      else if typ = ['o'] then
        rollingSend (fun key => Command.ZINCRBY key v object) 4
          ("STATS_USERAGENT_os_".toList ++ date)
      else if typ = ['b'] then
        rollingSend (fun key => Command.ZINCRBY key v object) 4
          ("STATS_USERAGENT_browser_".toList ++ date)
      else some []

/-- The commands of the whole `range` loop of `pushStats`. -/
def pushEntries : StatsMap → Option (List Command)
  | [] => some []
  | e :: rest =>
    match pushEntry e.1 e.2 with
    | none => none
    | some cmds =>
      match pushEntries rest with
      | none => none
      | some more => some (cmds ++ more)

/-- Go: `Stats.pushStats`.  `execErr` tells whether `rconn.Do("EXEC")` returns an
error.  The result is the list of commands sent and the new `mapStats`; `none`
when a slice expression panics. -/
def pushStats (mapStats : StatsMap) (execErr : Bool) : Option (List Command × StatsMap) :=
  if mapStats.length ≤ 0 then some ([], mapStats)
  else
    match pushEntries mapStats with
    | none => none
    | some cmds =>
      if execErr then some (Command.MULTI :: (cmds ++ [Command.EXEC]), mapStats)
      else some (Command.MULTI :: (cmds ++ [Command.EXEC]), [])

/-- The counters of the store that the statistics commands change: the fields
of the hashes and the integer keys.  (Sorted sets are left out.) -/
structure Store where
  hash : GoString → GoString → Int
  counter : GoString → Int

/-- The effect of one command on the store: `HINCRBY key field v` and
`INCRBY key v` add `v`. -/
def Store.apply (st : Store) : Command → Store
  | .HINCRBY key field v =>
    { st with hash := fun k f => if k = key ∧ f = field then st.hash k f + v else st.hash k f }
  | .INCRBY key v =>
    { st with counter := fun k => if k = key then st.counter k + v else st.counter k }
  | _ => st

/-- The store after a list of commands. -/
def Store.run (st : Store) (cmds : List Command) : Store :=
  cmds.foldl Store.apply st

/-- The store with every counter at zero. -/
def Store.zero : Store :=
  { hash := fun _ _ => 0, counter := fun _ => 0 }

/-- A download of `/a` (10 bytes) from mirror `M` on 17 May 2023 at `nsec`. -/
def downloadA (nsec : Nat) : StatsEvent :=
  .count { mirrorID := "M".toList, filepath := "/a".toList, size := 10
           time := { year := 2023, month := 5, day := 17, nsec := nsec } }

/-- The hash that holds the counters of a key type: `f` files, `m` mirrors,
`s` mirror bytes. -/
def statsHash (t : Char) : GoString :=
  if t = 'f' then "STATS_FILE".toList
  else if t = 'm' then "STATS_MIRROR".toList
  else "STATS_MIRROR_BYTES".toList

/-- What a command adds to field `F` of hash `K`. -/
def Command.hashDelta (K F : GoString) : Command → Int
  | .HINCRBY k f v => if k = K ∧ f = F then v else 0
  | _ => 0

/-- What a command adds to the integer key `K`. -/
def Command.counterDelta (K : GoString) : Command → Int
  | .INCRBY k v => if k = K then v else 0
  | _ => 0

/-- One download event of mirror `m`, file `f` and size `s` on the day
`y`-`mo`-`d` for every time of day in `times`. -/
def sameDayDownloads (m f : GoString) (s : Int) (y mo d : Nat) (times : List Nat) :
    List StatsEvent :=
  times.map (fun ns => StatsEvent.count
    { mirrorID := m, filepath := f, size := s
      time := { year := y, month := mo, day := d, nsec := ns } })

/-- The sum of `h` over the commands that the loop body sends for an entry. -/
def entrySum (h : Command → Int) (e : GoString × Int) : Int :=
  match pushEntry e.1 e.2 with
  | some c => (c.map h).sum
  | none => 0

/-! ## Date ranges (`utils.TimeKeyCoverage`)

The parts of Go's `time` package that `TimeKeyCoverage` uses, on the calendar
fields of `Time`: all times are in one location without clock changes. -/

/-- Leap years of the Gregorian calendar. -/
def isLeap (y : Nat) : Bool :=
  decide ((y % 4 = 0 ∧ y % 100 ≠ 0) ∨ y % 400 = 0)

/-- The number of days of a month. -/
def daysIn (y m : Nat) : Nat :=
  if m = 2 then (if isLeap y = true then 29 else 28)
  else if m = 4 ∨ m = 6 ∨ m = 9 ∨ m = 11 then 30
  else 31

/-- Go: `time.Date(y, m, 1, 0, 0, 0, 0, loc)` for `1 ≤ m ≤ 13`; month 13 is
normalised to January of the next year. -/
def Time.firstOfMonth (y m : Nat) : Time :=
  if m > 12 then { year := y + 1, month := m - 12, day := 1, nsec := 0 }
  else { year := y, month := m, day := 1, nsec := 0 }

/-- Go: `t.AddDate(0, 0, 1)`: the same time of day on the next calendar day. -/
def Time.addDay (t : Time) : Time :=
  if t.day + 1 > daysIn t.year t.month then
    (if t.month + 1 > 12 then { year := t.year + 1, month := 1, day := 1, nsec := t.nsec }
     else { year := t.year, month := t.month + 1, day := 1, nsec := t.nsec })
  else { t with day := t.day + 1 }

/-- Go: `t.Before(u)`. -/
def Time.Before (t u : Time) : Bool :=
  decide (t.year < u.year ∨ (t.year = u.year ∧ (t.month < u.month
    ∨ (t.month = u.month ∧ (t.day < u.day ∨ (t.day = u.day ∧ t.nsec < u.nsec))))))

/-- Go: `t.Equal(u)`. -/
def Time.Equal (t u : Time) : Bool :=
  decide (t = u)

/-- Go: `t.After(u)`. -/
def Time.After (t u : Time) : Bool :=
  u.Before t

/-- The first loop of `TimeKeyCoverage`: single days until the month changes or
`start` equals `end`.  State `(start, dates)`; the first argument bounds the
number of iterations. -/
def coverageDaysOfMonth (month : Nat) (endT : Time) :
    Nat → Time → List GoString → Time × List GoString
  | 0, start, dates => (start, dates)
  | fuel + 1, start, dates =>
    if start.month ≠ month ∨ start.Equal endT = true then (start, dates)
    else coverageDaysOfMonth month endT fuel start.addDay (dates ++ [start.formatDay])

/-- The second loop of `TimeKeyCoverage`: whole years and whole months. -/
def coverageYearsMonths (endT : Time) : Nat → Time → List GoString → Time × List GoString
  | 0, start, dates => (start, dates)
  | fuel + 1, start, dates =>
    let tmpyear := Time.firstOfMonth (start.year + 1) 1
    let tmpmonth := Time.firstOfMonth start.year (start.month + 1)
    if start.day = 1 ∧ start.month = 1
        ∧ (tmpyear.Before endT = true ∨ tmpyear.Equal endT = true) then
      coverageYearsMonths endT fuel tmpyear (dates ++ [start.formatYear])
    else if tmpmonth.Before endT = true ∨ tmpmonth.Equal endT = true then
      coverageYearsMonths endT fuel tmpmonth (dates ++ [start.formatMonth])
    else (start, dates)

/-- The third loop of `TimeKeyCoverage`: single days while the next day is not
after `end`. -/
def coverageLastDays (endT : Time) : Nat → Time → List GoString → Time × List GoString
  | 0, start, dates => (start, dates)
  | fuel + 1, start, dates =>
    if start.addDay.After endT = true then (start, dates)
    else coverageLastDays endT fuel start.addDay (dates ++ [start.formatDay])

/-- Go: `utils.TimeKeyCoverage(start, end)`.  The first and the third loop stay
inside one month (at most 31 iterations); the second advances by at least one
month per iteration and stops once the next month starts after `end`. -/
def TimeKeyCoverage (start endT : Time) : List GoString :=
  if start.day = endT.day ∧ start.month = endT.month ∧ start.year = endT.year then
    [start.formatDay]
  else
    let r1 :=
      if start.day ≠ 1 then coverageDaysOfMonth start.month endT 32 start []
      else (start, [])
    let r2 := coverageYearsMonths endT (12 * (endT.year + 1 - r1.1.year) + 1) r1.1 r1.2
    (coverageLastDays endT 32 r2.1 r2.2).2

/-- A time of day in nanoseconds since midnight. -/
def clock (h m s : Nat) : Nat :=
  ((h * 60 + m) * 60 + s) * 1000000000

/-! ## The monitor: registry, queues and workers

The scheduler of `monitor.go` as a state and its steps.  Each step is what one
goroutine does between two points where another goroutine may get in: one
dispatch tick (under `mapLock`), one `syncMirrorList` iteration, a worker
receiving an ID, a worker finishing its ID, one cluster announcement. -/

/-- Modelled from the spec: the record `mirrors.Mirror` of a mirror in the store
(package `mirrors`), with the fields that the scheduler reads: the identity `ID`,
the `Enabled` flag, the reachability `Up` and `LastSync` in Unix seconds. -/
structure MirrorRecord (α : Type) where
  ID : α
  Enabled : Bool
  Up : Bool
  LastSync : Int
  deriving DecidableEq

/-- Go: `type Mirror struct { mirrors.Mirror; checking bool; scanning bool;
lastCheck int64 }`; the embedded record is the field `mirror`. -/
structure Mirror (α : Type) where
  mirror : MirrorRecord α
  checking : Bool
  scanning : Bool
  lastCheck : Int
  deriving DecidableEq

/-- The configuration read through `GetConfig()`: both intervals in minutes. -/
structure Config where
  CheckInterval : Int
  ScanInterval : Int

/-- Go: `Mirror.NeedHealthCheck`. -/
def Mirror.NeedHealthCheck {α : Type} (v : Mirror α) (cfg : Config) (now : Int) : Bool :=
  ElapsedSec v.lastCheck (60 * cfg.CheckInterval) now

/-- Go: `Mirror.NeedSync`. -/
def Mirror.NeedSync {α : Type} (v : Mirror α) (cfg : Config) (now : Int) : Bool :=
  ElapsedSec v.mirror.LastSync (60 * cfg.ScanInterval) now

/-- Go: `Mirror.IsScanning`. -/
def Mirror.IsScanning {α : Type} (v : Mirror α) : Bool :=
  v.scanning

/-- Go: `Mirror.IsChecking`. -/
def Mirror.IsChecking {α : Type} (v : Mirror α) : Bool :=
  v.checking

/-- Go: `healthCheckThreads`; the health-check queue holds `healthCheckThreads*5` IDs. -/
def healthCheckThreads : Nat := 10

/-- The fields of `type Monitor struct` that the scheduler works on, and the IDs
that the workers hold.

* `mirrors` is the registry `map[string]*Mirror`.
* `healthCheckChan` is the content of the buffered channel, oldest first.
* `syncChan` is unbuffered: a send succeeds only when a scan worker is waiting,
  and the list holds the IDs handed to scan workers that have not yet looked
  the mirror up.
* `checksRunning` and `scansRunning` are the IDs that health-check and scan
  workers are working on, from the registry lookup to the final flag update. -/
structure Monitor (α : Type) where
  mirrors : α → Option (Mirror α)
  healthCheckChan : List α
  syncChan : List α
  checksRunning : List α
  scansRunning : List α
  cluster : Cluster α

/-- Go: `NewMonitor`: empty registry, empty queues, a new cluster. -/
def NewMonitor {α : Type} : Monitor α :=
  { mirrors := fun _ => none, healthCheckChan := [], syncChan := [], checksRunning := [],
    scansRunning := [], cluster := NewCluster }

/-- The assignment through the map entry `m.mirrors[k].field = ...`. -/
def Monitor.modify {α : Type} [LinearOrder α] (m : Monitor α) (k : α)
    (f : Mirror α → Mirror α) : Monitor α :=
  { m with mirrors := fun j => if j = k then (m.mirrors j).map f else m.mirrors j }

/-- The health-check part of the loop body of a dispatch tick for the entry
`k, v`: the non-blocking send on `healthCheckChan` and the flag. -/
def Monitor.dispatchHealth {α : Type} [LinearOrder α] (m : Monitor α) (cfg : Config)
    (now : Int) (k : α) (v : Mirror α) : Monitor α :=
  if v.NeedHealthCheck cfg now = true ∧ v.IsChecking = false ∧ m.cluster.IsHandled k = true then
    if m.healthCheckChan.length < healthCheckThreads * 5 then
      { m with healthCheckChan := m.healthCheckChan ++ [k] }.modify k
        (fun e => { e with checking := true })
    else m
  else m

/-- The scan part of the loop body of a dispatch tick for the entry `k, v`, with
`ready` scan workers waiting on `syncChan`. -/
def Monitor.dispatchScan {α : Type} [LinearOrder α] (s : Monitor α × Nat) (cfg : Config)
    (now : Int) (k : α) (v : Mirror α) : Monitor α × Nat :=
  if v.NeedSync cfg now = true ∧ v.IsScanning = false ∧ s.1.cluster.IsHandled k = true then
    if 0 < s.2 then
      ({ s.1 with syncChan := s.1.syncChan ++ [k] }.modify k
        (fun e => { e with scanning := true }), s.2 - 1)
    else s
  else s

/-- Go: the body of `for k, v := range m.mirrors` in the dispatch case of
`MonitorLoop`. -/
def dispatchOne {α : Type} [LinearOrder α] (cfg : Config) (now : Int)
    (s : Monitor α × Nat) (k : α) : Monitor α × Nat :=
  match s.1.mirrors k with
  | none => s
  | some v =>
    if v.mirror.Enabled = false then s
    else Monitor.dispatchScan (s.1.dispatchHealth cfg now k v, s.2) cfg now k v

/-- Go: the case `<-mirrorCheckTicker.C` of `MonitorLoop`.  `failure` is
`m.redis.Failure()`, `order` the order in which `range` visits the keys of the
registry and `ready` the number of scan workers waiting on `syncChan`. -/
def Monitor.dispatchTick {α : Type} [LinearOrder α] (m : Monitor α) (cfg : Config)
    (now : Int) (failure : Bool) (order : List α) (ready : Nat) : Monitor α :=
  if failure = true then m
  else (order.foldl (dispatchOne cfg now) (m, ready)).1

/-- What `m.cache.GetMirror(id)` returns: a record and no error, a record and
`redis.ErrNil`, or another error. -/
inductive FetchResult (α : Type) where
  | ok (mirror : MirrorRecord α)
  | errNil (mirror : MirrorRecord α)
  | otherError

/-- Go: one iteration of the loop of `syncMirrorList`, for `id` and the result of
`m.cache.GetMirror(id)`. -/
def Monitor.syncMirror {α : Type} [LinearOrder α] (m : Monitor α) (id : α) :
    FetchResult α → Monitor α
  | .otherError => m
  | .errNil mirror =>
    { m with
      mirrors := fun j => if j = id then none else m.mirrors j
      cluster := m.cluster.RemoveMirror mirror.ID }
  | .ok mirror =>
    match m.mirrors mirror.ID with
    | some tmp =>
      { m with
        cluster := m.cluster.AddMirror mirror.ID
        mirrors := fun j =>
          if j = mirror.ID then some { tmp with mirror := mirror } else m.mirrors j }
    | none =>
      { m with
        cluster := m.cluster.AddMirror mirror.ID
        mirrors := fun j =>
          if j = mirror.ID then
            some { mirror := mirror, checking := false, scanning := false, lastCheck := 0 }
          else m.mirrors j }

/-- Go: `Monitor.syncMirrorList(mirrorsIDs...)`, each ID with its fetch result. -/
def Monitor.syncMirrorList {α : Type} [LinearOrder α] (m : Monitor α)
    (fetches : List (α × FetchResult α)) : Monitor α :=
  fetches.foldl (fun st f => st.syncMirror f.1 f.2) m

/-- What a worker does on its channel: it keeps waiting (`idle`), it takes `k`
and dereferences a nil `m.mirrors[k]` (`nilEntry`), or it takes `k` and goes on
with the entry it found (`run`). -/
inductive WorkerStep (α : Type) where
  | idle
  | nilEntry (k : α)
  | run (k : α) (mirror : Mirror α) (m : Monitor α)

/-- Go: `healthCheckLoop` from `k := <-m.healthCheckChan` to the call
`m.healthCheck(mirror.Mirror)`. -/
def Monitor.healthCheckReceive {α : Type} (m : Monitor α) : WorkerStep α :=
  match m.healthCheckChan with
  | [] => .idle
  | k :: rest =>
    match m.mirrors k with
    | none => .nilEntry k
    | some v =>
      .run k v { m with healthCheckChan := rest, checksRunning := k :: m.checksRunning }

/-- The outcomes of `m.healthCheck(mirror.Mirror)` that `healthCheckLoop` tells
apart: the sentinel `mirrorNotScanned`, an error for which
`database.RedisIsLoading` holds, and everything else (no error included). -/
inductive HealthOutcome where
  | mirrorNotScanned
  | redisLoading
  | other
  deriving DecidableEq

/-- Go: `healthCheckLoop` after the call of `m.healthCheck`, at time `now`. -/
def Monitor.healthCheckFinish {α : Type} [LinearOrder α] (m : Monitor α) (k : α)
    (outcome : HealthOutcome) (now : Int) : Monitor α :=
  match outcome with
  | .mirrorNotScanned => { m with checksRunning := m.checksRunning.erase k }
  | .redisLoading =>
    { m with checksRunning := m.checksRunning.erase k }.modify k
      (fun e => { e with checking := false })
  | .other =>
    { m with checksRunning := m.checksRunning.erase k }.modify k
      (fun e => { e with lastCheck := now, checking := false })

/-- Go: `syncLoop` from `k := <-m.syncChan` to the registry lookup. -/
def Monitor.syncReceive {α : Type} (m : Monitor α) : WorkerStep α :=
  match m.syncChan with
  | [] => .idle
  | k :: rest =>
    match m.mirrors k with
    | none => .nilEntry k
    | some v => .run k v { m with syncChan := rest, scansRunning := k :: m.scansRunning }

/-- How a scan worker reaches the label `unlock`: by a `goto` (no lease, or
`scan.ScanInProgress`), or past the test `mirror.Up == false` with the value of
`mirror.Up` that it read. -/
inductive ScanOutcome where
  | skipped
  | scanned (up : Bool)
  deriving DecidableEq

/-- Go: `syncLoop` from the scan result to the end of the iteration: the
follow-up health check of a mirror that is down (a non-blocking send, no flag),
then `scanning = false`. -/
def Monitor.syncFinish {α : Type} [LinearOrder α] (m : Monitor α) (k : α)
    (outcome : ScanOutcome) : Monitor α :=
  let m1 :=
    if outcome = .scanned false ∧ m.healthCheckChan.length < healthCheckThreads * 5 then
      { m with healthCheckChan := m.healthCheckChan ++ [k] }
    else m
  { m1 with scansRunning := m1.scansRunning.erase k }.modify k
    (fun e => { e with scanning := false })

/-- The steps of the scheduler. -/
inductive SchedEvent (α : Type) where
  | tick (now : Int) (order : List α) (ready : Nat)
  | sync (id : α) (r : FetchResult α)
  | hello (nodeID self : α) (now : Int)
  | healthCheckReceive
  | healthCheckFinish (k : α) (outcome : HealthOutcome) (now : Int)
  | syncReceive
  | syncFinish (k : α) (outcome : ScanOutcome)

/-- The state after one step.  A worker step that cannot happen (nothing to
receive, an ID that no worker holds, a nil entry) leaves the state as it is. -/
def Monitor.step {α : Type} [LinearOrder α] (cfg : Config) (m : Monitor α) :
    SchedEvent α → Monitor α
  | .tick now order ready => m.dispatchTick cfg now false order ready
  | .sync id r => m.syncMirror id r
  | .hello nodeID self now => { m with cluster := m.cluster.refreshNodeList nodeID self now }
  | .healthCheckReceive =>
    match m.healthCheckReceive with
    | .run _ _ m2 => m2
    | _ => m
  | .healthCheckFinish k outcome now =>
    if k ∈ m.checksRunning then m.healthCheckFinish k outcome now else m
  | .syncReceive =>
    match m.syncReceive with
    | .run _ _ m2 => m2
    | _ => m
  | .syncFinish k outcome =>
    if k ∈ m.scansRunning then m.syncFinish k outcome else m

/-- The state after a sequence of steps from `NewMonitor`. -/
def Monitor.run {α : Type} [LinearOrder α] (cfg : Config) (events : List (SchedEvent α)) :
    Monitor α :=
  events.foldl (Monitor.step cfg) NewMonitor

/-- The health checks of `k` that are pending in the queue or in progress. -/
def Monitor.checks {α : Type} [LinearOrder α] (m : Monitor α) (k : α) : Nat :=
  (m.healthCheckChan ++ m.checksRunning).count k

/-- The scans of `k` that are handed to a worker or in progress. -/
def Monitor.scans {α : Type} [LinearOrder α] (m : Monitor α) (k : α) : Nat :=
  (m.syncChan ++ m.scansRunning).count k

/-- The value of `m.mirrors[k].checking`, false without an entry. -/
def Monitor.checking {α : Type} (m : Monitor α) (k : α) : Bool :=
  match m.mirrors k with
  | some v => v.checking
  | none => false

/-- The value of `m.mirrors[k].scanning`, false without an entry. -/
def Monitor.scanning {α : Type} (m : Monitor α) (k : α) : Bool :=
  match m.mirrors k with
  | some v => v.scanning
  | none => false

/-- The scans of `k` are exclusive: at most one is handed over or in progress,
and when there is one `scanning[k]` is set. -/
def Monitor.scanExclusive {α : Type} [LinearOrder α] (m : Monitor α) : Prop :=
  ∀ k, m.scans k ≤ 1 ∧ (1 ≤ m.scans k → m.scanning k = true)

/-- The health checks of `k` are exclusive: at most one is pending or in
progress, and when there is one `checking[k]` is set. -/
def Monitor.checkExclusive {α : Type} [LinearOrder α] (m : Monitor α) : Prop :=
  ∀ k, m.checks k ≤ 1 ∧ (1 ≤ m.checks k → m.checking k = true)

/-- A set `scanning` flag is backed by a scan handed over or in progress. -/
def Monitor.scanHeld {α : Type} [LinearOrder α] (m : Monitor α) : Prop :=
  ∀ k, m.scanning k = true → 1 ≤ m.scans k

/-- A set `checking` flag is backed by a health check pending or in progress. -/
def Monitor.checkHeld {α : Type} [LinearOrder α] (m : Monitor α) : Prop :=
  ∀ k, m.checking k = true → 1 ≤ m.checks k

/-- The step deletes a registry entry: `syncMirrorList` on an absent mirror. -/
def SchedEvent.deletes {α : Type} : SchedEvent α → Bool
  | .sync _ (.errNil _) => true
  | _ => false

/-- The step is a scan worker finishing on a mirror that is down: it sends the
follow-up health check, without reading or setting `checking`. -/
def SchedEvent.followsUp {α : Type} : SchedEvent α → Bool
  | .syncFinish _ (.scanned false) => true
  | _ => false

/-- The step is a health check ending with the sentinel `mirrorNotScanned`. -/
def SchedEvent.notScanned {α : Type} : SchedEvent α → Bool
  | .healthCheckFinish _ .mirrorNotScanned _ => true
  | _ => false

/-- A configuration with both intervals at one minute. -/
def minuteConfig : Config :=
  { CheckInterval := 1, ScanInterval := 1 }

/-- The record of a mirror `m1` that is enabled and down. -/
def mirrorM1 : MirrorRecord (List Char) :=
  { ID := "m1".toList, Enabled := true, Up := false, LastSync := 0 }

/-- The zero value of `mirrors.Mirror`, as Go functions return it along with an
error: the ID is the empty string. -/
def zeroRecord : MirrorRecord (List Char) :=
  { ID := [], Enabled := false, Up := false, LastSync := 0 }

/-- A monitor alone in its cluster (`hostA`) whose registry holds `m1`. -/
def oneMirror : Monitor (List Char) :=
  Monitor.run minuteConfig
    [.hello "hostA".toList "hostA".toList 0, .sync "m1".toList (.ok mirrorM1)]

/-! ## Binary search -/

/-- Binary search finds the threshold of a predicate that is false below `r`
and true from `r` on. -/
theorem searchLoop_eq (f : Nat → Bool) (n r : Nat)
    (hlo : ∀ k, k < r → f k = false) (hhi : ∀ k, r ≤ k → k < n → f k = true) :
    ∀ fuel i j, i ≤ r → r ≤ j → j ≤ n → j - i ≤ fuel → searchLoop f fuel i j = r := by
  intro fuel
  induction fuel with
  | zero =>
    intro i j hi hj _ hf
    simp only [searchLoop]
    omega
  | succ fuel ih =>
    intro i j hi hj hn hf
    simp only [searchLoop]
    by_cases hij : i < j
    · simp only [hij, if_true]
      have h1 : i ≤ (i + j) / 2 := by omega
      have h2 : (i + j) / 2 < j := by omega
      cases hfh : f ((i + j) / 2) with
      | false =>
        simp only [Bool.not_false, if_true]
        have hlt : (i + j) / 2 < r := by
          by_contra hc
          have := hhi ((i + j) / 2) (by omega) (by omega)
          rw [hfh] at this
          exact Bool.noConfusion this
        exact ih _ _ (by omega) hj hn (by omega)
      | true =>
        simp only [Bool.not_true]
        have hge : r ≤ (i + j) / 2 := by
          by_contra hc
          have := hlo ((i + j) / 2) (by omega)
          rw [hfh] at this
          exact Bool.noConfusion this
        exact ih _ _ hi hge (by omega) (by omega)
    · simp only [hij, if_false]
      omega

theorem Search_eq (f : Nat → Bool) (n r : Nat) (hr : r ≤ n)
    (hlo : ∀ k, k < r → f k = false) (hhi : ∀ k, r ≤ k → k < n → f k = true) :
    Search n f = r :=
  searchLoop_eq f n r hlo hhi n 0 n (Nat.zero_le _) hr (Nat.le_refl _) (by omega)

/-! ## `SearchStrings` on a sorted slice -/

section Index

variable {α : Type} [LinearOrder α]

theorem le_of_mem_dropWhile (x : α) :
    ∀ a : List α, a.Sorted (· ≤ ·) → ∀ y ∈ a.dropWhile (fun b => decide (b < x)), x ≤ y := by
  intro a
  induction a with
  | nil => intro _ y hy; simp at hy
  | cons b t ih =>
    intro hs y hy
    rw [List.sorted_cons] at hs
    by_cases hb : b < x
    · rw [List.dropWhile_cons_of_pos (by simpa using hb)] at hy
      exact ih hs.2 y hy
    · rw [List.dropWhile_cons_of_neg (by simpa using hb)] at hy
      rcases List.mem_cons.1 hy with h | h
      · subst h; exact not_lt.1 hb
      · exact le_trans (not_lt.1 hb) (hs.1 y h)

/-- On a sorted slice `SearchStrings` returns the number of elements below `x`. -/
theorem SearchStrings_eq (a : List α) (x : α) (hs : a.Sorted (· ≤ ·)) :
    SearchStrings a x = (a.takeWhile (fun b => decide (b < x))).length := by
  unfold SearchStrings
  have hsplit := List.takeWhile_append_dropWhile (fun b => decide (b < x)) a
  have hlen : (a.takeWhile (fun b => decide (b < x))).length
      + (a.dropWhile (fun b => decide (b < x))).length = a.length := by
    rw [← List.length_append, hsplit]
  apply Search_eq
  · omega
  · intro k hk
    have h1 : a[k]? = (a.takeWhile (fun b => decide (b < x)))[k]? := by
      conv_lhs => rw [← hsplit]
      exact List.getElem?_append_left hk
    rw [h1, List.getElem?_eq_getElem hk]
    have hm := List.mem_takeWhile_imp (List.getElem_mem hk)
    simp only [decide_eq_true_eq] at hm
    simpa using hm
  · intro k hk hkn
    have h1 : a[k]? = (a.dropWhile (fun b => decide (b < x)))[k
        - (a.takeWhile (fun b => decide (b < x))).length]? := by
      conv_lhs => rw [← hsplit]
      exact List.getElem?_append_right hk
    have hk2 : k - (a.takeWhile (fun b => decide (b < x))).length
        < (a.dropWhile (fun b => decide (b < x))).length := by omega
    rw [h1, List.getElem?_eq_getElem hk2]
    have hm := le_of_mem_dropWhile x a hs _ (List.getElem_mem hk2)
    simpa using hm

theorem add_aux (x : α) : ∀ s : List α,
    (if (s.takeWhile (fun b => decide (b < x))).length ≥ s.length
        ∨ s[(s.takeWhile (fun b => decide (b < x))).length]? ≠ some x then
      s.take (s.takeWhile (fun b => decide (b < x))).length
        ++ (x :: s.drop (s.takeWhile (fun b => decide (b < x))).length)
    else s) = insertSorted x s := by
  intro s
  induction s with
  | nil => simp [insertSorted]
  | cons b t ih =>
    by_cases hb : b < x
    · have htw : (b :: t).takeWhile (fun b => decide (b < x))
          = b :: t.takeWhile (fun b => decide (b < x)) := by
        simp [List.takeWhile_cons, hb]
      rw [htw]
      simp only [insertSorted, hb, if_true, List.length_cons,
        List.getElem?_cons_succ, List.take_succ_cons, List.drop_succ_cons, ge_iff_le,
        Nat.add_le_add_iff_right, List.cons_append]
      rw [← ih]
      split_ifs <;> rfl
    · have htw : (b :: t).takeWhile (fun b => decide (b < x)) = [] := by
        simp [List.takeWhile_cons, hb]
      rw [htw]
      simp only [insertSorted, hb, if_false, List.length_nil,
        List.length_cons, List.take_zero, List.drop_zero, List.nil_append]
      by_cases hbx : b = x
      · simp [hbx]
      · simp [hbx]

theorem remove_aux (x : α) : ∀ s : List α,
    (if (s.takeWhile (fun b => decide (b < x))).length < s.length
        ∧ s[(s.takeWhile (fun b => decide (b < x))).length]? = some x then
      s.take (s.takeWhile (fun b => decide (b < x))).length
        ++ s.drop ((s.takeWhile (fun b => decide (b < x))).length + 1)
    else s) = eraseSorted x s := by
  intro s
  induction s with
  | nil => simp [eraseSorted]
  | cons b t ih =>
    by_cases hb : b < x
    · have htw : (b :: t).takeWhile (fun b => decide (b < x))
          = b :: t.takeWhile (fun b => decide (b < x)) := by
        simp [List.takeWhile_cons, hb]
      rw [htw]
      simp only [eraseSorted, hb, if_true, List.length_cons,
        List.getElem?_cons_succ, List.take_succ_cons, List.drop_succ_cons,
        Nat.add_lt_add_iff_right, List.cons_append]
      rw [← ih]
      split_ifs <;> rfl
    · have htw : (b :: t).takeWhile (fun b => decide (b < x)) = [] := by
        simp [List.takeWhile_cons, hb]
      rw [htw]
      simp only [eraseSorted, hb, if_false, List.length_nil,
        List.length_cons, List.take_zero, List.nil_append]
      by_cases hbx : b = x
      · simp [hbx]
      · simp [hbx]

theorem addMirrorIDToSlice_eq (s : List α) (x : α) (hs : s.Sorted (· ≤ ·)) :
    addMirrorIDToSlice s x = insertSorted x s := by
  unfold addMirrorIDToSlice
  simp only [SearchStrings_eq s x hs]
  exact add_aux x s

theorem removeMirrorIDFromSlice_eq (s : List α) (x : α) (hs : s.Sorted (· ≤ ·)) :
    removeMirrorIDFromSlice s x = eraseSorted x s := by
  unfold removeMirrorIDFromSlice
  simp only [SearchStrings_eq s x hs]
  exact remove_aux x s

theorem sorted_le_of_lt {s : List α} (hs : s.Sorted (· < ·)) : s.Sorted (· ≤ ·) :=
  List.Pairwise.imp (fun h => le_of_lt h) hs

theorem mem_insertSorted (x y : α) : ∀ s : List α, y ∈ insertSorted x s ↔ y = x ∨ y ∈ s := by
  intro s
  induction s with
  | nil => simp [insertSorted]
  | cons b t ih =>
    simp only [insertSorted]
    split_ifs with h1 h2
    · simp only [List.mem_cons, ih]; tauto
    · subst h2; simp only [List.mem_cons]; tauto
    · simp only [List.mem_cons]

theorem insertSorted_sorted (x : α) : ∀ s : List α, s.Sorted (· < ·) →
    (insertSorted x s).Sorted (· < ·) := by
  intro s
  induction s with
  | nil => intro _; simp [insertSorted]
  | cons b t ih =>
    intro hs
    have hs2 := List.sorted_cons.1 hs
    simp only [insertSorted]
    split_ifs with h1 h2
    · refine List.sorted_cons.2 ⟨?_, ih hs2.2⟩
      intro y hy
      rcases (mem_insertSorted x y t).1 hy with h | h
      · subst h; exact h1
      · exact hs2.1 y h
    · exact hs
    · have hxb : x < b := lt_of_le_of_ne (not_lt.1 h1) (Ne.symm h2)
      refine List.sorted_cons.2 ⟨?_, hs⟩
      intro y hy
      rcases List.mem_cons.1 hy with h | h
      · subst h; exact hxb
      · exact lt_trans hxb (hs2.1 y h)

theorem insertSorted_of_mem (x : α) : ∀ s : List α, s.Sorted (· < ·) → x ∈ s →
    insertSorted x s = s := by
  intro s
  induction s with
  | nil => intro _ h; simp at h
  | cons b t ih =>
    intro hs hx
    have hs2 := List.sorted_cons.1 hs
    simp only [insertSorted]
    split_ifs with h1 h2
    · rcases List.mem_cons.1 hx with h | h
      · subst h; exact absurd h1 (lt_irrefl _)
      · rw [ih hs2.2 h]
    · rfl
    · rcases List.mem_cons.1 hx with h | h
      · exact absurd h.symm h2
      · exact absurd (hs2.1 x h) h1

theorem eraseSorted_of_not_mem (x : α) : ∀ s : List α, x ∉ s → eraseSorted x s = s := by
  intro s
  induction s with
  | nil => intro _; rfl
  | cons b t ih =>
    intro hx
    simp only [List.mem_cons, not_or] at hx
    simp only [eraseSorted]
    split_ifs with h1 h2
    · rw [ih hx.2]
    · exact absurd h2.symm hx.1
    · rfl

theorem eraseSorted_insertSorted (x : α) : ∀ s : List α, s.Sorted (· < ·) → x ∉ s →
    eraseSorted x (insertSorted x s) = s := by
  intro s
  induction s with
  | nil => intro _ _; simp [insertSorted, eraseSorted]
  | cons b t ih =>
    intro hs hx
    have hs2 := List.sorted_cons.1 hs
    simp only [List.mem_cons, not_or] at hx
    simp only [insertSorted]
    split_ifs with h1 h2
    · simp only [eraseSorted, h1, if_true]
      rw [ih hs2.2 hx.2]
    · exact absurd h2.symm hx.1
    · simp [eraseSorted]

theorem eraseSorted_sublist (x : α) : ∀ s : List α, (eraseSorted x s).Sublist s := by
  intro s
  induction s with
  | nil => exact List.Sublist.refl _
  | cons b t ih =>
    simp only [eraseSorted]
    split_ifs with h1 h2
    · exact List.Sublist.cons₂ b ih
    · exact List.sublist_cons_self b t
    · exact List.Sublist.refl _

theorem mem_eraseSorted (x y : α) : ∀ s : List α, s.Sorted (· < ·) →
    (y ∈ eraseSorted x s ↔ y ≠ x ∧ y ∈ s) := by
  intro s
  induction s with
  | nil => intro _; simp [eraseSorted]
  | cons b t ih =>
    intro hs
    have hs2 := List.sorted_cons.1 hs
    simp only [eraseSorted]
    split_ifs with h1 h2
    · simp only [List.mem_cons, ih hs2.2]
      constructor
      · rintro (h | h)
        · subst h; exact ⟨ne_of_lt h1, Or.inl rfl⟩
        · exact ⟨h.1, Or.inr h.2⟩
      · rintro ⟨h, h3 | h3⟩
        · exact Or.inl h3
        · exact Or.inr ⟨h, h3⟩
    · subst h2
      simp only [List.mem_cons]
      constructor
      · intro h; exact ⟨ne_of_gt (hs2.1 y h), Or.inr h⟩
      · rintro ⟨h, h3 | h3⟩
        · exact absurd h3 h
        · exact h3
    · have hxb : x < b := lt_of_le_of_ne (not_lt.1 h1) (Ne.symm h2)
      simp only [List.mem_cons]
      constructor
      · rintro (h | h)
        · subst h; exact ⟨ne_of_gt hxb, Or.inl rfl⟩
        · exact ⟨ne_of_gt (lt_trans hxb (hs2.1 y h)), Or.inr h⟩
      · rintro ⟨_, h⟩; exact h

/-- On a strictly ascending slice the search for the element at position `p`
returns `p`. -/
theorem SearchStrings_get (s : List α) (hs : s.Sorted (· < ·)) (p : Nat) (hp : p < s.length) :
    SearchStrings s (s.get ⟨p, hp⟩) = p := by
  unfold SearchStrings
  apply Search_eq _ _ _ (le_of_lt hp)
  · intro k hk
    have hk2 : k < s.length := by omega
    rw [List.getElem?_eq_getElem hk2]
    have := hs.rel_get_of_lt (a := ⟨k, hk2⟩) (b := ⟨p, hp⟩) hk
    simpa using this
  · intro k hk hkn
    rw [List.getElem?_eq_getElem hkn]
    rcases Nat.eq_or_lt_of_le hk with h | h
    · subst h; simp
    · have := hs.rel_get_of_lt (a := ⟨p, hp⟩) (b := ⟨k, hkn⟩) h
      simpa using le_of_lt this

end Index

/-- The intervals `[R·k, R·k + R)` for `k < N - 1` and `[R·(N-1), ∞)` for the last
peer: every position satisfies the bounds test of exactly one `k < N`. -/
theorem shard_unique (R N p : Nat) (hN : 1 ≤ N) :
    ∃! k, k < N ∧ (p ≥ R * k ∧ (p < R * k + R ∨ k + 1 = N)) := by
  rcases Nat.eq_zero_or_pos R with hR | hR
  · subst hR
    refine ⟨N - 1, ⟨by omega, by simp, Or.inr (by omega)⟩, ?_⟩
    rintro k ⟨_, _, h | h⟩
    · simp at h
    · omega
  · have key : ∀ k, (p ≥ R * k ∧ (p < R * k + R ∨ k + 1 = N))
        ↔ (k ≤ p / R ∧ (p / R < k + 1 ∨ k + 1 = N)) := by
      intro k
      have e1 : R * k ≤ p ↔ k ≤ p / R := by
        rw [Nat.le_div_iff_mul_le hR, Nat.mul_comm]
      have e2 : p < R * k + R ↔ p / R < k + 1 := by
        rw [Nat.div_lt_iff_lt_mul hR, Nat.add_mul, Nat.one_mul, Nat.mul_comm]
      rw [ge_iff_le, e1, e2]
    refine ⟨min (p / R) (N - 1), ⟨by omega, (key _).2 (by omega)⟩, ?_⟩
    rintro k ⟨hk, hc⟩
    have := (key k).1 hc
    omega

/-! ## The expiry loop -/

section Membership

variable {α : Type} [LinearOrder α]

/-- The index loop, started behind an already processed part `pre`, is the pass
over the rest; `found` is set exactly when a node carries the announcing ID. -/
theorem expireLoop_eq (nodeID self : α) (now : Int) :
    ∀ (suf pre : List (Node α)) (fuel : Nat) (found : Bool), suf.length ≤ fuel →
      expireLoop nodeID self now fuel pre.length (pre ++ suf) found
        = (pre ++ expirePass nodeID self now suf,
            found || suf.any (fun n => decide (n.ID = nodeID))) := by
  intro suf
  induction suf with
  | nil =>
    intro pre fuel found _
    cases fuel <;> simp [expireLoop, expirePass]
  | cons n rest ih =>
    intro pre fuel found hf
    cases fuel with
    | zero => simp at hf
    | succ f =>
      have hf2 : rest.length ≤ f := by simpa using hf
      have hget : (pre ++ n :: rest)[pre.length]? = some n := by
        rw [List.getElem?_append_right (Nat.le_refl _)]
        simp
      simp only [expireLoop, hget, expirePass]
      by_cases h1 : ElapsedSec n.LastAnnounce 5 now = true ∧ n.ID ≠ nodeID ∧ n.ID ≠ self
      · have hcut : (pre ++ n :: rest).take pre.length
            ++ (pre ++ n :: rest).drop (pre.length + 1) = pre ++ rest := by
          simp
        rw [if_pos h1, if_pos h1, hcut, ih pre f found hf2]
        simp [h1.2.1]
      · rw [if_neg h1, if_neg h1]
        by_cases h2 : n.ID = nodeID
        · have hset : (pre ++ n :: rest).set pre.length { n with LastAnnounce := now }
              = (pre ++ [{ n with LastAnnounce := now }]) ++ rest := by
            simp
          have hlen : pre.length + 1 = (pre ++ [{ n with LastAnnounce := now }]).length := by
            simp
          rw [if_pos h2, if_pos h2, hset, hlen, ih _ f true hf2]
          simp [h2]
        · have hlen : pre.length + 1 = (pre ++ [n]).length := by simp
          have happ : pre ++ n :: rest = (pre ++ [n]) ++ rest := by simp
          rw [if_neg h2, if_neg h2, happ, hlen, ih _ f found hf2]
          simp [h2]

theorem expireLoop_nodes (nodeID self : α) (now : Int) (nodes : List (Node α)) :
    expireLoop nodeID self now nodes.length 0 nodes false
      = (expirePass nodeID self now nodes, nodes.any (fun n => decide (n.ID = nodeID))) := by
  have := expireLoop_eq nodeID self now nodes [] nodes.length false (Nat.le_refl _)
  simpa using this

/-- The peer list after `refreshNodeList`. -/
theorem refreshNodeList_nodes (c : Cluster α) (nodeID self : α) (now : Int) :
    (c.refreshNodeList nodeID self now).nodes
      = if c.nodes.any (fun n => decide (n.ID = nodeID)) = false then
          sortByNodeID (expirePass nodeID self now c.nodes
            ++ [{ ID := nodeID, LastAnnounce := now }])
        else expirePass nodeID self now c.nodes := by
  simp only [Cluster.refreshNodeList, expireLoop_nodes]

theorem mem_expirePass (nodeID self : α) (now : Int) (n : Node α) :
    ∀ nodes : List (Node α), n ∈ expirePass nodeID self now nodes ↔
      (n ∈ nodes ∧ n.ID ≠ nodeID ∧ ¬ (now - n.LastAnnounce > 5 ∧ n.ID ≠ self))
        ∨ (n = { ID := nodeID, LastAnnounce := now } ∧ ∃ m ∈ nodes, m.ID = nodeID) := by
  intro nodes
  induction nodes with
  | nil => simp [expirePass]
  | cons b t ih =>
    have hel : ∀ m : Node α, ElapsedSec m.LastAnnounce 5 now = true ↔ now - m.LastAnnounce > 5 := by
      intro m
      simp only [ElapsedSec, decide_eq_true_eq]
      omega
    simp only [expirePass]
    by_cases h1 : ElapsedSec b.LastAnnounce 5 now = true ∧ b.ID ≠ nodeID ∧ b.ID ≠ self
    · rw [if_pos h1, ih]
      have hb := (hel b).1 h1.1
      constructor
      · rintro (⟨h, h2⟩ | ⟨h, m, hm, hm2⟩)
        · exact Or.inl ⟨List.mem_cons_of_mem _ h, h2⟩
        · exact Or.inr ⟨h, m, List.mem_cons_of_mem _ hm, hm2⟩
      · rintro (⟨h, h2, h3⟩ | ⟨h, m, hm, hm2⟩)
        · rcases List.mem_cons.1 h with h4 | h4
          · subst h4; exact absurd ⟨hb, h1.2.2⟩ h3
          · exact Or.inl ⟨h4, h2, h3⟩
        · rcases List.mem_cons.1 hm with h4 | h4
          · subst h4; exact absurd hm2 h1.2.1
          · exact Or.inr ⟨h, m, h4, hm2⟩
    · rw [if_neg h1]
      by_cases h2 : b.ID = nodeID
      · rw [if_pos h2, List.mem_cons, ih]
        constructor
        · rintro (h | ⟨h, h3⟩ | ⟨h, m, hm, hm2⟩)
          · refine Or.inr ⟨?_, b, List.mem_cons_self _ _, h2⟩
            rw [h, ← h2]
          · exact Or.inl ⟨List.mem_cons_of_mem _ h, h3⟩
          · exact Or.inr ⟨h, m, List.mem_cons_of_mem _ hm, hm2⟩
        · rintro (⟨h, h3, h4⟩ | ⟨h, _⟩)
          · rcases List.mem_cons.1 h with h5 | h5
            · subst h5; exact absurd h2 h3
            · exact Or.inr (Or.inl ⟨h5, h3, h4⟩)
          · left
            rw [h, ← h2]
      · rw [if_neg h2, List.mem_cons, ih]
        have hkeep : ¬ (now - b.LastAnnounce > 5 ∧ b.ID ≠ self) := by
          rintro ⟨h3, h4⟩
          exact h1 ⟨(hel b).2 h3, h2, h4⟩
        constructor
        · rintro (h | ⟨h, h3⟩ | ⟨h, m, hm, hm2⟩)
          · subst h; exact Or.inl ⟨List.mem_cons_self _ _, h2, hkeep⟩
          · exact Or.inl ⟨List.mem_cons_of_mem _ h, h3⟩
          · exact Or.inr ⟨h, m, List.mem_cons_of_mem _ hm, hm2⟩
        · rintro (⟨h, h3, h4⟩ | ⟨h, m, hm, hm2⟩)
          · rcases List.mem_cons.1 h with h5 | h5
            · exact Or.inl h5
            · exact Or.inr (Or.inl ⟨h5, h3, h4⟩)
          · rcases List.mem_cons.1 hm with h5 | h5
            · subst h5; exact absurd hm2 h2
            · exact Or.inr (Or.inr ⟨h, m, h5, hm2⟩)

/-- Membership in the peer list after `refreshNodeList`. -/
theorem mem_refreshNodeList (c : Cluster α) (nodeID self : α) (now : Int) (n : Node α) :
    n ∈ (c.refreshNodeList nodeID self now).nodes ↔
      (n ∈ c.nodes ∧ n.ID ≠ nodeID ∧ ¬ (now - n.LastAnnounce > 5 ∧ n.ID ≠ self))
        ∨ n = { ID := nodeID, LastAnnounce := now } := by
  rw [refreshNodeList_nodes]
  by_cases hf : c.nodes.any (fun n => decide (n.ID = nodeID)) = false
  · rw [if_pos hf]
    have hno : ¬ ∃ m ∈ c.nodes, m.ID = nodeID := by
      rintro ⟨m, hm, hm2⟩
      have : c.nodes.any (fun n => decide (n.ID = nodeID)) = true :=
        List.any_eq_true.2 ⟨m, hm, by simpa using hm2⟩
      rw [hf] at this
      exact Bool.noConfusion this
    unfold sortByNodeID
    rw [(List.perm_insertionSort _ _).mem_iff, List.mem_append, mem_expirePass,
      List.mem_singleton]
    constructor
    · rintro ((h | ⟨_, h⟩) | h)
      · exact Or.inl h
      · exact absurd h hno
      · exact Or.inr h
    · rintro (h | h)
      · exact Or.inl (Or.inl h)
      · exact Or.inr h
  · rw [if_neg hf, mem_expirePass]
    have hyes : ∃ m ∈ c.nodes, m.ID = nodeID := by
      have h2 : c.nodes.any (fun n => decide (n.ID = nodeID)) = true := by
        simpa using hf
      obtain ⟨m, hm, hm2⟩ := List.any_eq_true.1 h2
      exact ⟨m, hm, by simpa using hm2⟩
    constructor
    · rintro (h | ⟨h, _⟩)
      · exact Or.inl h
      · exact Or.inr h
    · rintro (h | h)
      · exact Or.inl h
      · exact Or.inr ⟨h, hyes⟩

theorem expirePass_ids_sublist (nodeID self : α) (now : Int) : ∀ nodes : List (Node α),
    ((expirePass nodeID self now nodes).map Node.ID).Sublist (nodes.map Node.ID) := by
  intro nodes
  induction nodes with
  | nil => exact List.Sublist.refl _
  | cons b t ih =>
    simp only [expirePass]
    split_ifs with h1 h2
    · exact List.Sublist.cons _ ih
    · exact List.Sublist.cons₂ _ ih
    · exact List.Sublist.cons₂ _ ih

theorem not_mem_ids_of_any_false (nodeID : α) (nodes : List (Node α))
    (hf : nodes.any (fun n => decide (n.ID = nodeID)) = false) :
    nodeID ∉ nodes.map Node.ID := by
  intro h
  obtain ⟨m, hm, hm2⟩ := List.mem_map.1 h
  have : nodes.any (fun n => decide (n.ID = nodeID)) = true :=
    List.any_eq_true.2 ⟨m, hm, by simpa using hm2⟩
  rw [hf] at this
  exact Bool.noConfusion this

/-- The IDs after a join are a permutation of the kept IDs and the new one. -/
theorem sortByNodeID_ids_perm (nodes : List (Node α)) :
    ((sortByNodeID nodes).map Node.ID).Perm (nodes.map Node.ID) :=
  (List.perm_insertionSort _ nodes).map _

theorem sortByNodeID_ids_sorted (nodes : List (Node α)) :
    ((sortByNodeID nodes).map Node.ID).Sorted (· ≤ ·) := by
  haveI : IsTotal (Node α) (fun a b => a.ID ≤ b.ID) := ⟨fun a b => le_total a.ID b.ID⟩
  haveI : IsTrans (Node α) (fun a b => a.ID ≤ b.ID) := ⟨fun _ _ _ h1 h2 => le_trans h1 h2⟩
  have h := List.sorted_insertionSort (fun a b : Node α => a.ID ≤ b.ID) nodes
  exact List.pairwise_map.2 h

/-- Duplicate-freeness of the IDs is kept by `refreshNodeList`. -/
theorem refreshNodeList_ids_nodup (c : Cluster α) (nodeID self : α) (now : Int)
    (hnd : (c.nodes.map Node.ID).Nodup) :
    ((c.refreshNodeList nodeID self now).nodes.map Node.ID).Nodup := by
  rw [refreshNodeList_nodes]
  have hsub := expirePass_ids_sublist nodeID self now c.nodes
  by_cases hf : c.nodes.any (fun n => decide (n.ID = nodeID)) = false
  · rw [if_pos hf]
    have hno := not_mem_ids_of_any_false nodeID c.nodes hf
    refine (sortByNodeID_ids_perm _).symm.nodup ?_
    rw [List.map_append, List.map_singleton]
    refine List.nodup_append.2 ⟨hsub.nodup hnd, List.nodup_singleton _, ?_⟩
    intro x hx hx2
    rw [List.mem_singleton] at hx2
    subst hx2
    exact hno (hsub.subset hx)
  · rw [if_neg hf]
    exact hsub.nodup hnd

/-- Strictly ascending IDs are kept by `refreshNodeList`. -/
theorem refreshNodeList_ids_sorted (c : Cluster α) (nodeID self : α) (now : Int)
    (hs : (c.nodes.map Node.ID).Sorted (· < ·)) :
    ((c.refreshNodeList nodeID self now).nodes.map Node.ID).Sorted (· < ·) := by
  have hnd := refreshNodeList_ids_nodup c nodeID self now hs.nodup
  rw [refreshNodeList_nodes] at hnd ⊢
  by_cases hf : c.nodes.any (fun n => decide (n.ID = nodeID)) = false
  · rw [if_pos hf] at hnd ⊢
    exact (sortByNodeID_ids_sorted _).lt_of_le hnd
  · rw [if_neg hf]
    exact List.Pairwise.sublist (expirePass_ids_sublist nodeID self now c.nodes) hs

theorem refreshAll_ids_sorted (self : α) : ∀ (hellos : List (α × Int)) (c : Cluster α),
    (c.nodes.map Node.ID).Sorted (· < ·) →
      ((refreshAll self c hellos).nodes.map Node.ID).Sorted (· < ·) := by
  intro hellos
  induction hellos with
  | nil => intro c hs; exact hs
  | cons h t ih =>
    intro c hs
    exact ih _ (refreshNodeList_ids_sorted c h.1 self h.2 hs)

/-- The local peer stays in the list when it was there or is the announcer. -/
theorem self_mem_refreshNodeList (c : Cluster α) (nodeID self : α) (now : Int)
    (h : self ∈ c.nodes.map Node.ID ∨ nodeID = self) :
    self ∈ (c.refreshNodeList nodeID self now).nodes.map Node.ID := by
  by_cases ha : nodeID = self
  · exact List.mem_map.2 ⟨{ ID := nodeID, LastAnnounce := now },
      (mem_refreshNodeList c nodeID self now _).2 (Or.inr rfl), ha⟩
  · obtain ⟨m, hm, hm2⟩ := List.mem_map.1 (h.resolve_right ha)
    refine List.mem_map.2 ⟨m, (mem_refreshNodeList c nodeID self now m).2 (Or.inl ⟨hm, ?_, ?_⟩), hm2⟩
    · rw [hm2]; exact Ne.symm ha
    · rintro ⟨_, h2⟩; exact h2 hm2

theorem self_mem_refreshAll (self : α) : ∀ (hellos : List (α × Int)) (c : Cluster α),
    self ∈ c.nodes.map Node.ID → self ∈ (refreshAll self c hellos).nodes.map Node.ID := by
  intro hellos
  induction hellos with
  | nil => intro c hs; exact hs
  | cons h t ih =>
    intro c hs
    exact ih _ (self_mem_refreshNodeList c h.1 self h.2 (Or.inl hs))

/-- The range loop assigns the first position that carries the local ID. -/
theorem findSelf_of_mem (self : α) : ∀ (l : List (Node α)) (i : Nat),
    self ∈ l.map Node.ID →
      ∃ j, findSelf self l i = some (i + j) ∧ j < l.length
        ∧ (l[j]?).map Node.ID = some self
        ∧ ∀ k, k < j → (l[k]?).map Node.ID ≠ some self := by
  intro l
  induction l with
  | nil => intro i h; simp at h
  | cons n rest ih =>
    intro i h
    by_cases hn : n.ID = self
    · refine ⟨0, by simp [findSelf, hn], by simp, by simp [hn], ?_⟩
      intro k hk
      omega
    · have hrest : self ∈ rest.map Node.ID := by
        rcases List.mem_cons.1 h with h2 | h2
        · exact absurd h2.symm hn
        · exact h2
      obtain ⟨j, hj1, hj2, hj3, hj4⟩ := ih (i + 1) hrest
      refine ⟨j + 1, ?_, by simpa using hj2, by simpa using hj3, ?_⟩
      · simp only [findSelf, hn, if_false, hj1]
        congr 1
        omega
      · intro k hk
        cases k with
        | zero => simpa using hn
        | succ k => simpa using hj4 k (by omega)

end Membership

/-! ## Searching and trimming keys -/

theorem digitChar_ne_underscore (n : Nat) : digitChar n ≠ '_' := by
  unfold digitChar
  split <;> decide

theorem digitChar_ne_bar (n : Nat) : digitChar n ≠ '|' := by
  unfold digitChar
  split <;> decide

theorem digitChar_ne_B (n : Nat) : digitChar n ≠ 'B' := by
  unfold digitChar
  split <;> decide

theorem not_mem_pad2 (n : Nat) : '_' ∉ pad2 n ∧ '|' ∉ pad2 n := by
  simp [pad2, (digitChar_ne_underscore _).symm, (digitChar_ne_bar _).symm]

theorem not_mem_pad4 (n : Nat) : '_' ∉ pad4 n ∧ '|' ∉ pad4 n := by
  simp [pad4, (digitChar_ne_underscore _).symm, (digitChar_ne_bar _).symm]

theorem indexOf_append_cons (c : Char) (a b : GoString) (h : c ∉ a) :
    (a ++ c :: b).indexOf c = a.length := by
  induction a with
  | nil => simp
  | cons x t ih =>
    simp only [List.mem_cons, not_or] at h
    rw [List.cons_append, List.indexOf_cons_ne _ (Ne.symm h.1), ih h.2, List.length_cons]

theorem Index_append_cons (c : Char) (a b : GoString) (h : c ∉ a) :
    Index (a ++ c :: b) c = (a.length : Int) := by
  unfold Index
  rw [if_pos (by simp), indexOf_append_cons c a b h]

theorem LastIndex_append_cons (c : Char) (a b : GoString) (h : c ∉ b) :
    LastIndex (a ++ c :: b) c = (a.length : Int) := by
  unfold LastIndex
  rw [if_pos (by simp)]
  have hrev : (a ++ c :: b).reverse = b.reverse ++ c :: a.reverse := by simp
  rw [hrev, indexOf_append_cons c _ _ (by simpa using h)]
  congr 1
  simp only [List.length_append, List.length_cons, List.length_reverse]
  omega

theorem sliceTo_append (a b : GoString) : sliceTo (a ++ b) (a.length : Int) = some a := by
  unfold sliceTo
  rw [if_pos ⟨by omega, by simp⟩]
  simp

/-- Trimming after the last `'_'` removes the last component. -/
theorem trim_last (a d : GoString) (h : '_' ∉ d) :
    sliceTo (a ++ '_' :: d) (LastIndex (a ++ '_' :: d) '_') = some a := by
  rw [LastIndex_append_cons _ _ _ h, sliceTo_append]

/-- The four keys of a rolling aggregation: day, month, year and all-time. -/
theorem rollingSend_four (send : GoString → Command) (p0 p1 Y M D : GoString)
    (h1 : '_' ∉ p1) (hY : '_' ∉ Y) (hM : '_' ∉ M) (hD : '_' ∉ D) :
    rollingSend send 4 ((((p0 ++ '_' :: p1) ++ '_' :: Y) ++ '_' :: M) ++ '_' :: D)
      = some [send ((((p0 ++ '_' :: p1) ++ '_' :: Y) ++ '_' :: M) ++ '_' :: D),
          send (((p0 ++ '_' :: p1) ++ '_' :: Y) ++ '_' :: M),
          send ((p0 ++ '_' :: p1) ++ '_' :: Y),
          send (p0 ++ '_' :: p1)] := by
  simp only [rollingSend, trim_last _ _ hD, trim_last _ _ hM, trim_last _ _ hY,
    trim_last _ _ h1]

theorem rollingSend_date (send : GoString → Command) (p0 p1 Y M D : GoString)
    (h1 : '_' ∉ p1) (hY : '_' ∉ Y) (hM : '_' ∉ M) (hD : '_' ∉ D) :
    rollingSend send 4 ((p0 ++ '_' :: p1) ++ '_' :: (Y ++ '_' :: (M ++ '_' :: D)))
      = some [send ((p0 ++ '_' :: p1) ++ '_' :: (Y ++ '_' :: (M ++ '_' :: D))),
          send ((p0 ++ '_' :: p1) ++ '_' :: (Y ++ '_' :: M)),
          send ((p0 ++ '_' :: p1) ++ '_' :: Y),
          send (p0 ++ '_' :: p1)] := by
  have h := rollingSend_four send p0 p1 Y M D h1 hY hM hD
  simpa [List.append_assoc] using h

/-- The key of an entry is cut at its first `'|'` into type, date and object. -/
theorem pushEntry_key (t : Char) (date object : GoString) (v : Int)
    (ht : t ≠ '|') (hd : '|' ∉ date) :
    pushEntry (t :: (date ++ '|' :: object)) v
      = if v = 0 then some []
        else if object = [] then some []
        else if [t] = ['f'] then
          match rollingSend (fun key => Command.HINCRBY key object v) 4
              ("STATS_FILE_".toList ++ date) with
          | none => none
          | some cmds => some (cmds ++ [Command.INCRBY "STATS_TOTAL".toList v])
        else if [t] = ['m'] then
          rollingSend (fun key => Command.HINCRBY key object v) 4
            ("STATS_MIRROR_".toList ++ date)
        else if [t] = ['s'] then
          rollingSend (fun key => Command.HINCRBY key object v) 4
            ("STATS_MIRROR_BYTES_".toList ++ date)
        else if [t] = ['p'] then
          rollingSend (fun key => Command.ZINCRBY key v object) 4
            ("STATS_USERAGENT_platform_".toList ++ date)
        else if [t] = ['o'] then
          rollingSend (fun key => Command.ZINCRBY key v object) 4
            ("STATS_USERAGENT_os_".toList ++ date)
        else if [t] = ['b'] then
          rollingSend (fun key => Command.ZINCRBY key v object) 4
            ("STATS_USERAGENT_browser_".toList ++ date)
        else some [] := by
  have hI : Index (t :: (date ++ '|' :: object)) '|' = ((date.length + 1 : Nat) : Int) := by
    have h := Index_append_cons '|' (t :: date) object
      (by simp only [List.mem_cons, not_or]; exact ⟨Ne.symm ht, hd⟩)
    simpa using h
  have htake : (t :: (date ++ '|' :: object)).take (date.length + 1) = t :: date := by
    simp
  have hdrop : (t :: (date ++ '|' :: object)).drop (date.length + 1 + 1) = object := by
    simp
  unfold pushEntry
  simp only [hI, Int.toNat_ofNat, htake, hdrop]
  rw [if_neg (show ¬ ((date.length + 1 : Nat) : Int) ≤ 0 by omega)]
  simp only [List.take_succ_cons, List.take_zero, List.drop_succ_cons, List.drop_zero]

/-- The commands sent for an entry of type `f`, `m` or `s`. -/
theorem pushEntry_rolling (t : Char) (Y M D object : GoString) (v : Int)
    (ht : t = 'f' ∨ t = 'm' ∨ t = 's')
    (hY : '_' ∉ Y ∧ '|' ∉ Y) (hM : '_' ∉ M ∧ '|' ∉ M) (hD : '_' ∉ D ∧ '|' ∉ D)
    (ho : object ≠ []) (hv : v ≠ 0) :
    pushEntry (t :: ((Y ++ '_' :: (M ++ '_' :: D)) ++ '|' :: object)) v
        = some ([Command.HINCRBY (statsHash t ++ '_' :: (Y ++ '_' :: (M ++ '_' :: D))) object v,
            Command.HINCRBY (statsHash t ++ '_' :: (Y ++ '_' :: M)) object v,
            Command.HINCRBY (statsHash t ++ '_' :: Y) object v,
            Command.HINCRBY (statsHash t) object v]
          ++ if t = 'f' then [Command.INCRBY "STATS_TOTAL".toList v] else []) := by
  have hbar : '|' ∉ Y ++ '_' :: (M ++ '_' :: D) := by
    simp [hY.2, hM.2, hD.2]
  rcases ht with rfl | rfl | rfl
  · rw [pushEntry_key _ _ _ _ (by decide) hbar, if_neg hv, if_neg ho, if_pos rfl]
    have e : "STATS_FILE_".toList ++ (Y ++ '_' :: (M ++ '_' :: D))
        = ("STATS".toList ++ '_' :: "FILE".toList) ++ '_' :: (Y ++ '_' :: (M ++ '_' :: D)) := rfl
    rw [e, rollingSend_date _ _ _ _ _ _ (by decide) hY.1 hM.1 hD.1]
    rfl
  · rw [pushEntry_key _ _ _ _ (by decide) hbar, if_neg hv, if_neg ho, if_neg (by decide),
      if_pos rfl]
    have e : "STATS_MIRROR_".toList ++ (Y ++ '_' :: (M ++ '_' :: D))
        = ("STATS".toList ++ '_' :: "MIRROR".toList) ++ '_' :: (Y ++ '_' :: (M ++ '_' :: D)) :=
      rfl
    rw [e, rollingSend_date _ _ _ _ _ _ (by decide) hY.1 hM.1 hD.1]
    rfl
  · rw [pushEntry_key _ _ _ _ (by decide) hbar, if_neg hv, if_neg ho, if_neg (by decide),
      if_neg (by decide), if_pos rfl]
    have e : "STATS_MIRROR_BYTES_".toList ++ (Y ++ '_' :: (M ++ '_' :: D))
        = ("STATS_MIRROR".toList ++ '_' :: "BYTES".toList)
            ++ '_' :: (Y ++ '_' :: (M ++ '_' :: D)) := rfl
    rw [e, rollingSend_date _ _ _ _ _ _ (by decide) hY.1 hM.1 hD.1]
    rfl

/-! ## The stats map and the flush -/

theorem not_mem_formatDay (t : Time) : '|' ∉ t.formatDay := by
  simp [Time.formatDay, (not_mem_pad4 _).2, (not_mem_pad2 _).2]

/-- The loop body does not panic on a key that `processCountDownload` writes:
a type byte, a formatted day, the separator and an object. -/
theorem pushEntry_isSome (t : Char) (time : Time) (object : GoString) (v : Int)
    (ht : t ≠ '|') :
    ∃ cmds, pushEntry (t :: (time.formatDay ++ '|' :: object)) v = some cmds := by
  rw [pushEntry_key t _ object v ht (not_mem_formatDay time)]
  have hy := (not_mem_pad4 time.year).1
  have hm := (not_mem_pad2 time.month).1
  have hd := (not_mem_pad2 time.day).1
  have e1 : "STATS_FILE_".toList ++ time.formatDay
      = ("STATS".toList ++ '_' :: "FILE".toList)
          ++ '_' :: (pad4 time.year ++ '_' :: (pad2 time.month ++ '_' :: pad2 time.day)) := rfl
  have e2 : "STATS_MIRROR_".toList ++ time.formatDay
      = ("STATS".toList ++ '_' :: "MIRROR".toList)
          ++ '_' :: (pad4 time.year ++ '_' :: (pad2 time.month ++ '_' :: pad2 time.day)) := rfl
  have e3 : "STATS_MIRROR_BYTES_".toList ++ time.formatDay
      = ("STATS_MIRROR".toList ++ '_' :: "BYTES".toList)
          ++ '_' :: (pad4 time.year ++ '_' :: (pad2 time.month ++ '_' :: pad2 time.day)) := rfl
  have e4 : "STATS_USERAGENT_platform_".toList ++ time.formatDay
      = ("STATS_USERAGENT".toList ++ '_' :: "platform".toList)
          ++ '_' :: (pad4 time.year ++ '_' :: (pad2 time.month ++ '_' :: pad2 time.day)) := rfl
  have e5 : "STATS_USERAGENT_os_".toList ++ time.formatDay
      = ("STATS_USERAGENT".toList ++ '_' :: "os".toList)
          ++ '_' :: (pad4 time.year ++ '_' :: (pad2 time.month ++ '_' :: pad2 time.day)) := rfl
  have e6 : "STATS_USERAGENT_browser_".toList ++ time.formatDay
      = ("STATS_USERAGENT".toList ++ '_' :: "browser".toList)
          ++ '_' :: (pad4 time.year ++ '_' :: (pad2 time.month ++ '_' :: pad2 time.day)) := rfl
  rw [e1, e2, e3, e4, e5, e6,
    rollingSend_date _ _ _ _ _ _ (by decide) hy hm hd,
    rollingSend_date _ _ _ _ _ _ (by decide) hy hm hd,
    rollingSend_date _ _ _ _ _ _ (by decide) hy hm hd,
    rollingSend_date _ _ _ _ _ _ (by decide) hy hm hd,
    rollingSend_date _ _ _ _ _ _ (by decide) hy hm hd,
    rollingSend_date _ _ _ _ _ _ (by decide) hy hm hd]
  split_ifs <;> exact ⟨_, rfl⟩

theorem pushEntries_isSome : ∀ m : StatsMap,
    (∀ e ∈ m, ∃ cmds, pushEntry e.1 e.2 = some cmds) → ∃ cmds, pushEntries m = some cmds := by
  intro m
  induction m with
  | nil => intro _; exact ⟨[], rfl⟩
  | cons e rest ih =>
    intro h
    obtain ⟨c1, h1⟩ := h e (List.mem_cons_self _ _)
    obtain ⟨c2, h2⟩ := ih (fun x hx => h x (List.mem_cons_of_mem _ hx))
    exact ⟨c1 ++ c2, by simp [pushEntries, h1, h2]⟩

/-- The keys of the map after an addition: the old ones and the added one. -/
theorem StatsMap.key_of_mem_add (m : StatsMap) (k : GoString) (d : Int) (e : GoString × Int)
    (he : e ∈ m.add k d) : e.1 = k ∨ ∃ x ∈ m, x.1 = e.1 := by
  unfold StatsMap.add at he
  split_ifs at he with h
  · obtain ⟨x, hx, rfl⟩ := List.mem_map.1 he
    by_cases hk : x.1 = k
    · left; simp [hk]
    · right; exact ⟨x, hx, by simp [hk]⟩
  · rcases List.mem_append.1 he with h1 | h1
    · exact Or.inr ⟨e, h1, rfl⟩
    · left
      rw [List.mem_singleton] at h1
      rw [h1]

/-- Every key in the map was written by `processCountDownload`. -/
theorem processAll_keys (events : List StatsEvent) :
    ∀ e ∈ processAll events, ∃ (t : Char) (time : Time) (object : GoString),
      e.1 = t :: (time.formatDay ++ '|' :: object) ∧ t ≠ '|' := by
  unfold processAll
  induction events using List.reverseRecOn with
  | nil => intro e he; simp at he
  | append_singleton evs ev ih =>
    intro e he
    rw [List.foldl_append, List.foldl_cons, List.foldl_nil] at he
    cases ev with
    | count c =>
      simp only [processEvent] at he
      rcases StatsMap.key_of_mem_add _ _ _ _ he with h | ⟨x, hx, hx2⟩
      · exact ⟨'s', c.time, c.mirrorID, by simp [h], by decide⟩
      · rcases StatsMap.key_of_mem_add _ _ _ _ hx with h | ⟨y, hy, hy2⟩
        · exact ⟨'m', c.time, c.mirrorID, by simp [← hx2, h], by decide⟩
        · rcases StatsMap.key_of_mem_add _ _ _ _ hy with h | ⟨z, hz, hz2⟩
          · exact ⟨'f', c.time, c.filepath, by simp [← hx2, ← hy2, h], by decide⟩
          · rw [← hx2, ← hy2, ← hz2]; exact ih z hz
    | ua now Platform OS Browser =>
      simp only [processEvent] at he
      rcases StatsMap.key_of_mem_add _ _ _ _ he with h | ⟨x, hx, hx2⟩
      · exact ⟨'b', now, Browser, by simp [h], by decide⟩
      · rcases StatsMap.key_of_mem_add _ _ _ _ hx with h | ⟨y, hy, hy2⟩
        · exact ⟨'o', now, OS, by simp [← hx2, h], by decide⟩
        · rcases StatsMap.key_of_mem_add _ _ _ _ hy with h | ⟨z, hz, hz2⟩
          · exact ⟨'p', now, Platform, by simp [← hx2, ← hy2, h], by decide⟩
          · rw [← hx2, ← hy2, ← hz2]; exact ih z hz

/-- The flush returns on every map that `processCountDownload` can have built,
whatever the order in which `range` visits it. -/
theorem pushEntries_reachable (events : List StatsEvent) (order : StatsMap)
    (hperm : order.Perm (processAll events)) : ∃ cmds, pushEntries order = some cmds := by
  apply pushEntries_isSome
  intro e he
  obtain ⟨t, time, object, hk, ht⟩ := processAll_keys events e (hperm.mem_iff.1 he)
  rw [hk]
  exact pushEntry_isSome t time object e.2 ht

/-! ## The effect of a flush on the store -/

theorem wrapInt64_add (x y : Int) : wrapInt64 (wrapInt64 x + y) = wrapInt64 (x + y) := by
  unfold wrapInt64
  omega

theorem wrapInt64_of_lt (n : Nat) (h : (n : Int) < 2 ^ 63) : wrapInt64 n = n := by
  unfold wrapInt64
  omega

theorem Store.run_hash (K F : GoString) : ∀ (cmds : List Command) (st : Store),
    (st.run cmds).hash K F = st.hash K F + (cmds.map (Command.hashDelta K F)).sum := by
  intro cmds
  induction cmds with
  | nil => intro st; simp [Store.run]
  | cons c rest ih =>
    intro st
    have hstep : st.run (c :: rest) = (st.apply c).run rest := rfl
    rw [hstep, ih, List.map_cons, List.sum_cons, ← add_assoc]
    congr 1
    cases c <;> simp only [Store.apply, Command.hashDelta, add_zero]
    split_ifs with h1 h2 h2
    · rfl
    · exact absurd ⟨h1.1.symm, h1.2.symm⟩ h2
    · exact absurd ⟨h2.1.symm, h2.2.symm⟩ h1
    · simp

theorem Store.run_counter (K : GoString) : ∀ (cmds : List Command) (st : Store),
    (st.run cmds).counter K = st.counter K + (cmds.map (Command.counterDelta K)).sum := by
  intro cmds
  induction cmds with
  | nil => intro st; simp [Store.run]
  | cons c rest ih =>
    intro st
    have hstep : st.run (c :: rest) = (st.apply c).run rest := rfl
    rw [hstep, ih, List.map_cons, List.sum_cons, ← add_assoc]
    congr 1
    cases c <;> simp only [Store.apply, Command.counterDelta, add_zero]
    split_ifs with h1 h2 h2
    · rfl
    · exact absurd h1.symm h2
    · exact absurd h2.symm h1
    · simp

theorem formatDay_eq (y mo d ns : Nat) :
    ({ year := y, month := mo, day := d, nsec := ns } : Time).formatDay
      = pad4 y ++ '_' :: (pad2 mo ++ '_' :: pad2 d) := rfl

/-- The three counters of a mirror and a file on one day, event by event. -/
theorem processDownloads_fold (m f : GoString) (s : Int) (y mo d : Nat) :
    ∀ (times : List Nat) (a b c : Int),
      (sameDayDownloads m f s y mo d times).foldl processEvent
          [('f' :: ((pad4 y ++ '_' :: (pad2 mo ++ '_' :: pad2 d)) ++ '|' :: f), wrapInt64 a),
            ('m' :: ((pad4 y ++ '_' :: (pad2 mo ++ '_' :: pad2 d)) ++ '|' :: m), wrapInt64 b),
            ('s' :: ((pad4 y ++ '_' :: (pad2 mo ++ '_' :: pad2 d)) ++ '|' :: m), wrapInt64 c)]
        = [('f' :: ((pad4 y ++ '_' :: (pad2 mo ++ '_' :: pad2 d)) ++ '|' :: f),
              wrapInt64 (a + times.length)),
            ('m' :: ((pad4 y ++ '_' :: (pad2 mo ++ '_' :: pad2 d)) ++ '|' :: m),
              wrapInt64 (b + times.length)),
            ('s' :: ((pad4 y ++ '_' :: (pad2 mo ++ '_' :: pad2 d)) ++ '|' :: m),
              wrapInt64 (c + times.length * s))] := by
  intro times
  induction times with
  | nil => intro a b c; simp [sameDayDownloads]
  | cons ns rest ih =>
    intro a b c
    have hstep : processEvent
        [('f' :: ((pad4 y ++ '_' :: (pad2 mo ++ '_' :: pad2 d)) ++ '|' :: f), wrapInt64 a),
          ('m' :: ((pad4 y ++ '_' :: (pad2 mo ++ '_' :: pad2 d)) ++ '|' :: m), wrapInt64 b),
          ('s' :: ((pad4 y ++ '_' :: (pad2 mo ++ '_' :: pad2 d)) ++ '|' :: m), wrapInt64 c)]
        (StatsEvent.count { mirrorID := m, filepath := f, size := s
                            time := { year := y, month := mo, day := d, nsec := ns } })
        = [('f' :: ((pad4 y ++ '_' :: (pad2 mo ++ '_' :: pad2 d)) ++ '|' :: f),
              wrapInt64 (a + 1)),
            ('m' :: ((pad4 y ++ '_' :: (pad2 mo ++ '_' :: pad2 d)) ++ '|' :: m),
              wrapInt64 (b + 1)),
            ('s' :: ((pad4 y ++ '_' :: (pad2 mo ++ '_' :: pad2 d)) ++ '|' :: m),
              wrapInt64 (c + s))] := by
      simp [processEvent, StatsMap.add, formatDay_eq, wrapInt64_add]
    have hcons : sameDayDownloads m f s y mo d (ns :: rest)
        = StatsEvent.count { mirrorID := m, filepath := f, size := s
                             time := { year := y, month := mo, day := d, nsec := ns } }
          :: sameDayDownloads m f s y mo d rest := rfl
    rw [hcons, List.foldl_cons, hstep, ih]
    simp only [List.length_cons, Nat.cast_add, Nat.cast_one]
    have e1 : a + 1 + (rest.length : Int) = a + ((rest.length : Int) + 1) := by ring
    have e2 : b + 1 + (rest.length : Int) = b + ((rest.length : Int) + 1) := by ring
    have e3 : c + s + (rest.length : Int) * s = c + ((rest.length : Int) + 1) * s := by ring
    rw [e1, e2, e3]

/-- The stats map after `N` downloads of one file from one mirror on one day. -/
theorem processAll_sameDay (m f : GoString) (s : Int) (y mo d : Nat) (times : List Nat) :
    processAll (sameDayDownloads m f s y mo d times)
      = if times = [] then []
        else [('f' :: ((pad4 y ++ '_' :: (pad2 mo ++ '_' :: pad2 d)) ++ '|' :: f),
              wrapInt64 times.length),
            ('m' :: ((pad4 y ++ '_' :: (pad2 mo ++ '_' :: pad2 d)) ++ '|' :: m),
              wrapInt64 times.length),
            ('s' :: ((pad4 y ++ '_' :: (pad2 mo ++ '_' :: pad2 d)) ++ '|' :: m),
              wrapInt64 (times.length * s))] := by
  cases times with
  | nil => rfl
  | cons ns rest =>
    rw [if_neg (by simp)]
    have hfirst : processEvent []
        (StatsEvent.count { mirrorID := m, filepath := f, size := s
                            time := { year := y, month := mo, day := d, nsec := ns } })
        = [('f' :: ((pad4 y ++ '_' :: (pad2 mo ++ '_' :: pad2 d)) ++ '|' :: f), wrapInt64 1),
            ('m' :: ((pad4 y ++ '_' :: (pad2 mo ++ '_' :: pad2 d)) ++ '|' :: m), wrapInt64 1),
            ('s' :: ((pad4 y ++ '_' :: (pad2 mo ++ '_' :: pad2 d)) ++ '|' :: m), wrapInt64 s)] := by
      simp [processEvent, StatsMap.add, formatDay_eq]
    have hcons : sameDayDownloads m f s y mo d (ns :: rest)
        = StatsEvent.count { mirrorID := m, filepath := f, size := s
                             time := { year := y, month := mo, day := d, nsec := ns } }
          :: sameDayDownloads m f s y mo d rest := rfl
    unfold processAll
    rw [hcons, List.foldl_cons, hfirst, processDownloads_fold]
    simp only [List.length_cons, Nat.cast_add, Nat.cast_one]
    have e1 : (1 : Int) + (rest.length : Int) = (rest.length : Int) + 1 := by ring
    have e3 : s + (rest.length : Int) * s = ((rest.length : Int) + 1) * s := by ring
    rw [e1, e3]

/-- A sum over the commands of a flush is the sum, over the entries, of the sums
over the commands of each entry. -/
theorem pushEntries_sum (h : Command → Int) : ∀ (m : StatsMap) (cmds : List Command),
    pushEntries m = some cmds → (cmds.map h).sum = (m.map (entrySum h)).sum := by
  intro m
  induction m with
  | nil =>
    intro cmds hc
    simp only [pushEntries, Option.some.injEq] at hc
    subst hc
    rfl
  | cons e rest ih =>
    intro cmds hc
    simp only [pushEntries] at hc
    cases h1 : pushEntry e.1 e.2 with
    | none => rw [h1] at hc; cases hc
    | some c1 =>
      rw [h1] at hc
      cases h2 : pushEntries rest with
      | none => rw [h2] at hc; cases hc
      | some c2 =>
        rw [h2] at hc
        simp only [Option.some.injEq] at hc
        subst hc
        rw [List.map_append, List.sum_append, ih c2 h2, List.map_cons, List.sum_cons]
        simp only [entrySum, h1]

/-- The commands sent for an entry of type `f`, `m` or `s` on a formatted day. -/
theorem pushEntry_day (t : Char) (y mo d : Nat) (object : GoString) (v : Int)
    (ht : t = 'f' ∨ t = 'm' ∨ t = 's') (ho : object ≠ []) :
    pushEntry (t :: ((pad4 y ++ '_' :: (pad2 mo ++ '_' :: pad2 d)) ++ '|' :: object)) v
      = some (if v = 0 then []
          else [Command.HINCRBY
                (statsHash t ++ '_' :: (pad4 y ++ '_' :: (pad2 mo ++ '_' :: pad2 d))) object v,
              Command.HINCRBY (statsHash t ++ '_' :: (pad4 y ++ '_' :: pad2 mo)) object v,
              Command.HINCRBY (statsHash t ++ '_' :: pad4 y) object v,
              Command.HINCRBY (statsHash t) object v]
            ++ if t = 'f' then [Command.INCRBY "STATS_TOTAL".toList v] else []) := by
  by_cases hv : v = 0
  · have hbar : '|' ∉ pad4 y ++ '_' :: (pad2 mo ++ '_' :: pad2 d) := by
      simp [(not_mem_pad4 _).2, (not_mem_pad2 _).2]
    have htb : t ≠ '|' := by
      rcases ht with rfl | rfl | rfl <;> decide
    rw [pushEntry_key t _ object v htb hbar, if_pos hv, if_pos hv]
  · rw [if_neg hv]
    exact pushEntry_rolling t _ _ _ object v ht (not_mem_pad4 y) (not_mem_pad2 mo)
      (not_mem_pad2 d) ho hv

/-- The sum of `h` over the commands of an entry of type `f`, `m` or `s`. -/
theorem entrySum_day (h : Command → Int) (t : Char) (y mo d : Nat) (object : GoString)
    (v : Int) (ht : t = 'f' ∨ t = 'm' ∨ t = 's') (ho : object ≠ []) :
    entrySum h (t :: ((pad4 y ++ '_' :: (pad2 mo ++ '_' :: pad2 d)) ++ '|' :: object), v)
      = if v = 0 then 0
        else h (Command.HINCRBY
              (statsHash t ++ '_' :: (pad4 y ++ '_' :: (pad2 mo ++ '_' :: pad2 d))) object v)
          + (h (Command.HINCRBY (statsHash t ++ '_' :: (pad4 y ++ '_' :: pad2 mo)) object v)
          + (h (Command.HINCRBY (statsHash t ++ '_' :: pad4 y) object v)
          + (h (Command.HINCRBY (statsHash t) object v)
          + if t = 'f' then h (Command.INCRBY "STATS_TOTAL".toList v) else 0))) := by
  unfold entrySum
  rw [pushEntry_day t y mo d object v ht ho]
  by_cases hv : v = 0
  · simp only [hv, if_true, List.map_nil, List.sum_nil]
  · simp only [hv, if_false]
    by_cases htf : t = 'f'
    · simp only [htf, if_true, List.cons_append, List.nil_append, List.map_cons, List.map_nil,
        List.sum_cons, List.sum_nil, add_zero]
    · simp only [htf, if_false, List.append_nil, List.map_cons, List.map_nil,
        List.sum_cons, List.sum_nil, add_zero]

theorem file_entry_adds_mirror (y mo d : Nat) (object field : GoString) (v : Int)
    (ho : object ≠ []) :
    entrySum (Command.hashDelta ("STATS_MIRROR_".toList ++ (pad4 y ++ '_' :: (pad2 mo ++ '_' :: pad2 d))) field)
        ('f' :: ((pad4 y ++ '_' :: (pad2 mo ++ '_' :: pad2 d)) ++ '|' :: object), v) = 0 := by
  rw [entrySum_day _ 'f' y mo d object v (Or.inl rfl) ho]
  by_cases hv : v = 0
  · rw [if_pos hv]
  · rw [if_neg hv]
    simp [Command.hashDelta, statsHash, pad4, digitChar_ne_B]

theorem mirror_entry_adds_mirror (y mo d : Nat) (object : GoString) (v : Int)
    (ho : object ≠ []) :
    entrySum (Command.hashDelta ("STATS_MIRROR_".toList ++ (pad4 y ++ '_' :: (pad2 mo ++ '_' :: pad2 d))) object)
        ('m' :: ((pad4 y ++ '_' :: (pad2 mo ++ '_' :: pad2 d)) ++ '|' :: object), v) = v := by
  rw [entrySum_day _ 'm' y mo d object v (Or.inr (Or.inl rfl)) ho]
  by_cases hv : v = 0
  · rw [if_pos hv]; exact hv.symm
  · rw [if_neg hv]
    simp [Command.hashDelta, statsHash, pad4, digitChar_ne_B]

theorem bytes_entry_adds_mirror (y mo d : Nat) (object field : GoString) (v : Int)
    (ho : object ≠ []) :
    entrySum (Command.hashDelta ("STATS_MIRROR_".toList ++ (pad4 y ++ '_' :: (pad2 mo ++ '_' :: pad2 d))) field)
        ('s' :: ((pad4 y ++ '_' :: (pad2 mo ++ '_' :: pad2 d)) ++ '|' :: object), v) = 0 := by
  rw [entrySum_day _ 's' y mo d object v (Or.inr (Or.inr rfl)) ho]
  by_cases hv : v = 0
  · rw [if_pos hv]
  · rw [if_neg hv]
    simp [Command.hashDelta, statsHash, pad4, digitChar_ne_B]

theorem file_entry_adds_bytes (y mo d : Nat) (object field : GoString) (v : Int)
    (ho : object ≠ []) :
    entrySum (Command.hashDelta ("STATS_MIRROR_BYTES_".toList ++ (pad4 y ++ '_' :: (pad2 mo ++ '_' :: pad2 d))) field)
        ('f' :: ((pad4 y ++ '_' :: (pad2 mo ++ '_' :: pad2 d)) ++ '|' :: object), v) = 0 := by
  rw [entrySum_day _ 'f' y mo d object v (Or.inl rfl) ho]
  by_cases hv : v = 0
  · rw [if_pos hv]
  · rw [if_neg hv]
    simp [Command.hashDelta, statsHash, pad4, digitChar_ne_B]

theorem mirror_entry_adds_bytes (y mo d : Nat) (object field : GoString) (v : Int)
    (ho : object ≠ []) :
    entrySum (Command.hashDelta ("STATS_MIRROR_BYTES_".toList ++ (pad4 y ++ '_' :: (pad2 mo ++ '_' :: pad2 d))) field)
        ('m' :: ((pad4 y ++ '_' :: (pad2 mo ++ '_' :: pad2 d)) ++ '|' :: object), v) = 0 := by
  rw [entrySum_day _ 'm' y mo d object v (Or.inr (Or.inl rfl)) ho]
  by_cases hv : v = 0
  · rw [if_pos hv]
  · rw [if_neg hv]
    simp [Command.hashDelta, statsHash, pad4, digitChar_ne_B]

theorem bytes_entry_adds_bytes (y mo d : Nat) (object : GoString) (v : Int)
    (ho : object ≠ []) :
    entrySum (Command.hashDelta ("STATS_MIRROR_BYTES_".toList ++ (pad4 y ++ '_' :: (pad2 mo ++ '_' :: pad2 d))) object)
        ('s' :: ((pad4 y ++ '_' :: (pad2 mo ++ '_' :: pad2 d)) ++ '|' :: object), v) = v := by
  rw [entrySum_day _ 's' y mo d object v (Or.inr (Or.inr rfl)) ho]
  by_cases hv : v = 0
  · rw [if_pos hv]; exact hv.symm
  · rw [if_neg hv]
    simp [Command.hashDelta, statsHash, pad4, digitChar_ne_B]

theorem file_entry_adds_total (y mo d : Nat) (object : GoString) (v : Int)
    (ho : object ≠ []) :
    entrySum (Command.counterDelta "STATS_TOTAL".toList)
        ('f' :: ((pad4 y ++ '_' :: (pad2 mo ++ '_' :: pad2 d)) ++ '|' :: object), v) = v := by
  rw [entrySum_day _ 'f' y mo d object v (Or.inl rfl) ho]
  by_cases hv : v = 0
  · rw [if_pos hv]; exact hv.symm
  · rw [if_neg hv]
    simp [Command.counterDelta, statsHash]

theorem mirror_entry_adds_total (y mo d : Nat) (object : GoString) (v : Int)
    (ho : object ≠ []) :
    entrySum (Command.counterDelta "STATS_TOTAL".toList)
        ('m' :: ((pad4 y ++ '_' :: (pad2 mo ++ '_' :: pad2 d)) ++ '|' :: object), v) = 0 := by
  rw [entrySum_day _ 'm' y mo d object v (Or.inr (Or.inl rfl)) ho]
  by_cases hv : v = 0
  · rw [if_pos hv]
  · rw [if_neg hv]
    simp [Command.counterDelta, statsHash]

theorem bytes_entry_adds_total (y mo d : Nat) (object : GoString) (v : Int)
    (ho : object ≠ []) :
    entrySum (Command.counterDelta "STATS_TOTAL".toList)
        ('s' :: ((pad4 y ++ '_' :: (pad2 mo ++ '_' :: pad2 d)) ++ '|' :: object), v) = 0 := by
  rw [entrySum_day _ 's' y mo d object v (Or.inr (Or.inr rfl)) ho]
  by_cases hv : v = 0
  · rw [if_pos hv]
  · rw [if_neg hv]
    simp [Command.counterDelta, statsHash]

/-- A successful flush of the map left by same-day downloads: it returns, empties
the map, and a sum over its commands is the sum over the three entries. -/
theorem flush_sameDay (h : Command → Int) (h1 : h Command.MULTI = 0) (h2 : h Command.EXEC = 0)
    (m f : GoString) (s : Int) (y mo d : Nat) (times : List Nat) (order : StatsMap)
    (hm : m ≠ []) (hf : f ≠ []) (ht : times ≠ [])
    (hperm : order.Perm (processAll (sameDayDownloads m f s y mo d times))) :
    ∃ cmds, pushStats order false = some (cmds, [])
      ∧ (cmds.map h).sum
        = entrySum h ('f' :: ((pad4 y ++ '_' :: (pad2 mo ++ '_' :: pad2 d)) ++ '|' :: f),
              wrapInt64 times.length)
          + (entrySum h ('m' :: ((pad4 y ++ '_' :: (pad2 mo ++ '_' :: pad2 d)) ++ '|' :: m),
                wrapInt64 times.length)
            + entrySum h ('s' :: ((pad4 y ++ '_' :: (pad2 mo ++ '_' :: pad2 d)) ++ '|' :: m),
                wrapInt64 (times.length * s))) := by
  rw [processAll_sameDay, if_neg ht] at hperm
  obtain ⟨c, hc⟩ := pushEntries_isSome order (by
    intro e he
    have he2 := hperm.mem_iff.1 he
    simp only [List.mem_cons, List.mem_singleton, List.not_mem_nil, or_false] at he2
    rcases he2 with rfl | rfl | rfl
    · exact ⟨_, pushEntry_day 'f' y mo d f _ (Or.inl rfl) hf⟩
    · exact ⟨_, pushEntry_day 'm' y mo d m _ (Or.inr (Or.inl rfl)) hm⟩
    · exact ⟨_, pushEntry_day 's' y mo d m _ (Or.inr (Or.inr rfl)) hm⟩)
  have hlen : ¬ order.length ≤ 0 := by
    rw [hperm.length_eq]
    simp
  refine ⟨Command.MULTI :: (c ++ [Command.EXEC]), ?_, ?_⟩
  · unfold pushStats
    rw [if_neg hlen, hc]
    rfl
  · have key : ∀ a b c : GoString × Int, (List.map (entrySum h) [a, b, c]).sum
        = entrySum h a + (entrySum h b + entrySum h c) := by
      intro a b c
      simp only [List.map_cons, List.map_nil, List.sum_cons, List.sum_nil, add_zero]
    have hexec : (List.map h [Command.EXEC]).sum = 0 := by
      simp only [List.map_cons, List.map_nil, List.sum_cons, List.sum_nil, add_zero, h2]
    rw [List.map_cons, List.sum_cons, List.map_append, List.sum_append, h1,
      pushEntries_sum h order c hc, (hperm.map _).sum_eq, key, hexec, zero_add, add_zero]

/-! ## Date ranges -/

/-- The four cases of `TestTimeKeyCoverage` in `utils_test.go`. -/
theorem TestTimeKeyCoverage :
    TimeKeyCoverage ⟨2015, 10, 30, clock 12 42 11⟩ ⟨2015, 12, 2, clock 13 42 11⟩
        = ["2015_10_30".toList, "2015_10_31".toList, "2015_11".toList, "2015_12_01".toList]
      ∧ TimeKeyCoverage ⟨2015, 12, 2, clock 12 42 11⟩ ⟨2015, 12, 2, clock 13 42 11⟩
        = ["2015_12_02".toList]
      ∧ TimeKeyCoverage ⟨2015, 1, 1, clock 12 42 11⟩ ⟨2017, 1, 1, clock 13 42 11⟩
        = ["2015".toList, "2016".toList]
      ∧ TimeKeyCoverage ⟨2015, 12, 31, clock 12 42 11⟩ ⟨2016, 1, 2, clock 13 42 11⟩
        = ["2015_12_31".toList, "2016_01_01".toList] := by
  decide

/-! ## The dispatch tick -/

section Dispatch

variable {α : Type} [LinearOrder α]

theorem dispatchOne_cluster (cfg : Config) (now : Int) (s : Monitor α × Nat) (j : α) :
    (dispatchOne cfg now s j).1.cluster = s.1.cluster := by
  unfold dispatchOne
  cases s.1.mirrors j with
  | none => rfl
  | some v =>
    simp only [Monitor.dispatchScan, Monitor.dispatchHealth, Monitor.modify]
    split_ifs <;> rfl

/-- An iteration for another key leaves the entry of `k` and the number of
times `k` is in the health-check queue as they are. -/
theorem dispatchOne_frame (cfg : Config) (now : Int) (s : Monitor α × Nat) (j k : α)
    (hjk : j ≠ k) :
    (dispatchOne cfg now s j).1.mirrors k = s.1.mirrors k
      ∧ (dispatchOne cfg now s j).1.healthCheckChan.count k = s.1.healthCheckChan.count k := by
  have hkj : ¬ k = j := fun h => hjk h.symm
  unfold dispatchOne
  cases s.1.mirrors j with
  | none => exact ⟨rfl, rfl⟩
  | some v =>
    simp only [Monitor.dispatchScan, Monitor.dispatchHealth, Monitor.modify]
    split_ifs <;> simp [hkj, hjk, List.count_append, List.count_singleton]

theorem dispatch_fold_cluster (cfg : Config) (now : Int) :
    ∀ (l : List α) (s : Monitor α × Nat),
      (l.foldl (dispatchOne cfg now) s).1.cluster = s.1.cluster := by
  intro l
  induction l with
  | nil => intro s; rfl
  | cons j t ih =>
    intro s
    rw [List.foldl_cons, ih, dispatchOne_cluster]

theorem dispatch_fold_frame (cfg : Config) (now : Int) (k : α) :
    ∀ (l : List α) (s : Monitor α × Nat), k ∉ l →
      (l.foldl (dispatchOne cfg now) s).1.mirrors k = s.1.mirrors k
        ∧ (l.foldl (dispatchOne cfg now) s).1.healthCheckChan.count k
            = s.1.healthCheckChan.count k := by
  intro l
  induction l with
  | nil => intro s _; exact ⟨rfl, rfl⟩
  | cons j t ih =>
    intro s hk
    simp only [List.mem_cons, not_or] at hk
    have h1 := dispatchOne_frame cfg now s j k (Ne.symm hk.1)
    have h2 := ih (dispatchOne cfg now s j) hk.2
    rw [List.foldl_cons]
    exact ⟨h2.1.trans h1.1, h2.2.trans h1.2⟩

/-- The iteration for `k`: the queue and the `checking` flag of `k` afterwards. -/
theorem dispatchOne_self (cfg : Config) (now : Int) (s : Monitor α × Nat) (k : α)
    (v : Mirror α) (hk : s.1.mirrors k = some v) :
    (dispatchOne cfg now s k).1.healthCheckChan
        = (if v.mirror.Enabled = true ∧ v.lastCheck + 60 * cfg.CheckInterval < now
              ∧ v.checking = false ∧ s.1.cluster.IsHandled k = true
              ∧ s.1.healthCheckChan.length < healthCheckThreads * 5
            then s.1.healthCheckChan ++ [k] else s.1.healthCheckChan)
      ∧ (dispatchOne cfg now s k).1.checking k
        = (if v.mirror.Enabled = true ∧ v.lastCheck + 60 * cfg.CheckInterval < now
              ∧ v.checking = false ∧ s.1.cluster.IsHandled k = true
              ∧ s.1.healthCheckChan.length < healthCheckThreads * 5
            then true else v.checking) := by
  unfold dispatchOne
  rw [hk]
  simp only [Monitor.dispatchScan, Monitor.dispatchHealth, Monitor.modify, Monitor.checking,
    Mirror.NeedHealthCheck, Mirror.IsChecking, ElapsedSec, decide_eq_true_eq]
  split_ifs <;> simp_all

end Dispatch

/-! ## The registry -/

/-- The ID is in the result of `addMirrorIDToSlice`, on any slice. -/
theorem mem_addMirrorIDToSlice {α : Type} [LinearOrder α] (slice : List α) (mirrorID : α) :
    mirrorID ∈ addMirrorIDToSlice slice mirrorID := by
  unfold addMirrorIDToSlice
  simp only
  split_ifs with h
  · simp
  · simp only [ge_iff_le, ne_eq, not_or, not_le, not_not] at h
    exact List.getElem?_mem h.2

/-! ## The flags and the work they stand for -/

section Flags

variable {α : Type} [LinearOrder α]

theorem modify_checking_of_same (m : Monitor α) (k j : α) (f : Mirror α → Mirror α)
    (hf : ∀ v, (f v).checking = v.checking) : (m.modify k f).checking j = m.checking j := by
  by_cases hjk : j = k
  · subst hjk
    simp only [Monitor.checking, Monitor.modify, if_true]
    cases m.mirrors j with
    | none => rfl
    | some v => exact hf v
  · simp [Monitor.checking, Monitor.modify, hjk]

theorem modify_scanning_of_same (m : Monitor α) (k j : α) (f : Mirror α → Mirror α)
    (hf : ∀ v, (f v).scanning = v.scanning) : (m.modify k f).scanning j = m.scanning j := by
  by_cases hjk : j = k
  · subst hjk
    simp only [Monitor.scanning, Monitor.modify, if_true]
    cases m.mirrors j with
    | none => rfl
    | some v => exact hf v
  · simp [Monitor.scanning, Monitor.modify, hjk]

theorem modify_checking_of_ne (m : Monitor α) (k j : α) (f : Mirror α → Mirror α)
    (hjk : j ≠ k) : (m.modify k f).checking j = m.checking j := by
  simp [Monitor.checking, Monitor.modify, hjk]

theorem modify_scanning_of_ne (m : Monitor α) (k j : α) (f : Mirror α → Mirror α)
    (hjk : j ≠ k) : (m.modify k f).scanning j = m.scanning j := by
  simp [Monitor.scanning, Monitor.modify, hjk]

theorem modify_checking_false (m : Monitor α) (k : α) (f : Mirror α → Mirror α)
    (hf : ∀ v, (f v).checking = false) : (m.modify k f).checking k = false := by
  simp only [Monitor.checking, Monitor.modify, if_true]
  cases m.mirrors k with
  | none => rfl
  | some v => exact hf v

theorem modify_scanning_false (m : Monitor α) (k : α) (f : Mirror α → Mirror α)
    (hf : ∀ v, (f v).scanning = false) : (m.modify k f).scanning k = false := by
  simp only [Monitor.scanning, Monitor.modify, if_true]
  cases m.mirrors k with
  | none => rfl
  | some v => exact hf v

theorem modify_checking_true (m : Monitor α) (k : α) (v : Mirror α) (f : Mirror α → Mirror α)
    (hk : m.mirrors k = some v) (hf : ∀ v, (f v).checking = true) :
    (m.modify k f).checking k = true := by
  simp only [Monitor.checking, Monitor.modify, if_true, hk]
  exact hf v

theorem modify_scanning_true (m : Monitor α) (k : α) (v : Mirror α) (f : Mirror α → Mirror α)
    (hk : m.mirrors k = some v) (hf : ∀ v, (f v).scanning = true) :
    (m.modify k f).scanning k = true := by
  simp only [Monitor.scanning, Monitor.modify, if_true, hk]
  exact hf v

theorem checks_eq_zero (m : Monitor α) (h : m.checkExclusive) (k : α)
    (hc : m.checking k = false) : m.checks k = 0 := by
  have h1 := (h k).2
  by_contra hne
  have h2 := h1 (by omega)
  rw [hc] at h2
  exact Bool.noConfusion h2

theorem scans_eq_zero (m : Monitor α) (h : m.scanExclusive) (k : α)
    (hc : m.scanning k = false) : m.scans k = 0 := by
  have h1 := (h k).2
  by_contra hne
  have h2 := h1 (by omega)
  rw [hc] at h2
  exact Bool.noConfusion h2

/-- The health-check part of the loop body keeps the four properties. -/
theorem dispatchHealth_keeps (m : Monitor α) (cfg : Config) (now : Int) (k : α)
    (v : Mirror α) (hk : m.mirrors k = some v) :
    (m.checkExclusive → (m.dispatchHealth cfg now k v).checkExclusive)
      ∧ (m.checkHeld → (m.dispatchHealth cfg now k v).checkHeld)
      ∧ (m.scanExclusive → (m.dispatchHealth cfg now k v).scanExclusive)
      ∧ (m.scanHeld → (m.dispatchHealth cfg now k v).scanHeld) := by
  unfold Monitor.dispatchHealth
  split_ifs with h1 h2
  · have hc : m.checking k = false := by
      simp only [Monitor.checking, hk]
      exact h1.2.1
    have e1 : ∀ j, ({ m with healthCheckChan := m.healthCheckChan ++ [k] }.modify k
        (fun e => { e with checking := true })).checks j
        = m.checks j + if j = k then 1 else 0 := by
      intro j
      simp only [Monitor.checks, Monitor.modify, List.count_append]
      rw [List.count_singleton]
      by_cases hjk : j = k
      · subst hjk; simp; omega
      · have hkj : ¬ k = j := fun e => hjk e.symm
        simp [hjk, hkj]
    have e2 : ({ m with healthCheckChan := m.healthCheckChan ++ [k] }.modify k
        (fun e => { e with checking := true })).checking k = true :=
      modify_checking_true _ k v _ hk (fun _ => rfl)
    have e3 : ∀ j, j ≠ k → ({ m with healthCheckChan := m.healthCheckChan ++ [k] }.modify k
        (fun e => { e with checking := true })).checking j = m.checking j :=
      fun j hjk => modify_checking_of_ne _ k j _ hjk
    have e4 : ∀ j, ({ m with healthCheckChan := m.healthCheckChan ++ [k] }.modify k
        (fun e => { e with checking := true })).scanning j = m.scanning j :=
      fun j => modify_scanning_of_same _ k j _ (fun _ => rfl)
    have e5 : ∀ j, ({ m with healthCheckChan := m.healthCheckChan ++ [k] }.modify k
        (fun e => { e with checking := true })).scans j = m.scans j := fun _ => rfl
    refine ⟨?_, ?_, ?_, ?_⟩
    · intro h j
      rw [e1]
      by_cases hjk : j = k
      · subst hjk
        rw [if_pos rfl, checks_eq_zero m h j hc]
        exact ⟨Nat.le_refl _, fun _ => e2⟩
      · rw [if_neg hjk, add_zero, e3 j hjk]
        exact h j
    · intro h j
      rw [e1]
      by_cases hjk : j = k
      · subst hjk
        intro _
        rw [if_pos rfl]
        omega
      · rw [if_neg hjk, add_zero, e3 j hjk]
        exact h j
    · intro h j
      rw [e4, e5]
      exact h j
    · intro h j
      rw [e4, e5]
      exact h j
  · exact ⟨id, id, id, id⟩
  · exact ⟨id, id, id, id⟩

/-- The entry of `k` after the health-check part of the loop body. -/
theorem dispatchHealth_entry (m : Monitor α) (cfg : Config) (now : Int) (k : α)
    (v : Mirror α) (hk : m.mirrors k = some v) :
    ∃ v2, (m.dispatchHealth cfg now k v).mirrors k = some v2 ∧ v2.scanning = v.scanning := by
  unfold Monitor.dispatchHealth
  split_ifs
  · exact ⟨{ v with checking := true }, by simp [Monitor.modify, hk], rfl⟩
  · exact ⟨v, hk, rfl⟩
  · exact ⟨v, hk, rfl⟩

/-- The scan part of the loop body keeps the four properties. -/
theorem dispatchScan_keeps (s : Monitor α × Nat) (cfg : Config) (now : Int) (k : α)
    (v v2 : Mirror α) (hk : s.1.mirrors k = some v2) (hv : v2.scanning = v.scanning) :
    (s.1.checkExclusive → (Monitor.dispatchScan s cfg now k v).1.checkExclusive)
      ∧ (s.1.checkHeld → (Monitor.dispatchScan s cfg now k v).1.checkHeld)
      ∧ (s.1.scanExclusive → (Monitor.dispatchScan s cfg now k v).1.scanExclusive)
      ∧ (s.1.scanHeld → (Monitor.dispatchScan s cfg now k v).1.scanHeld) := by
  unfold Monitor.dispatchScan
  split_ifs with h1 h2
  · have hc : s.1.scanning k = false := by
      simp only [Monitor.scanning, hk, hv]
      exact h1.2.1
    have e1 : ∀ j, ({ s.1 with syncChan := s.1.syncChan ++ [k] }.modify k
        (fun e => { e with scanning := true })).scans j
        = s.1.scans j + if j = k then 1 else 0 := by
      intro j
      simp only [Monitor.scans, Monitor.modify, List.count_append]
      rw [List.count_singleton]
      by_cases hjk : j = k
      · subst hjk; simp; omega
      · have hkj : ¬ k = j := fun e => hjk e.symm
        simp [hjk, hkj]
    have e2 : ({ s.1 with syncChan := s.1.syncChan ++ [k] }.modify k
        (fun e => { e with scanning := true })).scanning k = true :=
      modify_scanning_true _ k v2 _ hk (fun _ => rfl)
    have e3 : ∀ j, j ≠ k → ({ s.1 with syncChan := s.1.syncChan ++ [k] }.modify k
        (fun e => { e with scanning := true })).scanning j = s.1.scanning j :=
      fun j hjk => modify_scanning_of_ne _ k j _ hjk
    have e4 : ∀ j, ({ s.1 with syncChan := s.1.syncChan ++ [k] }.modify k
        (fun e => { e with scanning := true })).checking j = s.1.checking j :=
      fun j => modify_checking_of_same _ k j _ (fun _ => rfl)
    have e5 : ∀ j, ({ s.1 with syncChan := s.1.syncChan ++ [k] }.modify k
        (fun e => { e with scanning := true })).checks j = s.1.checks j := fun _ => rfl
    refine ⟨?_, ?_, ?_, ?_⟩
    · intro h j
      show _ ≤ 1 ∧ (1 ≤ _ → _)
      rw [e4, e5]
      exact h j
    · intro h j
      show _ → 1 ≤ _
      rw [e4, e5]
      exact h j
    · intro h j
      show ({ s.1 with syncChan := s.1.syncChan ++ [k] }.modify k
        (fun e => { e with scanning := true })).scans j ≤ 1 ∧ (1 ≤ _ → _)
      rw [e1]
      by_cases hjk : j = k
      · subst hjk
        rw [if_pos rfl, scans_eq_zero s.1 h j hc]
        exact ⟨Nat.le_refl _, fun _ => e2⟩
      · rw [if_neg hjk, add_zero]
        refine ⟨(h j).1, fun h3 => ?_⟩
        show ({ s.1 with syncChan := s.1.syncChan ++ [k] }.modify k
          (fun e => { e with scanning := true })).scanning j = true
        rw [e3 j hjk]
        exact (h j).2 h3
    · intro h j
      show _ → 1 ≤ ({ s.1 with syncChan := s.1.syncChan ++ [k] }.modify k
        (fun e => { e with scanning := true })).scans j
      rw [e1]
      by_cases hjk : j = k
      · subst hjk
        intro _
        rw [if_pos rfl]
        omega
      · rw [if_neg hjk, add_zero]
        intro h3
        have h4 : ({ s.1 with syncChan := s.1.syncChan ++ [k] }.modify k
          (fun e => { e with scanning := true })).scanning j = true := h3
        rw [e3 j hjk] at h4
        exact h j h4
  · exact ⟨id, id, id, id⟩
  · exact ⟨id, id, id, id⟩

/-- The loop body of a dispatch tick keeps the four properties. -/
theorem dispatchOne_keeps (cfg : Config) (now : Int) (s : Monitor α × Nat) (k : α) :
    (s.1.checkExclusive → (dispatchOne cfg now s k).1.checkExclusive)
      ∧ (s.1.checkHeld → (dispatchOne cfg now s k).1.checkHeld)
      ∧ (s.1.scanExclusive → (dispatchOne cfg now s k).1.scanExclusive)
      ∧ (s.1.scanHeld → (dispatchOne cfg now s k).1.scanHeld) := by
  unfold dispatchOne
  cases hk : s.1.mirrors k with
  | none => exact ⟨id, id, id, id⟩
  | some v =>
    simp only
    split_ifs
    · exact ⟨id, id, id, id⟩
    · obtain ⟨v2, hv2, hsc⟩ := dispatchHealth_entry s.1 cfg now k v hk
      have h1 := dispatchHealth_keeps s.1 cfg now k v hk
      have h2 := dispatchScan_keeps (s.1.dispatchHealth cfg now k v, s.2) cfg now k v v2 hv2 hsc
      exact ⟨fun h => h2.1 (h1.1 h), fun h => h2.2.1 (h1.2.1 h),
        fun h => h2.2.2.1 (h1.2.2.1 h), fun h => h2.2.2.2 (h1.2.2.2 h)⟩

theorem dispatchTick_keeps (m : Monitor α) (cfg : Config) (now : Int) (failure : Bool)
    (order : List α) (ready : Nat) :
    (m.checkExclusive → (m.dispatchTick cfg now failure order ready).checkExclusive)
      ∧ (m.checkHeld → (m.dispatchTick cfg now failure order ready).checkHeld)
      ∧ (m.scanExclusive → (m.dispatchTick cfg now failure order ready).scanExclusive)
      ∧ (m.scanHeld → (m.dispatchTick cfg now failure order ready).scanHeld) := by
  unfold Monitor.dispatchTick
  split_ifs
  · exact ⟨id, id, id, id⟩
  · have key : ∀ (l : List α) (s : Monitor α × Nat),
        (s.1.checkExclusive → (l.foldl (dispatchOne cfg now) s).1.checkExclusive)
          ∧ (s.1.checkHeld → (l.foldl (dispatchOne cfg now) s).1.checkHeld)
          ∧ (s.1.scanExclusive → (l.foldl (dispatchOne cfg now) s).1.scanExclusive)
          ∧ (s.1.scanHeld → (l.foldl (dispatchOne cfg now) s).1.scanHeld) := by
      intro l
      induction l with
      | nil => intro s; exact ⟨id, id, id, id⟩
      | cons j t ih =>
        intro s
        have h1 := dispatchOne_keeps cfg now s j
        have h2 := ih (dispatchOne cfg now s j)
        exact ⟨fun h => h2.1 (h1.1 h), fun h => h2.2.1 (h1.2.1 h),
          fun h => h2.2.2.1 (h1.2.2.1 h), fun h => h2.2.2.2 (h1.2.2.2 h)⟩
    exact key order (m, ready)

/-- A step that changes none of the four observations keeps the four properties. -/
theorem keeps_of_same (m m2 : Monitor α)
    (h1 : ∀ k, m2.checks k = m.checks k) (h2 : ∀ k, m2.checking k = m.checking k)
    (h3 : ∀ k, m2.scans k = m.scans k) (h4 : ∀ k, m2.scanning k = m.scanning k) :
    (m.checkExclusive → m2.checkExclusive) ∧ (m.checkHeld → m2.checkHeld)
      ∧ (m.scanExclusive → m2.scanExclusive) ∧ (m.scanHeld → m2.scanHeld) := by
  refine ⟨?_, ?_, ?_, ?_⟩
  · intro h k
    rw [h1, h2]
    exact h k
  · intro h k
    rw [h1, h2]
    exact h k
  · intro h k
    rw [h3, h4]
    exact h k
  · intro h k
    rw [h3, h4]
    exact h k

/-- An upsert or a failed fetch changes no flag and no queue. -/
theorem syncMirror_keeps (m : Monitor α) (id : α) (r : FetchResult α)
    (hr : ∀ mirror, r ≠ .errNil mirror) :
    (m.checkExclusive → (m.syncMirror id r).checkExclusive)
      ∧ (m.checkHeld → (m.syncMirror id r).checkHeld)
      ∧ (m.scanExclusive → (m.syncMirror id r).scanExclusive)
      ∧ (m.scanHeld → (m.syncMirror id r).scanHeld) := by
  cases r with
  | otherError => exact ⟨fun h => h, fun h => h, fun h => h, fun h => h⟩
  | errNil mirror => exact absurd rfl (hr mirror)
  | ok mirror =>
    apply keeps_of_same m
    · intro k
      simp only [Monitor.syncMirror]
      cases m.mirrors mirror.ID <;> rfl
    · intro k
      simp only [Monitor.syncMirror]
      cases hm : m.mirrors mirror.ID with
      | none =>
        by_cases hk : k = mirror.ID
        · subst hk; simp [Monitor.checking, hm]
        · simp [Monitor.checking, hk]
      | some tmp =>
        by_cases hk : k = mirror.ID
        · subst hk; simp [Monitor.checking, hm]
        · simp [Monitor.checking, hk]
    · intro k
      simp only [Monitor.syncMirror]
      cases m.mirrors mirror.ID <;> rfl
    · intro k
      simp only [Monitor.syncMirror]
      cases hm : m.mirrors mirror.ID with
      | none =>
        by_cases hk : k = mirror.ID
        · subst hk; simp [Monitor.scanning, hm]
        · simp [Monitor.scanning, hk]
      | some tmp =>
        by_cases hk : k = mirror.ID
        · subst hk; simp [Monitor.scanning, hm]
        · simp [Monitor.scanning, hk]

/-- A deletion clears flags and leaves the queues: a set flag stays backed. -/
theorem syncMirror_delete_keeps (m : Monitor α) (id : α) (mirror : MirrorRecord α) :
    (m.checkHeld → (m.syncMirror id (.errNil mirror)).checkHeld)
      ∧ (m.scanHeld → (m.syncMirror id (.errNil mirror)).scanHeld) := by
  constructor
  · intro h k hc
    have e : (m.syncMirror id (.errNil mirror)).checks k = m.checks k := rfl
    rw [e]
    apply h k
    by_cases hk : k = id
    · subst hk
      simp [Monitor.syncMirror, Monitor.checking] at hc
    · simpa [Monitor.syncMirror, Monitor.checking, hk] using hc
  · intro h k hc
    have e : (m.syncMirror id (.errNil mirror)).scans k = m.scans k := rfl
    rw [e]
    apply h k
    by_cases hk : k = id
    · subst hk
      simp [Monitor.syncMirror, Monitor.scanning] at hc
    · simpa [Monitor.syncMirror, Monitor.scanning, hk] using hc

theorem healthCheckReceive_keeps (m : Monitor α) :
    (m.checkExclusive → (match m.healthCheckReceive with
        | .run _ _ m2 => m2
        | _ => m).checkExclusive)
      ∧ (m.checkHeld → (match m.healthCheckReceive with
        | .run _ _ m2 => m2
        | _ => m).checkHeld)
      ∧ (m.scanExclusive → (match m.healthCheckReceive with
        | .run _ _ m2 => m2
        | _ => m).scanExclusive)
      ∧ (m.scanHeld → (match m.healthCheckReceive with
        | .run _ _ m2 => m2
        | _ => m).scanHeld) := by
  cases hq : m.healthCheckChan with
  | nil =>
    simp only [Monitor.healthCheckReceive, hq]
    exact ⟨id, id, id, id⟩
  | cons k rest =>
    cases hm : m.mirrors k with
    | none =>
      simp only [Monitor.healthCheckReceive, hq, hm]
      exact ⟨id, id, id, id⟩
    | some v =>
      simp only [Monitor.healthCheckReceive, hq, hm]
      apply keeps_of_same m
      · intro j
        simp only [Monitor.checks, hq, List.count_append, List.count_cons]
        omega
      · intro j; rfl
      · intro j; rfl
      · intro j; rfl

theorem syncReceive_keeps (m : Monitor α) :
    (m.checkExclusive → (match m.syncReceive with
        | .run _ _ m2 => m2
        | _ => m).checkExclusive)
      ∧ (m.checkHeld → (match m.syncReceive with
        | .run _ _ m2 => m2
        | _ => m).checkHeld)
      ∧ (m.scanExclusive → (match m.syncReceive with
        | .run _ _ m2 => m2
        | _ => m).scanExclusive)
      ∧ (m.scanHeld → (match m.syncReceive with
        | .run _ _ m2 => m2
        | _ => m).scanHeld) := by
  cases hq : m.syncChan with
  | nil =>
    simp only [Monitor.syncReceive, hq]
    exact ⟨id, id, id, id⟩
  | cons k rest =>
    cases hm : m.mirrors k with
    | none =>
      simp only [Monitor.syncReceive, hq, hm]
      exact ⟨id, id, id, id⟩
    | some v =>
      simp only [Monitor.syncReceive, hq, hm]
      apply keeps_of_same m
      · intro j; rfl
      · intro j; rfl
      · intro j
        simp only [Monitor.scans, hq, List.count_append, List.count_cons]
        omega
      · intro j; rfl

/-- The end of a health check keeps the exclusion of health checks and both
properties of scans; it keeps a set `checking` backed unless the outcome is the
sentinel `mirrorNotScanned`, which leaves the flag set. -/
theorem healthCheckFinish_keeps (m : Monitor α) (k : α) (outcome : HealthOutcome)
    (now : Int) (hk : k ∈ m.checksRunning) :
    (m.checkExclusive → (m.healthCheckFinish k outcome now).checkExclusive)
      ∧ (outcome ≠ .mirrorNotScanned → m.checkHeld →
          (m.healthCheckFinish k outcome now).checkHeld)
      ∧ (m.scanExclusive → (m.healthCheckFinish k outcome now).scanExclusive)
      ∧ (m.scanHeld → (m.healthCheckFinish k outcome now).scanHeld) := by
  have hone : 1 ≤ m.checksRunning.count k := List.one_le_count_iff.2 hk
  have hchecks : ∀ j, (m.healthCheckFinish k outcome now).checks j
      = if j = k then m.checks k - 1 else m.checks j := by
    intro j
    have e : (m.healthCheckFinish k outcome now).checks j
        = (m.healthCheckChan ++ m.checksRunning.erase k).count j := by
      cases outcome <;> rfl
    rw [e]
    simp only [Monitor.checks, List.count_append]
    by_cases hjk : j = k
    · subst hjk
      rw [if_pos rfl, List.count_erase_self]
      omega
    · rw [if_neg hjk, List.count_erase_of_ne hjk]
  have hscans : ∀ j, (m.healthCheckFinish k outcome now).scans j = m.scans j := by
    intro j
    cases outcome <;> rfl
  have hscanning : ∀ j, (m.healthCheckFinish k outcome now).scanning j = m.scanning j := by
    intro j
    cases outcome
    · rfl
    · exact modify_scanning_of_same _ k j _ (fun _ => rfl)
    · exact modify_scanning_of_same _ k j _ (fun _ => rfl)
  have hchecking : ∀ j, j ≠ k →
      (m.healthCheckFinish k outcome now).checking j = m.checking j := by
    intro j hjk
    cases outcome
    · rfl
    · exact modify_checking_of_ne _ k j _ hjk
    · exact modify_checking_of_ne _ k j _ hjk
  refine ⟨?_, ?_, ?_, ?_⟩
  · intro h j
    rw [hchecks]
    by_cases hjk : j = k
    · rw [if_pos hjk]
      have hk1 := (h k).1
      exact ⟨by omega, fun h0 => absurd h0 (by omega)⟩
    · rw [if_neg hjk, hchecking j hjk]
      exact h j
  · intro ho h j
    by_cases hjk : j = k
    · subst hjk
      have hf : (m.healthCheckFinish j outcome now).checking j = false := by
        cases outcome
        · exact absurd rfl ho
        · exact modify_checking_false _ j _ (fun _ => rfl)
        · exact modify_checking_false _ j _ (fun _ => rfl)
      rw [hf]
      intro hc
      exact Bool.noConfusion hc
    · rw [hchecks, if_neg hjk, hchecking j hjk]
      exact h j
  · intro h j
    rw [hscans, hscanning]
    exact h j
  · intro h j
    rw [hscans, hscanning]
    exact h j

/-- The end of a scan keeps both properties of scans and keeps a set `checking`
backed; it keeps the exclusion of health checks unless it sends the follow-up
health check of a mirror that is down. -/
theorem syncFinish_keeps (m : Monitor α) (k : α) (outcome : ScanOutcome)
    (hk : k ∈ m.scansRunning) :
    (outcome ≠ .scanned false → m.checkExclusive → (m.syncFinish k outcome).checkExclusive)
      ∧ (m.checkHeld → (m.syncFinish k outcome).checkHeld)
      ∧ (m.scanExclusive → (m.syncFinish k outcome).scanExclusive)
      ∧ (m.scanHeld → (m.syncFinish k outcome).scanHeld) := by
  have hone : 1 ≤ m.scansRunning.count k := List.one_le_count_iff.2 hk
  have hfin : m.syncFinish k outcome
      = { m with
          healthCheckChan :=
            if outcome = ScanOutcome.scanned false
                ∧ m.healthCheckChan.length < healthCheckThreads * 5 then
              m.healthCheckChan ++ [k]
            else m.healthCheckChan
          scansRunning := m.scansRunning.erase k }.modify k
          (fun e => { e with scanning := false }) := by
    unfold Monitor.syncFinish
    by_cases hc : outcome = ScanOutcome.scanned false
        ∧ m.healthCheckChan.length < healthCheckThreads * 5
    · simp only [hc, and_self, if_true]
    · simp only [hc, if_false]
  rw [hfin]
  generalize hq : (if outcome = ScanOutcome.scanned false
      ∧ m.healthCheckChan.length < healthCheckThreads * 5 then
        m.healthCheckChan ++ [k] else m.healthCheckChan) = q
  have hscans : ∀ j, ({ m with healthCheckChan := q, scansRunning := m.scansRunning.erase k
      }.modify k (fun e => { e with scanning := false })).scans j
      = if j = k then m.scans k - 1 else m.scans j := by
    intro j
    simp only [Monitor.scans, Monitor.modify, List.count_append]
    by_cases hjk : j = k
    · subst hjk
      rw [if_pos rfl, List.count_erase_self]
      omega
    · rw [if_neg hjk, List.count_erase_of_ne hjk]
  have hscanning : ∀ j, j ≠ k →
      ({ m with healthCheckChan := q, scansRunning := m.scansRunning.erase k
      }.modify k (fun e => { e with scanning := false })).scanning j = m.scanning j :=
    fun j hjk => modify_scanning_of_ne _ k j _ hjk
  have hfalse : ({ m with healthCheckChan := q, scansRunning := m.scansRunning.erase k
      }.modify k (fun e => { e with scanning := false })).scanning k = false :=
    modify_scanning_false _ k _ (fun _ => rfl)
  have hchecking : ∀ j, ({ m with healthCheckChan := q, scansRunning := m.scansRunning.erase k
      }.modify k (fun e => { e with scanning := false })).checking j = m.checking j :=
    fun j => modify_checking_of_same _ k j _ (fun _ => rfl)
  have hchecks : ∀ j, ({ m with healthCheckChan := q, scansRunning := m.scansRunning.erase k
      }.modify k (fun e => { e with scanning := false })).checks j
      = (q ++ m.checksRunning).count j := fun _ => rfl
  have hle : ∀ j, m.checks j ≤ (q ++ m.checksRunning).count j := by
    intro j
    rw [← hq]
    split_ifs
    · simp only [Monitor.checks, List.count_append]
      omega
    · exact Nat.le_refl _
  have hsame : outcome ≠ .scanned false → ∀ j, (q ++ m.checksRunning).count j = m.checks j := by
    intro ho j
    rw [← hq]
    simp only [ho, false_and, if_false]
    rfl
  refine ⟨?_, ?_, ?_, ?_⟩
  · intro ho h j
    rw [hchecks, hsame ho, hchecking]
    exact h j
  · intro h j hc
    rw [hchecking] at hc
    rw [hchecks]
    exact Nat.le_trans (h j hc) (hle j)
  · intro h j
    rw [hscans]
    by_cases hjk : j = k
    · rw [if_pos hjk]
      have hk1 := (h k).1
      exact ⟨by omega, fun h0 => absurd h0 (by omega)⟩
    · rw [if_neg hjk, hscanning j hjk]
      exact h j
  · intro h j
    by_cases hjk : j = k
    · subst hjk
      rw [hfalse]
      intro hc
      exact Bool.noConfusion hc
    · rw [hscans, if_neg hjk, hscanning j hjk]
      exact h j

theorem NewMonitor_flags :
    (NewMonitor : Monitor α).checkExclusive ∧ (NewMonitor : Monitor α).checkHeld
      ∧ (NewMonitor : Monitor α).scanExclusive ∧ (NewMonitor : Monitor α).scanHeld := by
  refine ⟨?_, ?_, ?_, ?_⟩
  · intro k
    exact ⟨Nat.zero_le _, fun h => absurd h (by simp [Monitor.checks, NewMonitor])⟩
  · intro k hc
    exact Bool.noConfusion hc
  · intro k
    exact ⟨Nat.zero_le _, fun h => absurd h (by simp [Monitor.scans, NewMonitor])⟩
  · intro k hc
    exact Bool.noConfusion hc

/-- What one step of the scheduler keeps: a set `scanning` stays backed by a scan
in every step; the exclusion of scans is kept by every step but a deletion; a set
`checking` stays backed in every step but the end of a health check with
`mirrorNotScanned`; the exclusion of health checks is kept by every step but a
deletion and a follow-up health check. -/
theorem step_keeps (cfg : Config) (m : Monitor α) (ev : SchedEvent α) :
    (ev.deletes = false → ev.followsUp = false → m.checkExclusive →
        (m.step cfg ev).checkExclusive)
      ∧ (ev.notScanned = false → m.checkHeld → (m.step cfg ev).checkHeld)
      ∧ (ev.deletes = false → m.scanExclusive → (m.step cfg ev).scanExclusive)
      ∧ (m.scanHeld → (m.step cfg ev).scanHeld) := by
  cases ev with
  | tick now order ready =>
    have h := dispatchTick_keeps m cfg now false order ready
    exact ⟨fun _ _ => h.1, fun _ => h.2.1, fun _ => h.2.2.1, h.2.2.2⟩
  | sync i r =>
    cases r with
    | errNil mirror =>
      have h := syncMirror_delete_keeps m i mirror
      exact ⟨fun hd => Bool.noConfusion hd, fun _ => h.1, fun hd => Bool.noConfusion hd, h.2⟩
    | ok mirror =>
      have h := syncMirror_keeps m i (.ok mirror) (fun _ hr => FetchResult.noConfusion hr)
      exact ⟨fun _ _ => h.1, fun _ => h.2.1, fun _ => h.2.2.1, h.2.2.2⟩
    | otherError =>
      have h := syncMirror_keeps m i .otherError (fun _ hr => FetchResult.noConfusion hr)
      exact ⟨fun _ _ => h.1, fun _ => h.2.1, fun _ => h.2.2.1, h.2.2.2⟩
  | hello nodeID self now => exact ⟨fun _ _ h => h, fun _ h => h, fun _ h => h, fun h => h⟩
  | healthCheckReceive =>
    have h := healthCheckReceive_keeps m
    exact ⟨fun _ _ => h.1, fun _ => h.2.1, fun _ => h.2.2.1, h.2.2.2⟩
  | healthCheckFinish k outcome now =>
    simp only [Monitor.step]
    split_ifs with hk
    · have h := healthCheckFinish_keeps m k outcome now hk
      refine ⟨fun _ _ => h.1, fun hn => h.2.1 ?_, fun _ => h.2.2.1, h.2.2.2⟩
      intro ho
      subst ho
      exact Bool.noConfusion hn
    · exact ⟨fun _ _ h => h, fun _ h => h, fun _ h => h, fun h => h⟩
  | syncReceive =>
    have h := syncReceive_keeps m
    exact ⟨fun _ _ => h.1, fun _ => h.2.1, fun _ => h.2.2.1, h.2.2.2⟩
  | syncFinish k outcome =>
    simp only [Monitor.step]
    split_ifs with hk
    · have h := syncFinish_keeps m k outcome hk
      refine ⟨fun _ hf => h.1 ?_, fun _ => h.2.1, fun _ => h.2.2.1, h.2.2.2⟩
      intro ho
      subst ho
      exact Bool.noConfusion hf
    · exact ⟨fun _ _ h => h, fun _ h => h, fun _ h => h, fun h => h⟩

/-- A property that the steps allowed by `p` keep, and that holds of the new
monitor, holds after every run of such steps. -/
theorem run_keeps (cfg : Config) (P : Monitor α → Prop) (p : SchedEvent α → Prop)
    (h0 : P NewMonitor) (hstep : ∀ m ev, p ev → P m → P (m.step cfg ev))
    (events : List (SchedEvent α)) (hev : ∀ ev ∈ events, p ev) :
    P (Monitor.run cfg events) := by
  unfold Monitor.run
  have key : ∀ (l : List (SchedEvent α)) (m : Monitor α), (∀ ev ∈ l, p ev) →
      P m → P (l.foldl (Monitor.step cfg) m) := by
    intro l
    induction l with
    | nil => intro m _ hm; exact hm
    | cons ev t ih =>
      intro m hl hm
      exact ih _ (fun e he => hl e (List.mem_cons_of_mem _ he))
        (hstep m ev (hl ev (List.mem_cons_self _ _)) hm)
  exact key events NewMonitor hev h0

/-- In every run a set `scanning` is backed by a scan. -/
theorem scanHeld_run (cfg : Config) (events : List (SchedEvent α)) :
    (Monitor.run cfg events).scanHeld :=
  run_keeps cfg Monitor.scanHeld (fun _ => True) NewMonitor_flags.2.2.2
    (fun m ev _ h => (step_keeps cfg m ev).2.2.2 h) events (fun _ _ => trivial)

/-- In a run without a deletion the scans are exclusive. -/
theorem scanExclusive_run (cfg : Config) (events : List (SchedEvent α))
    (hev : ∀ ev ∈ events, ev.deletes = false) : (Monitor.run cfg events).scanExclusive :=
  run_keeps cfg Monitor.scanExclusive (fun ev => ev.deletes = false) NewMonitor_flags.2.2.1
    (fun m ev hd h => (step_keeps cfg m ev).2.2.1 hd h) events hev

/-- In a run without the outcome `mirrorNotScanned` a set `checking` is backed by
a health check. -/
theorem checkHeld_run (cfg : Config) (events : List (SchedEvent α))
    (hev : ∀ ev ∈ events, ev.notScanned = false) : (Monitor.run cfg events).checkHeld :=
  run_keeps cfg Monitor.checkHeld (fun ev => ev.notScanned = false) NewMonitor_flags.2.1
    (fun m ev hn h => (step_keeps cfg m ev).2.1 hn h) events hev

/-- In a run without a deletion and without a follow-up health check the health
checks are exclusive. -/
theorem checkExclusive_run (cfg : Config) (events : List (SchedEvent α))
    (hev : ∀ ev ∈ events, ev.deletes = false ∧ ev.followsUp = false) :
    (Monitor.run cfg events).checkExclusive :=
  run_keeps cfg Monitor.checkExclusive (fun ev => ev.deletes = false ∧ ev.followsUp = false)
    NewMonitor_flags.1 (fun m ev hd h => (step_keeps cfg m ev).1 hd.1 hd.2 h) events hev

end Flags

/-! ## Sharding (C1 – C3) -/

/-- C1. For a strictly ascending (sorted, duplicate-free) `mirrorsIndex`, a peer
count `N ≥ 1` and a position `p` of the index, exactly one local index `k < N`
makes `IsHandled(mirrorsIndex[p])` true when `nodeTotal = N` and `nodeIndex = k`. -/
theorem C1_sharding_totality {α : Type} [LinearOrder α] (mirrorsIndex : List α)
    (hs : mirrorsIndex.Sorted (· < ·)) (nodes : List (Node α)) (N : Nat) (hN : 1 ≤ N)
    (p : Nat) (hp : p < mirrorsIndex.length) :
    ∃! k, k < N ∧ Cluster.IsHandled
      { nodes := nodes, nodeIndex := k, nodeTotal := N, mirrorsIndex := mirrorsIndex }
      (mirrorsIndex.get ⟨p, hp⟩) = true := by
  simp only [Cluster.IsHandled, SearchStrings_get mirrorsIndex hs p hp, decide_eq_true_eq]
  exact shard_unique _ N p hN

/-- C1 at the index `["m1", ..., "m5"]`, two peers and position 2 (`"m3"`). -/
theorem C1_sharding_totality_witness :
    fiveMirrors.Sorted (· < ·) ∧ ∃! k, k < 2 ∧ Cluster.IsHandled
      { nodes := [], nodeIndex := k, nodeTotal := 2, mirrorsIndex := fiveMirrors }
      (fiveMirrors.get ⟨2, by decide⟩) = true :=
  ⟨by decide, C1_sharding_totality fiveMirrors (by decide) [] 2 (by decide) 2 (by decide)⟩

/-- C2 as stated fails: with two peers and five mirrors the code does not compute
range 2 with peer 0 handling `m1, m2` and peer 1 handling `m3, m4, m5`. -/
theorem C2_counterexample :
    ¬ (mRange fiveMirrors.length 2 = 2
      ∧ owned fiveMirrors 2 0 = ["m1".toList, "m2".toList]
      ∧ owned fiveMirrors 2 1 = ["m3".toList, "m4".toList, "m5".toList]) := by
  decide

/-- C2, amended. With two peers and `mirrorsIndex = ["m1", ..., "m5"]` the range
is 3 (5/2 = 2.5 rounds up), peer 0 starts at 0 and handles exactly `m1, m2, m3`,
and peer 1 starts at 3 and handles exactly `m4, m5`. -/
theorem C2_concrete_partition :
    mRange fiveMirrors.length 2 = 3
      ∧ mRange fiveMirrors.length 2 * 0 = 0
      ∧ owned fiveMirrors 2 0 = ["m1".toList, "m2".toList, "m3".toList]
      ∧ mRange fiveMirrors.length 2 * 1 = 3
      ∧ owned fiveMirrors 2 1 = ["m4".toList, "m5".toList] := by
  decide

/-- C3 at seven mirrors and five peers: the range is 1, peers 0 to 3 handle one
mirror each and the last peer handles three, two more than `7/5`. -/
theorem C3_last_peer_imbalance :
    sevenMirrors.Sorted (· < ·)
      ∧ mRange sevenMirrors.length 5 = 1
      ∧ (owned sevenMirrors 5 0).length = 1
      ∧ (owned sevenMirrors 5 3).length = 1
      ∧ owned sevenMirrors 5 4 = ["m5".toList, "m6".toList, "m7".toList]
      ∧ sevenMirrors.length / 5 + 1 < (owned sevenMirrors 5 4).length := by
  decide

/-! ## Mirror index maintenance (C4 – C6) -/

/-- C4 as stated fails when the ID is already in the index: adding `"m1"` to
`["m1"]` changes nothing and the removal then empties the index. -/
theorem C4_counterexample :
    ["m1".toList].Sorted (· < ·)
      ∧ removeMirrorIDFromSlice (addMirrorIDToSlice ["m1".toList] "m1".toList) "m1".toList = []
      ∧ removeMirrorIDFromSlice (addMirrorIDToSlice ["m1".toList] "m1".toList) "m1".toList
          ≠ ["m1".toList] := by
  decide

/-- C4, amended. For a strictly ascending `mirrorsIndex` and an ID that is not in
it, `addMirrorIDToSlice` followed by `removeMirrorIDFromSlice` with the same ID
returns the original index. -/
theorem C4_add_then_remove {α : Type} [LinearOrder α] (mirrorsIndex : List α) (mirrorID : α)
    (hs : mirrorsIndex.Sorted (· < ·)) (hx : mirrorID ∉ mirrorsIndex) :
    removeMirrorIDFromSlice (addMirrorIDToSlice mirrorsIndex mirrorID) mirrorID
      = mirrorsIndex := by
  rw [addMirrorIDToSlice_eq _ _ (sorted_le_of_lt hs),
    removeMirrorIDFromSlice_eq _ _ (sorted_le_of_lt (insertSorted_sorted _ _ hs))]
  exact eraseSorted_insertSorted _ _ hs hx

/-- C4 (amended) at the index `["m1", ..., "m5"]` and the new ID `"m25"`. -/
theorem C4_add_then_remove_witness :
    fiveMirrors.Sorted (· < ·) ∧ "m25".toList ∉ fiveMirrors
      ∧ removeMirrorIDFromSlice (addMirrorIDToSlice fiveMirrors "m25".toList) "m25".toList
          = fiveMirrors :=
  ⟨by decide, by decide, C4_add_then_remove fiveMirrors "m25".toList (by decide) (by decide)⟩

/-- C5. For a strictly ascending `mirrorsIndex`: adding an ID that is in the index
returns the index unchanged, adding twice equals adding once, and removing an ID
that is not in the index returns the index unchanged. -/
theorem C5_idempotent_maintenance {α : Type} [LinearOrder α] (mirrorsIndex : List α)
    (mirrorID : α) (hs : mirrorsIndex.Sorted (· < ·)) :
    (mirrorID ∈ mirrorsIndex → addMirrorIDToSlice mirrorsIndex mirrorID = mirrorsIndex)
      ∧ addMirrorIDToSlice (addMirrorIDToSlice mirrorsIndex mirrorID) mirrorID
          = addMirrorIDToSlice mirrorsIndex mirrorID
      ∧ (mirrorID ∉ mirrorsIndex →
          removeMirrorIDFromSlice mirrorsIndex mirrorID = mirrorsIndex) := by
  have hle := sorted_le_of_lt hs
  have hins := insertSorted_sorted mirrorID _ hs
  refine ⟨fun hx => ?_, ?_, fun hx => ?_⟩
  · rw [addMirrorIDToSlice_eq _ _ hle]
    exact insertSorted_of_mem _ _ hs hx
  · rw [addMirrorIDToSlice_eq _ _ hle, addMirrorIDToSlice_eq _ _ (sorted_le_of_lt hins)]
    exact insertSorted_of_mem _ _ hins ((mem_insertSorted _ _ _).2 (Or.inl rfl))
  · rw [removeMirrorIDFromSlice_eq _ _ hle]
    exact eraseSorted_of_not_mem _ _ hx

/-- C5 at the index `["m1", ..., "m5"]` and the ID `"m3"`, which is in it. -/
theorem C5_idempotent_maintenance_witness :
    fiveMirrors.Sorted (· < ·)
      ∧ ("m3".toList ∈ fiveMirrors → addMirrorIDToSlice fiveMirrors "m3".toList = fiveMirrors)
      ∧ addMirrorIDToSlice (addMirrorIDToSlice fiveMirrors "m3".toList) "m3".toList
          = addMirrorIDToSlice fiveMirrors "m3".toList
      ∧ ("m3".toList ∉ fiveMirrors →
          removeMirrorIDFromSlice fiveMirrors "m3".toList = fiveMirrors) :=
  ⟨by decide, C5_idempotent_maintenance fiveMirrors "m3".toList (by decide)⟩

/-- C6. If `mirrorsIndex` is strictly ascending then so are the results of
`addMirrorIDToSlice` and `removeMirrorIDFromSlice`; the result of the addition
contains the ID, the result of the removal does not, and every other ID is in the
result exactly when it was in `mirrorsIndex`. -/
theorem C6_index_invariant {α : Type} [LinearOrder α] (mirrorsIndex : List α) (mirrorID : α)
    (hs : mirrorsIndex.Sorted (· < ·)) :
    (addMirrorIDToSlice mirrorsIndex mirrorID).Sorted (· < ·)
      ∧ (removeMirrorIDFromSlice mirrorsIndex mirrorID).Sorted (· < ·)
      ∧ mirrorID ∈ addMirrorIDToSlice mirrorsIndex mirrorID
      ∧ mirrorID ∉ removeMirrorIDFromSlice mirrorsIndex mirrorID
      ∧ (∀ y, y ≠ mirrorID →
          (y ∈ addMirrorIDToSlice mirrorsIndex mirrorID ↔ y ∈ mirrorsIndex))
      ∧ (∀ y, y ≠ mirrorID →
          (y ∈ removeMirrorIDFromSlice mirrorsIndex mirrorID ↔ y ∈ mirrorsIndex)) := by
  have hle := sorted_le_of_lt hs
  rw [addMirrorIDToSlice_eq _ _ hle, removeMirrorIDFromSlice_eq _ _ hle]
  refine ⟨insertSorted_sorted _ _ hs, List.Pairwise.sublist (eraseSorted_sublist _ _) hs,
    (mem_insertSorted _ _ _).2 (Or.inl rfl), ?_, ?_, ?_⟩
  · intro h
    exact ((mem_eraseSorted _ _ _ hs).1 h).1 rfl
  · intro y hy
    rw [mem_insertSorted]
    exact ⟨fun h => h.resolve_left hy, Or.inr⟩
  · intro y hy
    rw [mem_eraseSorted _ _ _ hs]
    exact ⟨fun h => h.2, fun h => ⟨hy, h⟩⟩

/-- C6 at the index `["m1", ..., "m5"]` and the ID `"m25"`. -/
theorem C6_index_invariant_witness :
    fiveMirrors.Sorted (· < ·)
      ∧ addMirrorIDToSlice fiveMirrors "m25".toList
          = ["m1".toList, "m2".toList, "m25".toList, "m3".toList, "m4".toList, "m5".toList]
      ∧ (addMirrorIDToSlice fiveMirrors "m25".toList).Sorted (· < ·) :=
  ⟨by decide, by decide, (C6_index_invariant fiveMirrors "m25".toList (by decide)).1⟩

/-! ## Peer membership (C7 – C10) -/

/-- C7. After `refreshNodeList(a, self)` at time `now` the IDs in the peer list
are exactly the IDs of the previous peers `n` for which not
(`now - n.LastAnnounce > 5` and `n.ID ≠ a` and `n.ID ≠ self`), together with `a`;
in particular a peer last heard more than 5 s ago, other than the announcing and
the local one, is no longer in the list. -/
theorem C7_peer_eviction_rule {α : Type} [LinearOrder α] (c : Cluster α) (a self : α)
    (now : Int) :
    (∀ id, id ∈ (c.refreshNodeList a self now).nodes.map Node.ID ↔
        (∃ n ∈ c.nodes, n.ID = id
          ∧ ¬ (now - n.LastAnnounce > 5 ∧ n.ID ≠ a ∧ n.ID ≠ self)) ∨ id = a)
      ∧ (∀ n ∈ c.nodes, now - n.LastAnnounce > 5 → n.ID ≠ a → n.ID ≠ self →
          n ∉ (c.refreshNodeList a self now).nodes) := by
  constructor
  · intro id
    rw [List.mem_map]
    constructor
    · rintro ⟨n, hn, rfl⟩
      rcases (mem_refreshNodeList c a self now n).1 hn with ⟨h1, _, h3⟩ | h
      · exact Or.inl ⟨n, h1, rfl, fun h => h3 ⟨h.1, h.2.2⟩⟩
      · right; rw [h]
    · rintro (⟨n, hn, rfl, h⟩ | rfl)
      · by_cases ha : n.ID = a
        · exact ⟨{ ID := a, LastAnnounce := now },
            (mem_refreshNodeList c a self now _).2 (Or.inr rfl), ha.symm⟩
        · exact ⟨n, (mem_refreshNodeList c a self now n).2
            (Or.inl ⟨hn, ha, fun h2 => h ⟨h2.1, ha, h2.2⟩⟩), rfl⟩
      · exact ⟨{ ID := id, LastAnnounce := now },
          (mem_refreshNodeList c id self now _).2 (Or.inr rfl), rfl⟩
  · intro n _ hold ha hself hmem
    rcases (mem_refreshNodeList c a self now n).1 hmem with ⟨_, _, h3⟩ | h
    · exact h3 ⟨hold, hself⟩
    · apply ha; rw [h]

/-- C7 on the example: `hostC`, last heard 6 s before, is gone after the local
peer `hostB` has processed the HELLO of `hostA` at time 100. -/
theorem C7_peer_eviction_rule_witness :
    (⟨"hostC".toList, 94⟩ : Node (List Char))
      ∉ (threeHosts.refreshNodeList "hostA".toList "hostB".toList 100).nodes :=
  (C7_peer_eviction_rule threeHosts "hostA".toList "hostB".toList 100).2
    ⟨"hostC".toList, 94⟩ (by decide) (by decide) (by decide) (by decide)

/-- C8. After the initial `refreshNodeList(self, self)` on the empty peer list and
after every further call `refreshNodeList(a_i, self)`, whatever the announcing IDs
and the times, the local ID is in the peer list. -/
theorem C8_self_refresh {α : Type} [LinearOrder α] (self : α) (t0 : Int)
    (hellos : List (α × Int)) (k : Nat) :
    self ∈ (clusterRun self t0 (hellos.take k)).nodes.map Node.ID :=
  self_mem_refreshAll self _ _ (self_mem_refreshNodeList NewCluster self self t0 (Or.inr rfl))

/-- C9. If the IDs of the peer list are strictly ascending before
`refreshNodeList(a, self)` they are so afterwards; hence they are strictly
ascending in every state reached from the empty list by such calls. -/
theorem C9_peer_list_order {α : Type} [LinearOrder α] (c : Cluster α) (a self : α)
    (now : Int) (hellos : List (α × Int)) :
    ((c.nodes.map Node.ID).Sorted (· < ·) →
        ((c.refreshNodeList a self now).nodes.map Node.ID).Sorted (· < ·))
      ∧ ((refreshAll self NewCluster hellos).nodes.map Node.ID).Sorted (· < ·) :=
  ⟨refreshNodeList_ids_sorted c a self now,
    refreshAll_ids_sorted self hellos NewCluster List.sorted_nil⟩

/-- C9 on the example: `hostD` joins the list `hostA, hostB, hostC`. -/
theorem C9_peer_list_order_witness :
    (threeHosts.nodes.map Node.ID).Sorted (· < ·)
      ∧ ((threeHosts.refreshNodeList "hostD".toList "hostB".toList 100).nodes.map
          Node.ID).Sorted (· < ·) :=
  ⟨by decide, (C9_peer_list_order threeHosts "hostD".toList "hostB".toList 100 []).1
    (by decide)⟩

/-- C10. After `refreshNodeList(a, self)` on a duplicate-free peer list that
contains `self` (or with `a = self`), `nodeTotal` is the length of the resulting
list, `nodeIndex < nodeTotal`, the node at `nodeIndex` has ID `self`, and no
other position has. -/
theorem C10_positional_index {α : Type} [LinearOrder α] (c : Cluster α) (a self : α)
    (now : Int) (hnd : (c.nodes.map Node.ID).Nodup)
    (hself : self ∈ c.nodes.map Node.ID ∨ a = self) :
    (c.refreshNodeList a self now).nodeTotal = (c.refreshNodeList a self now).nodes.length
      ∧ (c.refreshNodeList a self now).nodeIndex < (c.refreshNodeList a self now).nodeTotal
      ∧ ((c.refreshNodeList a self now).nodes[(c.refreshNodeList a self now).nodeIndex]?).map
          Node.ID = some self
      ∧ ∀ k, ((c.refreshNodeList a self now).nodes[k]?).map Node.ID = some self →
          k = (c.refreshNodeList a self now).nodeIndex := by
  have htot : (c.refreshNodeList a self now).nodeTotal
      = (c.refreshNodeList a self now).nodes.length := rfl
  have hidx : (c.refreshNodeList a self now).nodeIndex
      = match findSelf self (c.refreshNodeList a self now).nodes 0 with
        | some i => i
        | none => c.nodeIndex := rfl
  obtain ⟨j, hj1, hj2, hj3, _⟩ := findSelf_of_mem self (c.refreshNodeList a self now).nodes 0
    (self_mem_refreshNodeList c a self now hself)
  rw [hj1] at hidx
  simp only [Nat.zero_add] at hidx
  rw [hidx, htot]
  refine ⟨rfl, hj2, hj3, ?_⟩
  intro k hk
  have hnd2 := refreshNodeList_ids_nodup c a self now hnd
  have hlen : j < ((c.refreshNodeList a self now).nodes.map Node.ID).length := by
    simpa using hj2
  have heq : ((c.refreshNodeList a self now).nodes.map Node.ID)[j]?
      = ((c.refreshNodeList a self now).nodes.map Node.ID)[k]? := by
    rw [List.getElem?_map, List.getElem?_map, hj3, hk]
  exact (List.getElem?_inj hlen hnd2 heq).symm

/-- C10 on the example: after `hostB` has processed the HELLO of `hostA` at time 100
two peers remain and `hostB` is at index 1. -/
theorem C10_positional_index_witness :
    (threeHosts.refreshNodeList "hostA".toList "hostB".toList 100).nodeTotal = 2
      ∧ (threeHosts.refreshNodeList "hostA".toList "hostB".toList 100).nodeIndex = 1
      ∧ ((threeHosts.refreshNodeList "hostA".toList "hostB".toList 100).nodes[
          (threeHosts.refreshNodeList "hostA".toList "hostB".toList 100).nodeIndex]?).map
            Node.ID = some "hostB".toList :=
  ⟨by decide, by decide,
    (C10_positional_index threeHosts "hostA".toList "hostB".toList 100 (by decide)
      (Or.inl (by decide))).2.2.1⟩

/-! ## Download statistics (C11 – C13) -/

/-- C11. From the empty stats map, `N` download events of mirror `m` and file `f`
(both non-empty) with size `s` at any times of one day, followed by a flush whose
`EXEC` succeeds: `pushStats` returns, empties the map, and the commands it sent
add `N` to field `m` of `STATS_MIRROR_<day>`, `N·s` (as an `int64`) to field `m` of
`STATS_MIRROR_BYTES_<day>` and `N` to `STATS_TOTAL`, in whatever order `range`
visits the map.  `N` is below `2^63`. -/
theorem C11_stats_round_trip (m f : GoString) (s : Int) (y mo d : Nat) (times : List Nat)
    (order : StatsMap) (st : Store) (hm : m ≠ []) (hf : f ≠ [])
    (hN : (times.length : Int) < 2 ^ 63)
    (hperm : order.Perm (processAll (sameDayDownloads m f s y mo d times))) :
    ∃ cmds, pushStats order false = some (cmds, [])
      ∧ (st.run cmds).hash ("STATS_MIRROR_".toList
            ++ ({ year := y, month := mo, day := d, nsec := 0 } : Time).formatDay) m
          = st.hash ("STATS_MIRROR_".toList
            ++ ({ year := y, month := mo, day := d, nsec := 0 } : Time).formatDay) m
            + times.length
      ∧ (st.run cmds).hash ("STATS_MIRROR_BYTES_".toList
            ++ ({ year := y, month := mo, day := d, nsec := 0 } : Time).formatDay) m
          = st.hash ("STATS_MIRROR_BYTES_".toList
            ++ ({ year := y, month := mo, day := d, nsec := 0 } : Time).formatDay) m
            + wrapInt64 (times.length * s)
      ∧ (st.run cmds).counter "STATS_TOTAL".toList
          = st.counter "STATS_TOTAL".toList + times.length := by
  by_cases ht : times = []
  · subst ht
    rw [processAll_sameDay, if_pos rfl] at hperm
    have ho : order = [] := List.Perm.eq_nil hperm
    subst ho
    have hz : wrapInt64 (((([] : List Nat).length : Nat) : Int) * s) = 0 := by
      simp only [List.length_nil, Nat.cast_zero, zero_mul]
      unfold wrapInt64
      omega
    refine ⟨[], rfl, ?_, ?_, ?_⟩
    · simp only [Store.run, List.foldl_nil, List.length_nil, Nat.cast_zero, add_zero]
    · rw [hz]
      simp only [Store.run, List.foldl_nil, add_zero]
    · simp only [Store.run, List.foldl_nil, List.length_nil, Nat.cast_zero, add_zero]
  · have hw := wrapInt64_of_lt times.length hN
    obtain ⟨c1, hp1, hs1⟩ := flush_sameDay
      (Command.hashDelta ("STATS_MIRROR_".toList
        ++ (pad4 y ++ '_' :: (pad2 mo ++ '_' :: pad2 d))) m) rfl rfl
      m f s y mo d times order hm hf ht hperm
    obtain ⟨c2, hp2, hs2⟩ := flush_sameDay
      (Command.hashDelta ("STATS_MIRROR_BYTES_".toList
        ++ (pad4 y ++ '_' :: (pad2 mo ++ '_' :: pad2 d))) m) rfl rfl
      m f s y mo d times order hm hf ht hperm
    obtain ⟨c3, hp3, hs3⟩ := flush_sameDay
      (Command.counterDelta "STATS_TOTAL".toList) rfl rfl
      m f s y mo d times order hm hf ht hperm
    have e2 : c2 = c1 := by
      rw [hp1] at hp2
      simp only [Option.some.injEq, Prod.mk.injEq, and_true] at hp2
      exact hp2.symm
    have e3 : c3 = c1 := by
      rw [hp1] at hp3
      simp only [Option.some.injEq, Prod.mk.injEq, and_true] at hp3
      exact hp3.symm
    subst e2
    subst e3
    refine ⟨c3, hp1, ?_, ?_, ?_⟩
    · rw [Store.run_hash, formatDay_eq, hs1, file_entry_adds_mirror y mo d f m _ hf,
        mirror_entry_adds_mirror y mo d m _ hm, bytes_entry_adds_mirror y mo d m m _ hm, hw]
      ring
    · rw [Store.run_hash, formatDay_eq, hs2, file_entry_adds_bytes y mo d f m _ hf,
        mirror_entry_adds_bytes y mo d m m _ hm, bytes_entry_adds_bytes y mo d m _ hm]
      ring
    · rw [Store.run_counter, hs3, file_entry_adds_total y mo d f _ hf,
        mirror_entry_adds_total y mo d m _ hm, bytes_entry_adds_total y mo d m _ hm, hw]
      ring

/-- C11 on three downloads of `/a` (10 bytes) from mirror `M` on 17 May 2023,
flushed into a store with all counters at zero. -/
theorem C11_stats_round_trip_witness :
    ∃ cmds, pushStats (processAll (sameDayDownloads "M".toList "/a".toList 10 2023 5 17 [1, 2, 3]))
        false = some (cmds, [])
      ∧ (Store.zero.run cmds).hash ("STATS_MIRROR_".toList
            ++ ({ year := 2023, month := 5, day := 17, nsec := 0 } : Time).formatDay) "M".toList
          = Store.zero.hash ("STATS_MIRROR_".toList
            ++ ({ year := 2023, month := 5, day := 17, nsec := 0 } : Time).formatDay) "M".toList
            + ([1, 2, 3] : List Nat).length
      ∧ (Store.zero.run cmds).hash ("STATS_MIRROR_BYTES_".toList
            ++ ({ year := 2023, month := 5, day := 17, nsec := 0 } : Time).formatDay) "M".toList
          = Store.zero.hash ("STATS_MIRROR_BYTES_".toList
            ++ ({ year := 2023, month := 5, day := 17, nsec := 0 } : Time).formatDay) "M".toList
            + wrapInt64 (([1, 2, 3] : List Nat).length * 10)
      ∧ (Store.zero.run cmds).counter "STATS_TOTAL".toList
          = Store.zero.counter "STATS_TOTAL".toList + ([1, 2, 3] : List Nat).length :=
  C11_stats_round_trip "M".toList "/a".toList 10 2023 5 17 [1, 2, 3] _ Store.zero
    (by decide) (by decide) (by decide) (List.Perm.refl _)

/-- C12. For an entry with key `t ++ "Y_M_D" ++ "|" ++ object`, `t` one of `f`, `m`,
`s`, with `Y`, `M`, `D` free of `'_'` and `'|'`, a non-empty object and a value
`v ≠ 0`, the loop body of `pushStats` sends exactly four `HINCRBY` commands with
field `object` and increment `v`, against `P_Y_M_D`, `P_Y_M`, `P_Y` and `P` in that
order, followed for `t = f` only by `INCRBY STATS_TOTAL v`; run on a store with all
counters at zero, these commands leave `v` in each of the four hashes. -/
theorem C12_rolling_keys (t : Char) (Y M D object : GoString) (v : Int)
    (ht : t = 'f' ∨ t = 'm' ∨ t = 's')
    (hY : '_' ∉ Y ∧ '|' ∉ Y) (hM : '_' ∉ M ∧ '|' ∉ M) (hD : '_' ∉ D ∧ '|' ∉ D)
    (ho : object ≠ []) (hv : v ≠ 0) :
    pushEntry (t :: ((Y ++ '_' :: (M ++ '_' :: D)) ++ '|' :: object)) v
        = some ([Command.HINCRBY (statsHash t ++ '_' :: (Y ++ '_' :: (M ++ '_' :: D))) object v,
            Command.HINCRBY (statsHash t ++ '_' :: (Y ++ '_' :: M)) object v,
            Command.HINCRBY (statsHash t ++ '_' :: Y) object v,
            Command.HINCRBY (statsHash t) object v]
          ++ if t = 'f' then [Command.INCRBY "STATS_TOTAL".toList v] else [])
      ∧ ∀ cmds, pushEntry (t :: ((Y ++ '_' :: (M ++ '_' :: D)) ++ '|' :: object)) v = some cmds →
          (Store.zero.run cmds).hash (statsHash t ++ '_' :: (Y ++ '_' :: (M ++ '_' :: D))) object = v
          ∧ (Store.zero.run cmds).hash (statsHash t ++ '_' :: (Y ++ '_' :: M)) object = v
          ∧ (Store.zero.run cmds).hash (statsHash t ++ '_' :: Y) object = v
          ∧ (Store.zero.run cmds).hash (statsHash t) object = v := by
  have hmain := pushEntry_rolling t Y M D object v ht hY hM hD ho hv
  refine ⟨hmain, ?_⟩
  intro cmds hc
  rw [hmain] at hc
  cases hc
  split_ifs <;> simp [Store.run, Store.apply, Store.zero]

/-- C12 on the key `f2023_05_17|/a` with value 3, and the flush of three downloads
of `/a` on that day into a store with all counters at zero: 3 in
`STATS_FILE_2023_05_17`, `STATS_FILE_2023_05`, `STATS_FILE_2023`, `STATS_FILE` and
`STATS_TOTAL`. -/
theorem C12_rolling_keys_witness :
    pushEntry ('f' :: (("2023".toList ++ '_' :: ("05".toList ++ '_' :: "17".toList))
          ++ '|' :: "/a".toList)) 3
        = some ([Command.HINCRBY (statsHash 'f' ++ '_' :: ("2023".toList
              ++ '_' :: ("05".toList ++ '_' :: "17".toList))) "/a".toList 3,
            Command.HINCRBY (statsHash 'f' ++ '_' :: ("2023".toList ++ '_' :: "05".toList))
              "/a".toList 3,
            Command.HINCRBY (statsHash 'f' ++ '_' :: "2023".toList) "/a".toList 3,
            Command.HINCRBY (statsHash 'f') "/a".toList 3]
          ++ if 'f' = 'f' then [Command.INCRBY "STATS_TOTAL".toList 3] else [])
      ∧ (pushStats (processAll [downloadA 1, downloadA 2, downloadA 3]) false).map
          (fun r =>
            [(Store.zero.run r.1).hash "STATS_FILE_2023_05_17".toList "/a".toList,
              (Store.zero.run r.1).hash "STATS_FILE_2023_05".toList "/a".toList,
              (Store.zero.run r.1).hash "STATS_FILE_2023".toList "/a".toList,
              (Store.zero.run r.1).hash "STATS_FILE".toList "/a".toList,
              (Store.zero.run r.1).counter "STATS_TOTAL".toList])
          = some [3, 3, 3, 3, 3] :=
  ⟨(C12_rolling_keys 'f' "2023".toList "05".toList "17".toList "/a".toList 3 (Or.inl rfl)
      (by decide) (by decide) (by decide) (by decide) (by decide)).1, by decide⟩

/-- C13. For every stats map that `processCountDownload` can have built, visited
in any order: when it is empty `pushStats` sends no command; when it is not,
`pushStats` returns, leaving the map as it is if `EXEC` returns an error and
replacing it with the empty map if `EXEC` succeeds.  On any map at all, a
`pushStats` that returns has left the map in one of these two ways. -/
theorem C13_flush_result (events : List StatsEvent) (order : StatsMap) (execErr : Bool)
    (hperm : order.Perm (processAll events)) :
    (order = [] → pushStats order execErr = some ([], []))
      ∧ (order ≠ [] → ∃ cmds, pushStats order execErr
          = some (cmds, if execErr = true then order else []))
      ∧ (∀ (m : StatsMap) cmds m2, pushStats m execErr = some (cmds, m2) →
          m2 = if execErr = true then m else []) := by
  refine ⟨?_, ?_, ?_⟩
  · rintro rfl; rfl
  · intro hne
    obtain ⟨cmds, hc⟩ := pushEntries_reachable events order hperm
    have hlen : ¬ order.length ≤ 0 := by
      cases order with
      | nil => exact absurd rfl hne
      | cons _ _ => simp
    refine ⟨Command.MULTI :: (cmds ++ [Command.EXEC]), ?_⟩
    unfold pushStats
    rw [if_neg hlen, hc]
    cases execErr <;> rfl
  · intro m cmds m2 h
    unfold pushStats at h
    by_cases h1 : m.length ≤ 0
    · rw [if_pos h1] at h
      have hm : m = [] := List.length_eq_zero.1 (by omega)
      cases h
      subst hm
      cases execErr <;> rfl
    · rw [if_neg h1] at h
      cases hpe : pushEntries m with
      | none => rw [hpe] at h; cases h
      | some c =>
        rw [hpe] at h
        cases execErr
        · simp only [Bool.false_eq_true, if_false, Option.some.injEq, Prod.mk.injEq] at h
          rw [← h.2]; rfl
        · simp only [if_true, Option.some.injEq, Prod.mk.injEq] at h
          rw [← h.2]; rfl

/-- C13 on the map built by three downloads of `/a` from mirror `M`. -/
theorem C13_flush_result_witness :
    (∃ cmds, pushStats (processAll [downloadA 1, downloadA 2, downloadA 3]) true
        = some (cmds, processAll [downloadA 1, downloadA 2, downloadA 3]))
      ∧ (∃ cmds, pushStats (processAll [downloadA 1, downloadA 2, downloadA 3]) false
        = some (cmds, [])) :=
  ⟨(C13_flush_result [downloadA 1, downloadA 2, downloadA 3] _ true (List.Perm.refl _)).2.1
      (by decide),
    (C13_flush_result [downloadA 1, downloadA 2, downloadA 3] _ false (List.Perm.refl _)).2.1
      (by decide)⟩

/-! ## Date ranges (C19) -/

/-- C19 at two inputs.  From 2 December 2015 12:42:11 to 5 December 2015 13:42:11
the result has 30 keys, every day from `2015_12_02` to `2015_12_31`: the days from
the 5th on are not before the day of `end`.  From 31 December 2015 14:00:00 to
2 January 2016 13:00:00 the result is `2015_12_31` alone: 1 January is missing. -/
theorem C19_coverage_misses_range :
    (TimeKeyCoverage ⟨2015, 12, 2, clock 12 42 11⟩ ⟨2015, 12, 5, clock 13 42 11⟩).length = 30
      ∧ (TimeKeyCoverage ⟨2015, 12, 2, clock 12 42 11⟩ ⟨2015, 12, 5, clock 13 42 11⟩).take 5
          = ["2015_12_02".toList, "2015_12_03".toList, "2015_12_04".toList,
              "2015_12_05".toList, "2015_12_06".toList]
      ∧ (TimeKeyCoverage ⟨2015, 12, 2, clock 12 42 11⟩ ⟨2015, 12, 5, clock 13 42 11⟩).getLast?
          = some "2015_12_31".toList
      ∧ TimeKeyCoverage ⟨2015, 12, 31, clock 14 0 0⟩ ⟨2016, 1, 2, clock 13 0 0⟩
          = ["2015_12_31".toList] := by
  decide

/-! ## The scheduler (C14 – C18, C20) -/

/-- C14. On a dispatch tick at time `now` with the store not marked failed, for a
mirror `k` of the registry that `range` visits once: `k` is appended to the
health-check queue and `checking[k]` becomes true if and only if the mirror is
enabled, `lastCheck[k] + 60*CheckInterval < now`, `checking[k]` was false,
`IsHandled(k)` holds and the queue is not full when `k` is visited; otherwise the
queue is not changed for `k` and `checking[k]` keeps its value. -/
theorem C14_dispatch_rule {α : Type} [LinearOrder α] (m : Monitor α) (cfg : Config)
    (now : Int) (pre post : List α) (ready : Nat) (k : α) (v : Mirror α)
    (hk : m.mirrors k = some v) (hpre : k ∉ pre) (hpost : k ∉ post) :
    ((v.mirror.Enabled = true ∧ v.lastCheck + 60 * cfg.CheckInterval < now
          ∧ v.checking = false ∧ m.cluster.IsHandled k = true
          ∧ (pre.foldl (dispatchOne cfg now) (m, ready)).1.healthCheckChan.length
              < healthCheckThreads * 5) →
        (dispatchOne cfg now (pre.foldl (dispatchOne cfg now) (m, ready)) k).1.healthCheckChan
            = (pre.foldl (dispatchOne cfg now) (m, ready)).1.healthCheckChan ++ [k]
          ∧ (m.dispatchTick cfg now false (pre ++ k :: post) ready).healthCheckChan.count k
            = m.healthCheckChan.count k + 1
          ∧ (m.dispatchTick cfg now false (pre ++ k :: post) ready).checking k = true)
      ∧ (¬ (v.mirror.Enabled = true ∧ v.lastCheck + 60 * cfg.CheckInterval < now
          ∧ v.checking = false ∧ m.cluster.IsHandled k = true
          ∧ (pre.foldl (dispatchOne cfg now) (m, ready)).1.healthCheckChan.length
              < healthCheckThreads * 5) →
        (dispatchOne cfg now (pre.foldl (dispatchOne cfg now) (m, ready)) k).1.healthCheckChan
            = (pre.foldl (dispatchOne cfg now) (m, ready)).1.healthCheckChan
          ∧ (m.dispatchTick cfg now false (pre ++ k :: post) ready).healthCheckChan.count k
            = m.healthCheckChan.count k
          ∧ (m.dispatchTick cfg now false (pre ++ k :: post) ready).checking k = v.checking) := by
  have hturn := dispatch_fold_frame cfg now k pre (m, ready) hpre
  have hcl := dispatch_fold_cluster cfg now pre (m, ready)
  have hbody := dispatchOne_self cfg now (pre.foldl (dispatchOne cfg now) (m, ready)) k v
    (hturn.1.trans hk)
  have hfin := dispatch_fold_frame cfg now k post
    (dispatchOne cfg now (pre.foldl (dispatchOne cfg now) (m, ready)) k) hpost
  have htick : m.dispatchTick cfg now false (pre ++ k :: post) ready
      = (post.foldl (dispatchOne cfg now)
          (dispatchOne cfg now (pre.foldl (dispatchOne cfg now) (m, ready)) k)).1 := by
    simp [Monitor.dispatchTick, List.foldl_append]
  have hchk : (m.dispatchTick cfg now false (pre ++ k :: post) ready).checking k
      = (dispatchOne cfg now (pre.foldl (dispatchOne cfg now) (m, ready)) k).1.checking k := by
    rw [htick]
    unfold Monitor.checking
    rw [hfin.1]
  rw [hcl] at hbody
  rw [hchk, htick, hfin.2, hbody.1, hbody.2]
  constructor
  · intro hc
    rw [if_pos hc, if_pos hc]
    refine ⟨rfl, ?_, rfl⟩
    rw [List.count_append, hturn.2]
    simp
  · intro hc
    rw [if_neg hc, if_neg hc]
    exact ⟨rfl, hturn.2, rfl⟩

/-- C14 on the registry `{m1}`: the tick at time 1000 enqueues `m1` and sets its
flag, and the next tick, which finds the flag set, does not enqueue it again. -/
theorem C14_dispatch_rule_witness :
    ((oneMirror.dispatchTick minuteConfig 1000 false ([] ++ "m1".toList :: []) 0).healthCheckChan.count
          "m1".toList = oneMirror.healthCheckChan.count "m1".toList + 1
        ∧ (oneMirror.dispatchTick minuteConfig 1000 false ([] ++ "m1".toList :: []) 0).checking
            "m1".toList = true)
      ∧ ((oneMirror.dispatchTick minuteConfig 1000 false ["m1".toList] 0).dispatchTick
            minuteConfig 1001 false ([] ++ "m1".toList :: []) 0).healthCheckChan.count "m1".toList
          = (oneMirror.dispatchTick minuteConfig 1000 false ["m1".toList] 0).healthCheckChan.count
              "m1".toList :=
  ⟨((C14_dispatch_rule oneMirror minuteConfig 1000 [] [] 0 "m1".toList
        { mirror := mirrorM1, checking := false, scanning := false, lastCheck := 0 }
        (by decide) (by decide) (by decide)).1
      ⟨by decide, by decide, by decide, by decide, by decide⟩).2,
    ((C14_dispatch_rule (oneMirror.dispatchTick minuteConfig 1000 false ["m1".toList] 0)
        minuteConfig 1001 [] [] 0 "m1".toList
        { mirror := mirrorM1, checking := true, scanning := false, lastCheck := 0 }
        (by decide) (by decide) (by decide)).2
      (by decide)).2.1⟩

/-- C15. When a health-check worker finishes the ID `k` of a registry entry: after
the outcome `mirrorNotScanned` the entry is unchanged (`checking` and `lastCheck`
keep their values); after a store-loading error `checking` is false and
`lastCheck` is unchanged; after any other outcome `checking` is false and
`lastCheck` is `now`.  No other entry changes. -/
theorem C15_worker_flag_discipline {α : Type} [LinearOrder α] (m : Monitor α) (k : α)
    (v : Mirror α) (now : Int) (hk : m.mirrors k = some v) :
    (m.healthCheckFinish k .mirrorNotScanned now).mirrors k = some v
      ∧ (m.healthCheckFinish k .redisLoading now).mirrors k = some { v with checking := false }
      ∧ (m.healthCheckFinish k .other now).mirrors k
          = some { v with checking := false, lastCheck := now }
      ∧ ∀ (outcome : HealthOutcome) (j : α), j ≠ k →
          (m.healthCheckFinish k outcome now).mirrors j = m.mirrors j := by
  refine ⟨?_, ?_, ?_, ?_⟩
  · simp [Monitor.healthCheckFinish, hk]
  · simp [Monitor.healthCheckFinish, Monitor.modify, hk]
  · simp [Monitor.healthCheckFinish, Monitor.modify, hk]
  · intro outcome j hj
    cases outcome <;> simp [Monitor.healthCheckFinish, Monitor.modify, hj]

/-- C15 on `m1` after it was enqueued and received: the sentinel leaves
`checking` set, any other outcome at time 1005 clears it and stamps `lastCheck`. -/
theorem C15_worker_flag_discipline_witness :
    ((oneMirror.dispatchTick minuteConfig 1000 false ["m1".toList] 0).healthCheckFinish
        "m1".toList .mirrorNotScanned 1005).mirrors "m1".toList
        = some { mirror := mirrorM1, checking := true, scanning := false, lastCheck := 0 }
      ∧ ((oneMirror.dispatchTick minuteConfig 1000 false ["m1".toList] 0).healthCheckFinish
        "m1".toList .other 1005).mirrors "m1".toList
        = some { ({ mirror := mirrorM1, checking := true, scanning := false, lastCheck := 0 } :
            Mirror (List Char)) with checking := false, lastCheck := 1005 } :=
  ⟨(C15_worker_flag_discipline
      (oneMirror.dispatchTick minuteConfig 1000 false ["m1".toList] 0) "m1".toList
      { mirror := mirrorM1, checking := true, scanning := false, lastCheck := 0 } 1005
      (by decide)).1,
    (C15_worker_flag_discipline
      (oneMirror.dispatchTick minuteConfig 1000 false ["m1".toList] 0) "m1".toList
      { mirror := mirrorM1, checking := true, scanning := false, lastCheck := 0 } 1005
      (by decide)).2.2.1⟩

/-- C16 as stated fails at three reachable states.  After a tick that dispatches
both a health check and a scan of `m1` (a mirror that is down), the scan worker
that finishes sends a second health check of `m1`: two are pending.  After a
health check that ends with `mirrorNotScanned`, `checking[m1]` is set while no
health check is pending or in progress.  And when the entry of `m1` is deleted
and created again while a health check and a scan of `m1` are under way, the next
tick dispatches both once more: two health checks and two scans of `m1`. -/
theorem C16_counterexample :
    (Monitor.run minuteConfig
        [.hello "hostA".toList "hostA".toList 0, .sync "m1".toList (.ok mirrorM1),
          .tick 1000 ["m1".toList] 1, .syncReceive,
          .syncFinish "m1".toList (.scanned false)]).checks "m1".toList = 2
      ∧ (Monitor.run minuteConfig
        [.hello "hostA".toList "hostA".toList 0, .sync "m1".toList (.ok mirrorM1),
          .tick 1000 ["m1".toList] 0, .healthCheckReceive,
          .healthCheckFinish "m1".toList .mirrorNotScanned 1001]).checking "m1".toList = true
      ∧ (Monitor.run minuteConfig
        [.hello "hostA".toList "hostA".toList 0, .sync "m1".toList (.ok mirrorM1),
          .tick 1000 ["m1".toList] 0, .healthCheckReceive,
          .healthCheckFinish "m1".toList .mirrorNotScanned 1001]).checks "m1".toList = 0
      ∧ (Monitor.run minuteConfig
        [.hello "hostA".toList "hostA".toList 0, .sync "m1".toList (.ok mirrorM1),
          .tick 1000 ["m1".toList] 1, .healthCheckReceive, .syncReceive,
          .sync "m1".toList (.errNil zeroRecord), .sync "m1".toList (.ok mirrorM1),
          .tick 1001 ["m1".toList] 1]).checks "m1".toList = 2
      ∧ (Monitor.run minuteConfig
        [.hello "hostA".toList "hostA".toList 0, .sync "m1".toList (.ok mirrorM1),
          .tick 1000 ["m1".toList] 1, .healthCheckReceive, .syncReceive,
          .sync "m1".toList (.errNil zeroRecord), .sync "m1".toList (.ok mirrorM1),
          .tick 1001 ["m1".toList] 1]).scans "m1".toList = 2 := by
  decide

/-- C16, amended. In every state reached from the new monitor by dispatch ticks,
health-check workers receiving and finishing an ID, scan workers receiving and
finishing an ID, registry syncs and cluster announcements, and for every mirror
ID: when `scanning` is set, a scan is handed over or in progress.  If no step of
the run deleted a registry entry, at most one scan is handed over or in
progress, and there is one exactly when `scanning` is set.  If no health check
of the run ended with `mirrorNotScanned`, then when `checking` is set a health
check is pending or in progress.  If no step of the run deleted a registry entry
or sent the follow-up health check of a mirror that is down, at most one health
check is pending or in progress, and when there is one `checking` is set. -/
theorem C16_scheduler_exclusion {α : Type} [LinearOrder α] (cfg : Config)
    (events : List (SchedEvent α)) (k : α) :
    ((Monitor.run cfg events).scanning k = true → 1 ≤ (Monitor.run cfg events).scans k)
      ∧ ((∀ ev ∈ events, ev.deletes = false) →
          (Monitor.run cfg events).scans k ≤ 1
            ∧ (1 ≤ (Monitor.run cfg events).scans k ↔
                (Monitor.run cfg events).scanning k = true))
      ∧ ((∀ ev ∈ events, ev.notScanned = false) →
          (Monitor.run cfg events).checking k = true → 1 ≤ (Monitor.run cfg events).checks k)
      ∧ ((∀ ev ∈ events, ev.deletes = false ∧ ev.followsUp = false) →
          (Monitor.run cfg events).checks k ≤ 1
            ∧ (1 ≤ (Monitor.run cfg events).checks k →
                (Monitor.run cfg events).checking k = true)) :=
  ⟨scanHeld_run cfg events k,
    fun hev => ⟨(scanExclusive_run cfg events hev k).1,
      (scanExclusive_run cfg events hev k).2, scanHeld_run cfg events k⟩,
    fun hev => checkHeld_run cfg events hev k,
    fun hev => checkExclusive_run cfg events hev k⟩

/-- C16 (amended) on two runs.  In the first `m1` is dispatched for a health
check and a scan, both are received, the check ends with `mirrorNotScanned` and
the scan ends on a mirror that is down, with its follow-up health check: no step
deletes an entry, and the scans of `m1` are exclusive.  In the second both are
received and still in progress: no step deletes, follows up or ends with
`mirrorNotScanned`, and all of the claim holds. -/
theorem C16_scheduler_exclusion_witness :
    ((Monitor.run minuteConfig
        [.hello "hostA".toList "hostA".toList 0, .sync "m1".toList (.ok mirrorM1),
          .tick 1000 ["m1".toList] 1, .healthCheckReceive, .syncReceive,
          .healthCheckFinish "m1".toList .mirrorNotScanned 1001,
          .syncFinish "m1".toList (.scanned false)]).scans "m1".toList ≤ 1
      ∧ (1 ≤ (Monitor.run minuteConfig
        [.hello "hostA".toList "hostA".toList 0, .sync "m1".toList (.ok mirrorM1),
          .tick 1000 ["m1".toList] 1, .healthCheckReceive, .syncReceive,
          .healthCheckFinish "m1".toList .mirrorNotScanned 1001,
          .syncFinish "m1".toList (.scanned false)]).scans "m1".toList ↔
        (Monitor.run minuteConfig
        [.hello "hostA".toList "hostA".toList 0, .sync "m1".toList (.ok mirrorM1),
          .tick 1000 ["m1".toList] 1, .healthCheckReceive, .syncReceive,
          .healthCheckFinish "m1".toList .mirrorNotScanned 1001,
          .syncFinish "m1".toList (.scanned false)]).scanning "m1".toList = true))
      ∧ ((Monitor.run minuteConfig
        [.hello "hostA".toList "hostA".toList 0, .sync "m1".toList (.ok mirrorM1),
          .tick 1000 ["m1".toList] 1, .healthCheckReceive,
          .syncReceive]).scanning "m1".toList = true →
        1 ≤ (Monitor.run minuteConfig
        [.hello "hostA".toList "hostA".toList 0, .sync "m1".toList (.ok mirrorM1),
          .tick 1000 ["m1".toList] 1, .healthCheckReceive,
          .syncReceive]).scans "m1".toList)
      ∧ ((Monitor.run minuteConfig
        [.hello "hostA".toList "hostA".toList 0, .sync "m1".toList (.ok mirrorM1),
          .tick 1000 ["m1".toList] 1, .healthCheckReceive,
          .syncReceive]).checking "m1".toList = true →
        1 ≤ (Monitor.run minuteConfig
        [.hello "hostA".toList "hostA".toList 0, .sync "m1".toList (.ok mirrorM1),
          .tick 1000 ["m1".toList] 1, .healthCheckReceive,
          .syncReceive]).checks "m1".toList)
      ∧ ((Monitor.run minuteConfig
        [.hello "hostA".toList "hostA".toList 0, .sync "m1".toList (.ok mirrorM1),
          .tick 1000 ["m1".toList] 1, .healthCheckReceive,
          .syncReceive]).checks "m1".toList ≤ 1
        ∧ (1 ≤ (Monitor.run minuteConfig
        [.hello "hostA".toList "hostA".toList 0, .sync "m1".toList (.ok mirrorM1),
          .tick 1000 ["m1".toList] 1, .healthCheckReceive,
          .syncReceive]).checks "m1".toList →
        (Monitor.run minuteConfig
        [.hello "hostA".toList "hostA".toList 0, .sync "m1".toList (.ok mirrorM1),
          .tick 1000 ["m1".toList] 1, .healthCheckReceive,
          .syncReceive]).checking "m1".toList = true)) :=
  ⟨(C16_scheduler_exclusion minuteConfig
      [.hello "hostA".toList "hostA".toList 0, .sync "m1".toList (.ok mirrorM1),
        .tick 1000 ["m1".toList] 1, .healthCheckReceive, .syncReceive,
        .healthCheckFinish "m1".toList .mirrorNotScanned 1001,
        .syncFinish "m1".toList (.scanned false)] "m1".toList).2.1 (by decide),
    (C16_scheduler_exclusion minuteConfig
      [.hello "hostA".toList "hostA".toList 0, .sync "m1".toList (.ok mirrorM1),
        .tick 1000 ["m1".toList] 1, .healthCheckReceive, .syncReceive] "m1".toList).1,
    (C16_scheduler_exclusion minuteConfig
      [.hello "hostA".toList "hostA".toList 0, .sync "m1".toList (.ok mirrorM1),
        .tick 1000 ["m1".toList] 1, .healthCheckReceive, .syncReceive] "m1".toList).2.2.1
      (by decide),
    (C16_scheduler_exclusion minuteConfig
      [.hello "hostA".toList "hostA".toList 0, .sync "m1".toList (.ok mirrorM1),
        .tick 1000 ["m1".toList] 1, .healthCheckReceive, .syncReceive] "m1".toList).2.2.2
      (by decide)⟩

/-- C17 in two parts.  After `syncMirrorList(id)` with an absent mirror, `id` is
not a key of the registry, whatever record comes with `redis.ErrNil`.  But the ID
removed from `mirrorsIndex` is the one of that record: with the zero record that
accompanies the error, `m1` is still in `mirrorsIndex` after its deletion. -/
theorem C17_deleted_id_stays_in_index :
    (∀ (m : Monitor (List Char)) (id : List Char) (mirror : MirrorRecord (List Char)),
        (m.syncMirrorList [(id, .errNil mirror)]).mirrors id = none)
      ∧ oneMirror.cluster.mirrorsIndex = ["m1".toList]
      ∧ (oneMirror.syncMirrorList [("m1".toList, .errNil zeroRecord)]).mirrors "m1".toList = none
      ∧ (oneMirror.syncMirrorList [("m1".toList, .errNil zeroRecord)]).cluster.mirrorsIndex
          = ["m1".toList] := by
  refine ⟨?_, by decide, by decide, by decide⟩
  intro m id mirror
  simp [Monitor.syncMirrorList, Monitor.syncMirror]

/-- C18. After `syncMirrorList(id)` with a successful fetch of a record whose ID
is `id`: an existing entry holds the fetched record and its former `checking`,
`scanning` and `lastCheck`; a new entry holds the fetched record with both flags
false and `lastCheck = 0`; every other entry is unchanged; `id` is in the
cluster's `mirrorsIndex`. -/
theorem C18_registry_upsert_frame {α : Type} [LinearOrder α] (m : Monitor α) (id : α)
    (mirror : MirrorRecord α) (hid : mirror.ID = id) :
    (∀ v, m.mirrors id = some v →
        (m.syncMirrorList [(id, .ok mirror)]).mirrors id
          = some { mirror := mirror, checking := v.checking, scanning := v.scanning,
                   lastCheck := v.lastCheck })
      ∧ (m.mirrors id = none →
        (m.syncMirrorList [(id, .ok mirror)]).mirrors id
          = some { mirror := mirror, checking := false, scanning := false, lastCheck := 0 })
      ∧ (∀ j, j ≠ id → (m.syncMirrorList [(id, .ok mirror)]).mirrors j = m.mirrors j)
      ∧ id ∈ (m.syncMirrorList [(id, .ok mirror)]).cluster.mirrorsIndex := by
  subst hid
  refine ⟨?_, ?_, ?_, ?_⟩
  · intro v hv
    simp [Monitor.syncMirrorList, Monitor.syncMirror, hv]
  · intro hv
    simp [Monitor.syncMirrorList, Monitor.syncMirror, hv]
  · intro j hj
    simp only [Monitor.syncMirrorList, List.foldl_cons, List.foldl_nil, Monitor.syncMirror]
    cases m.mirrors mirror.ID <;> simp [hj]
  · simp only [Monitor.syncMirrorList, List.foldl_cons, List.foldl_nil, Monitor.syncMirror]
    cases m.mirrors mirror.ID <;>
      exact mem_addMirrorIDToSlice _ _

/-- C18 on `m1`, enqueued for a health check and then fetched again as a mirror
that is up: the record is replaced and `checking` stays set. -/
theorem C18_registry_upsert_frame_witness :
    ((oneMirror.dispatchTick minuteConfig 1000 false ["m1".toList] 0).syncMirrorList
        [("m1".toList, .ok { mirrorM1 with Up := true })]).mirrors "m1".toList
      = some { mirror := { mirrorM1 with Up := true }, checking := true, scanning := false,
               lastCheck := 0 } :=
  (C18_registry_upsert_frame (oneMirror.dispatchTick minuteConfig 1000 false ["m1".toList] 0)
      "m1".toList { mirrorM1 with Up := true } rfl).1
    { mirror := mirrorM1, checking := true, scanning := false, lastCheck := 0 } (by decide)

/-- C20 on the registry `{m1}`: a dispatch tick enqueues `m1`, then
`syncMirrorList(m1)` finds the mirror absent and deletes the entry.  The ID is
still in the health-check queue, it is not a key of the registry, and the lookup
of the worker that receives it yields nil. -/
theorem C20_queued_id_without_entry :
    (Monitor.run minuteConfig
        [.hello "hostA".toList "hostA".toList 0, .sync "m1".toList (.ok mirrorM1),
          .tick 1000 ["m1".toList] 0, .sync "m1".toList (.errNil zeroRecord)]).healthCheckChan
        = ["m1".toList]
      ∧ (Monitor.run minuteConfig
        [.hello "hostA".toList "hostA".toList 0, .sync "m1".toList (.ok mirrorM1),
          .tick 1000 ["m1".toList] 0, .sync "m1".toList (.errNil zeroRecord)]).mirrors
          "m1".toList = none
      ∧ (match (Monitor.run minuteConfig
        [.hello "hostA".toList "hostA".toList 0, .sync "m1".toList (.ok mirrorM1),
          .tick 1000 ["m1".toList] 0,
          .sync "m1".toList (.errNil zeroRecord)]).healthCheckReceive with
          | .nilEntry k => decide (k = "m1".toList)
          | _ => false) = true := by
  decide

end Mirrorbits
